import Mathlib

/-!
# godockerui: the runtime-state provider

A shallow embedding of `internal/model/container.go` and
`internal/service/docker_service.go`, followed by theorems about it.

Go strings are byte sequences: `len` counts bytes and `s[:n]` slices bytes.
They are embedded as lists of byte values, and a "character" of an
identifier is one byte (identifiers of the engine are ASCII).
-/

namespace GoDockerUI

/-! ## Go strings -/

/-- A Go string: its bytes, in order. -/
abbrev GoString := List Nat

/-- UTF-8 encoding of one code point, as Go source literals are encoded. -/
def utf8Encode (c : Nat) : List Nat :=
  if c < 0x80 then [c]
  else if c < 0x800 then [0xC0 + c / 64, 0x80 + c % 64]
  else if c < 0x10000 then [0xE0 + c / 4096, 0x80 + c / 64 % 64, 0x80 + c % 64]
  else [0xF0 + c / 262144, 0x80 + c / 4096 % 64, 0x80 + c / 64 % 64, 0x80 + c % 64]

/-- The Go string denoted by a string literal of the source. -/
def lit (s : String) : GoString :=
  s.toList.flatMap (fun c => utf8Encode c.toNat)

/-- Value of `utf8.RuneSelf`: bytes below it are ASCII. -/
def RuneSelf : Nat := 0x80

/-- Whether every byte of the string is ASCII. -/
def isASCII (s : GoString) : Bool :=
  s.all (fun b => decide (b < RuneSelf))

/-- Lower-casing of one ASCII byte: `A`..`Z` go to `a`..`z`. -/
def lowerByte (b : Nat) : Nat :=
  if 65 ≤ b ∧ b ≤ 90 then b + 32 else b

/-- Upper-casing of one ASCII byte: `a`..`z` go to `A`..`Z`. -/
def upperByte (b : Nat) : Nat :=
  if 97 ≤ b ∧ b ≤ 122 then b - 32 else b

/-- Go `strings.HasPrefix`. -/
def HasPrefix (s pre : GoString) : Bool :=
  pre.isPrefixOf s

/-- Go `strings.TrimPrefix`: `s` without the leading `pre`, if it has it. -/
def TrimPrefix (s pre : GoString) : GoString :=
  if HasPrefix s pre then s.drop pre.length else s

/-- Go `strings.HasSuffix`. -/
def HasSuffix (s suf : GoString) : Bool :=
  suf.isSuffixOf s

/-- Go `strings.TrimSuffix`: `s` without the trailing `suf`, if it has it. -/
def TrimSuffix (s suf : GoString) : GoString :=
  if HasSuffix s suf then s.take (s.length - suf.length) else s

/-- Go `strings.Contains`: `sub` occurs in `s` at some byte offset. -/
def Contains (s sub : GoString) : Bool :=
  s.tails.any (fun t => sub.isPrefixOf t)

/-- Go `strings.Split` at a one-byte separator (the source splits at `"\n"` only):
the pieces between the separators, one more piece than separators. -/
def Split : GoString → Nat → List GoString
  | [], _ => [[]]
  | b :: rest, sep =>
    if b = sep then [] :: Split rest sep
    else
      match Split rest sep with
      | [] => [[b]]
      | piece :: pieces => (b :: piece) :: pieces

/-- UTF-8 encodings of the runes for which Go `unicode.IsSpace` holds:
tab, line feed, vertical tab, form feed, carriage return, space, U+0085,
U+00A0, U+1680, U+2000 to U+200A, U+2028, U+2029, U+202F, U+205F, U+3000. -/
def spaceRunes : List GoString :=
  [[9], [10], [11], [12], [13], [32], [0xC2, 0x85], [0xC2, 0xA0], [0xE1, 0x9A, 0x80]]
    ++ (List.range 11).map (fun k => [0xE2, 0x80, 0x80 + k])
    ++ [[0xE2, 0x80, 0xA8], [0xE2, 0x80, 0xA9], [0xE2, 0x80, 0xAF], [0xE2, 0x81, 0x9F],
        [0xE3, 0x80, 0x80]]

/-- Number of bytes of the white-space rune `s` starts with, `0` when it starts
with none. -/
def leadingSpace (s : GoString) : Nat :=
  match spaceRunes.find? (fun r => r.isPrefixOf s) with
  | some r => r.length
  | none => 0

/-- Number of bytes of the white-space rune `s` ends with, `0` when it ends
with none. -/
def trailingSpace (s : GoString) : Nat :=
  match spaceRunes.find? (fun r => r.isSuffixOf s) with
  | some r => r.length
  | none => 0

/-- Strips leading white-space runes; `fuel` bounds the number of runes. -/
def trimLeftSpace : Nat → GoString → GoString
  | 0, s => s
  | fuel + 1, s =>
    match leadingSpace s with
    | 0 => s
    | k + 1 => trimLeftSpace fuel (s.drop (k + 1))

/-- Strips trailing white-space runes; `fuel` bounds the number of runes. -/
def trimRightSpace : Nat → GoString → GoString
  | 0, s => s
  | fuel + 1, s =>
    match trailingSpace s with
    | 0 => s
    | k + 1 => trimRightSpace fuel (s.take (s.length - (k + 1)))

/-- Go `strings.TrimSpace`: `s` without leading and trailing white space, as
defined by Unicode. -/
def TrimSpace (s : GoString) : GoString :=
  trimRightSpace s.length (trimLeftSpace s.length s)

/-- Scanner of `Fields`: `skip` counts the bytes still to pass of a multi-byte
white-space rune, `cur` is the field being read, reversed. -/
def fieldsAux : GoString → Nat → GoString → List GoString
  | [], _, cur => if cur = [] then [] else [cur.reverse]
  | _ :: rest, skip + 1, cur => fieldsAux rest skip cur
  | b :: rest, 0, cur =>
    match leadingSpace (b :: rest) with
    | 0 => fieldsAux rest 0 (b :: cur)
    | k + 1 => (if cur = [] then [] else [cur.reverse]) ++ fieldsAux rest k []

/-- Go `strings.Fields`: the maximal runs of bytes between white-space runes. -/
def Fields (s : GoString) : List GoString :=
  fieldsAux s 0 []

/-! ## Runtime and library primitives -/

/-- An IEEE-754 binary64 value (Go `float64`), by its bit pattern. -/
structure Float64 where
  bits : Nat
  deriving DecidableEq, Repr

/-- Fields of one line of `docker ps --format` output, as decoded in
`cliProvider.listContainers`. -/
structure psItem where
  ID : GoString
  Names : GoString
  Image : GoString
  State : GoString
  Status : GoString
  Command : GoString
  deriving DecidableEq, Repr

/-- Fields of one line of `docker images --format` output, as decoded in
`cliProvider.listImages`. -/
structure imagesItem where
  ID : GoString
  Repository : GoString
  Tag : GoString
  Size : GoString
  deriving DecidableEq, Repr

/-- What the program takes from outside the repository: the engine process,
the JSON decoder, Unicode case mapping and `float64` arithmetic.  The
definitions below are parametric in it. -/
structure Runtime where
  /-- The function `strings.ToLower` on a string with a non-ASCII byte. -/
  unicodeToLower : GoString → GoString
  /-- The function `strings.ToUpper` on a string with a non-ASCII byte. -/
  unicodeToUpper : GoString → GoString
  /-- Outcome of `exec.CommandContext(ctx, bin, args...).CombinedOutput()`: the
  captured output, and the text of the error if there is one. -/
  CombinedOutput : GoString → List GoString → GoString × Option GoString
  /-- Outcome of `json.Unmarshal` of a line into the container record. -/
  UnmarshalContainer : GoString → Except GoString psItem
  /-- Outcome of `json.Unmarshal` of a line into the image record. -/
  UnmarshalImage : GoString → Except GoString imagesItem
  /-- The call `fmt.Sscanf(s, "%f", &value)`: the scanned value, `none` on error. -/
  SscanfFloat : GoString → Option Float64
  /-- The product `value * 1024` in `float64`. -/
  mul1024 : Float64 → Float64
  /-- The quotient `value / 1024` in `float64`. -/
  div1024 : Float64 → Float64
  /-- The conversion `int64(value)`. -/
  toInt64 : Float64 → Int

/-- Go `strings.ToLower`: bytewise on ASCII strings, Unicode otherwise. -/
def ToLower (rt : Runtime) (s : GoString) : GoString :=
  if isASCII s then s.map lowerByte else rt.unicodeToLower s

/-- Go `strings.ToUpper`: bytewise on ASCII strings, Unicode otherwise. -/
def ToUpper (rt : Runtime) (s : GoString) : GoString :=
  if isASCII s then s.map upperByte else rt.unicodeToUpper s

/-! ## Model types (`internal/model/container.go`) -/

/-- Go `model.Container`. -/
structure Container where
  ID : GoString
  Name : GoString
  Image : GoString
  State : GoString
  Status : GoString
  Command : GoString
  deriving DecidableEq, Repr

/-- Go `model.Image`. -/
structure Image where
  ID : GoString
  RepoTags : GoString
  SizeMB : Int
  Created : Int
  deriving DecidableEq, Repr

/-- Go `model.Dashboard`. -/
structure Dashboard where
  ContainersTotal : Int
  ContainersUp : Int
  ContainersDown : Int
  ImagesTotal : Int
  Simulated : Bool
  deriving DecidableEq, Repr

/-- The errors the service builds, by the message they are built with. -/
inductive Error where
  /-- The error `"docker %s failed: %v (%s)"` of `cliProvider.output`: the arguments,
  the cause and the trimmed output. -/
  | invocation (args : List GoString) (cause : GoString) (output : GoString)
  /-- The error `"parse container output: %w"`. -/
  | parseContainer (cause : GoString)
  /-- The error `"parse image output: %w"`. -/
  | parseImage (cause : GoString)
  /-- The error `"container id is required"`. -/
  | idRequired
  /-- The error `"container not found: " + id`. -/
  | notFound (id : GoString)
  deriving DecidableEq, Repr

/-! ## Helpers of `docker_service.go` -/

/-- Go `shortID`. -/
def shortID (id : GoString) : GoString :=
  let id := if HasPrefix id (lit "sha256:") then TrimPrefix id (lit "sha256:") else id
  if id.length ≤ 12 then id else id.take 12

/-- Go `normalizeState`. -/
def normalizeState (rt : Runtime) (state : GoString) : GoString :=
  if Contains (ToLower rt state) (lit "up") || ToLower rt state == lit "running" then
    lit "running"
  else
    lit "exited"

/-- The loop over the suffixes in `parseSizeMB`: the unit and the value scanned
from the token without it; `none` where the source returns 0 on a scan error. -/
def scanSuffix (rt : Runtime) (token : GoString) (value : Float64) :
    List GoString → Option (GoString × Float64)
  | [] => some (lit "MB", value)
  | s :: rest =>
    if HasSuffix token s then
      match rt.SscanfFloat (TrimSuffix token s) with
      | none => none
      | some v => some (s, v)
    else scanSuffix rt token value rest

/-- Go `parseSizeMB`. -/
def parseSizeMB (rt : Runtime) (size : GoString) : Int :=
  match Fields (TrimSpace (ToUpper rt size)) with
  | [] => 0
  | first :: more =>
    match rt.SscanfFloat first with
    | none => 0
    | some value =>
      let scanned : Option (GoString × Float64) :=
        match more with
        | second :: _ => some (second, value)
        | [] =>
          if HasSuffix first (lit "GB") || HasSuffix first (lit "MB")
              || HasSuffix first (lit "KB") || HasSuffix first (lit "B") then
            scanSuffix rt first value [lit "GB", lit "MB", lit "KB", lit "B"]
          else some (lit "MB", value)
      match scanned with
      | none => 0
      | some (unit, value) =>
        if unit = lit "GB" then rt.toInt64 (rt.mul1024 value)
        else if unit = lit "KB" then rt.toInt64 (rt.div1024 value)
        else if unit = lit "B" then rt.toInt64 (rt.div1024 (rt.div1024 value))
        else rt.toInt64 value

/-- Go `ValidateContainerID`: the error, if any. -/
def ValidateContainerID (id : GoString) : Option Error :=
  if TrimSpace id = lit "" then some Error.idRequired else none

/-- The loop of `dashboard`: the number of containers whose state is `"running"`. -/
def countUp (containers : List Container) : Int :=
  containers.foldl (fun up c => if c.State = lit "running" then up + 1 else up) 0

/-! ## The live adapter -/

/-- Go `cliProvider`. -/
structure cliProvider where
  dockerBin : GoString
  deriving DecidableEq, Repr

/-- Go `cliProvider.output`. -/
def cliProvider.output (rt : Runtime) (p : cliProvider) (args : List GoString) :
    Except Error GoString :=
  match rt.CombinedOutput p.dockerBin args with
  | (data, some err) => .error (Error.invocation args err (TrimSpace data))
  | (data, none) => .ok data

/-- Go `cliProvider.raw`: the error, if any. -/
def cliProvider.raw (rt : Runtime) (p : cliProvider) (args : List GoString) : Option Error :=
  match p.output rt args with
  | .error err => some err
  | .ok _ => none

/-- The decoding loop of `cliProvider.listContainers`. -/
def decodeContainers (rt : Runtime) : List GoString → Except Error (List Container)
  | [] => .ok []
  | line :: lines =>
    match rt.UnmarshalContainer line with
    | .error err => .error (Error.parseContainer err)
    | .ok item =>
      match decodeContainers rt lines with
      | .error err => .error err
      | .ok result =>
        .ok ({ ID := shortID item.ID, Name := item.Names, Image := item.Image,
               State := normalizeState rt item.State, Status := item.Status,
               Command := item.Command } :: result)

/-- Go `cliProvider.listContainers`. -/
def cliProvider.listContainers (rt : Runtime) (p : cliProvider) : Except Error (List Container) :=
  match p.output rt [lit "ps", lit "-a", lit "--no-trunc", lit "--format",
      lit "\x7b\x7bjson .\x7d\x7d"] with
  | .error err => .error err
  | .ok out =>
    match Split (TrimSpace out) 10 with
    | [[]] => .ok []
    | lines => decodeContainers rt lines

/-- The decoding loop of `cliProvider.listImages`. -/
def decodeImages (rt : Runtime) : List GoString → Except Error (List Image)
  | [] => .ok []
  | line :: lines =>
    match rt.UnmarshalImage line with
    | .error err => .error (Error.parseImage err)
    | .ok item =>
      match decodeImages rt lines with
      | .error err => .error err
      | .ok result =>
        .ok ({ ID := shortID item.ID,
               RepoTags := TrimSpace (item.Repository ++ lit ":" ++ item.Tag),
               SizeMB := parseSizeMB rt item.Size, Created := 0 } :: result)

/-- Go `cliProvider.listImages`. -/
def cliProvider.listImages (rt : Runtime) (p : cliProvider) : Except Error (List Image) :=
  match p.output rt [lit "images", lit "--no-trunc", lit "--format",
      lit "\x7b\x7bjson .\x7d\x7d"] with
  | .error err => .error err
  | .ok out =>
    match Split (TrimSpace out) 10 with
    | [[]] => .ok []
    | lines => decodeImages rt lines

/-- Go `cliProvider.dashboard`. -/
def cliProvider.dashboard (rt : Runtime) (p : cliProvider) : Except Error Dashboard :=
  match p.listContainers rt with
  | .error err => .error err
  | .ok containers =>
    match p.listImages rt with
    | .error err => .error err
    | .ok images =>
      let up := countUp containers
      .ok { ContainersTotal := containers.length, ContainersUp := up,
            ContainersDown := containers.length - up, ImagesTotal := images.length,
            Simulated := false }

/-- Go `cliProvider.startContainer`: the error, if any. -/
def cliProvider.startContainer (rt : Runtime) (p : cliProvider) (id : GoString) : Option Error :=
  match ValidateContainerID id with
  | some err => some err
  | none => p.raw rt [lit "start", id]

/-- Go `cliProvider.stopContainer`: the error, if any. -/
def cliProvider.stopContainer (rt : Runtime) (p : cliProvider) (id : GoString) : Option Error :=
  match ValidateContainerID id with
  | some err => some err
  | none => p.raw rt [lit "stop", id]

/-- Go `cliProvider.restartContainer`: the error, if any. -/
def cliProvider.restartContainer (rt : Runtime) (p : cliProvider) (id : GoString) : Option Error :=
  match ValidateContainerID id with
  | some err => some err
  | none => p.raw rt [lit "restart", id]

/-! ## The simulated adapter -/

/-- Go `simulatedProvider`: the snapshot.  The mutex is not part of the state;
every method below is one critical section, that is one atomic step. -/
structure simulatedProvider where
  containers : List Container
  images : List Image
  deriving DecidableEq, Repr

/-- Go `newSimulatedProvider`; `now` is `time.Now().Unix()`. -/
def newSimulatedProvider (now : Int) : simulatedProvider :=
  { containers :=
      [ { ID := lit "9df8a4a8ce2a", Name := lit "traefik-proxy", Image := lit "traefik:v3",
          State := lit "running", Status := lit "Up 3 hours",
          Command := lit "traefik --api.insecure=true" },
        { ID := lit "f41c8f4b7a9d", Name := lit "postgres-db", Image := lit "postgres:16",
          State := lit "running", Status := lit "Up 1 day",
          Command := lit "docker-entrypoint.sh postgres" },
        { ID := lit "52c0c9150e4f", Name := lit "redis-cache", Image := lit "redis:7",
          State := lit "exited", Status := lit "Exited (0) 2 hours ago",
          Command := lit "redis-server" } ],
    images :=
      [ { ID := lit "sha256:1a8d", RepoTags := lit "traefik:v3", SizeMB := 142,
          Created := now - 3600 * 48 },
        { ID := lit "sha256:8c42", RepoTags := lit "postgres:16", SizeMB := 386,
          Created := now - 3600 * 72 },
        { ID := lit "sha256:9f20", RepoTags := lit "redis:7", SizeMB := 114,
          Created := now - 3600 * 24 } ] }

/-- Go `simulatedProvider.dashboard`. -/
def simulatedProvider.dashboard (p : simulatedProvider) : Except Error Dashboard :=
  let up := countUp p.containers
  .ok { ContainersTotal := p.containers.length, ContainersUp := up,
        ContainersDown := p.containers.length - up, ImagesTotal := p.images.length,
        Simulated := true }

/-- Go `simulatedProvider.listContainers`. -/
def simulatedProvider.listContainers (p : simulatedProvider) : Except Error (List Container) :=
  .ok ([] ++ p.containers)

/-- Go `simulatedProvider.listImages`. -/
def simulatedProvider.listImages (p : simulatedProvider) : Except Error (List Image) :=
  .ok ([] ++ p.images)

/-- The loop of `findContainer`: the first index whose container has the ID. -/
def findIndex (id : GoString) : List Container → Option Nat
  | [] => none
  | c :: rest => if c.ID = id then some 0 else (findIndex id rest).map (· + 1)

/-- Go `simulatedProvider.findContainer`. -/
def simulatedProvider.findContainer (p : simulatedProvider) (id : GoString) : Except Error Nat :=
  match findIndex id p.containers with
  | some i => .ok i
  | none => .error (Error.notFound id)

/-- The two assignments `containers[idx].State = state` and
`containers[idx].Status = status`; `idx` is in range wherever the source
makes them. -/
def setPhase (state status : GoString) : List Container → Nat → List Container
  | [], _ => []
  | c :: rest, 0 => { c with State := state, Status := status } :: rest
  | c :: rest, idx + 1 => c :: setPhase state status rest idx

/-- Go `simulatedProvider.startContainer`: the snapshot after the call and the
error, if any. -/
def simulatedProvider.startContainer (p : simulatedProvider) (id : GoString) :
    simulatedProvider × Option Error :=
  match p.findContainer id with
  | .error err => (p, some err)
  | .ok idx =>
    ({ p with containers := setPhase (lit "running") (lit "Up just now") p.containers idx }, none)

/-- Go `simulatedProvider.stopContainer`: the snapshot after the call and the
error, if any. -/
def simulatedProvider.stopContainer (p : simulatedProvider) (id : GoString) :
    simulatedProvider × Option Error :=
  match p.findContainer id with
  | .error err => (p, some err)
  | .ok idx =>
    ({ p with containers := setPhase (lit "exited") (lit "Exited (0) just now") p.containers idx },
      none)

/-- Go `simulatedProvider.restartContainer`: the snapshot after the call and the
error, if any. -/
def simulatedProvider.restartContainer (p : simulatedProvider) (id : GoString) :
    simulatedProvider × Option Error :=
  match p.findContainer id with
  | .error err => (p, some err)
  | .ok idx =>
    ({ p with containers := setPhase (lit "running") (lit "Up less than a second") p.containers idx },
      none)

/-! ## The service -/

/-- Go interface `provider`, with its two implementations. -/
inductive provider where
  | cli (p : cliProvider)
  | simulated (p : simulatedProvider)
  deriving DecidableEq, Repr

/-- Go `DockerService`. -/
structure DockerService where
  provider : provider
  deriving DecidableEq, Repr

/-- Go `NewDockerService`; `dockerErr` is the error of the binary lookup, if
any, and `now` the clock read by `newSimulatedProvider`. -/
def NewDockerService (rt : Runtime) (now : Int) (dockerBin : GoString)
    (dockerErr : Option GoString) : DockerService :=
  match dockerErr with
  | some _ => { provider := .simulated (newSimulatedProvider now) }
  | none =>
    let p : cliProvider := { dockerBin := dockerBin }
    match p.raw rt [lit "version", lit "--format", lit "\x7b\x7b.Server.Version\x7d\x7d"] with
    | some _ => { provider := .simulated (newSimulatedProvider now) }
    | none => { provider := .cli p }

/-- Go `DockerService.Dashboard`. -/
def DockerService.Dashboard (rt : Runtime) (s : DockerService) : Except Error Dashboard :=
  match s.provider with
  | .cli p => p.dashboard rt
  | .simulated p => p.dashboard

/-- Go `DockerService.ListContainers`. -/
def DockerService.ListContainers (rt : Runtime) (s : DockerService) :
    Except Error (List Container) :=
  match s.provider with
  | .cli p => p.listContainers rt
  | .simulated p => p.listContainers

/-- Go `DockerService.ListImages`. -/
def DockerService.ListImages (rt : Runtime) (s : DockerService) : Except Error (List Image) :=
  match s.provider with
  | .cli p => p.listImages rt
  | .simulated p => p.listImages

/-- Go `DockerService.StartContainer`: the service after the call and the error,
if any. -/
def DockerService.StartContainer (rt : Runtime) (s : DockerService) (id : GoString) :
    DockerService × Option Error :=
  match s.provider with
  | .cli p => (s, p.startContainer rt id)
  | .simulated p => ({ provider := .simulated (p.startContainer id).1 }, (p.startContainer id).2)

/-- Go `DockerService.StopContainer`: the service after the call and the error,
if any. -/
def DockerService.StopContainer (rt : Runtime) (s : DockerService) (id : GoString) :
    DockerService × Option Error :=
  match s.provider with
  | .cli p => (s, p.stopContainer rt id)
  | .simulated p => ({ provider := .simulated (p.stopContainer id).1 }, (p.stopContainer id).2)

/-- Go `DockerService.RestartContainer`: the service after the call and the
error, if any. -/
def DockerService.RestartContainer (rt : Runtime) (s : DockerService) (id : GoString) :
    DockerService × Option Error :=
  match s.provider with
  | .cli p => (s, p.restartContainer rt id)
  | .simulated p =>
    ({ provider := .simulated (p.restartContainer id).1 }, (p.restartContainer id).2)

/-! ## Calls and runs -/

/-- One call of the six operations of the interface. -/
inductive Call where
  | dashboard
  | listContainers
  | listImages
  | startContainer (id : GoString)
  | stopContainer (id : GoString)
  | restartContainer (id : GoString)
  deriving DecidableEq, Repr

/-- The snapshot after one call on the simulated adapter and the error the
call returns, if any.  The three read operations only read the snapshot. -/
def simulatedProvider.step (p : simulatedProvider) : Call → simulatedProvider × Option Error
  | .dashboard => (p, none)
  | .listContainers => (p, none)
  | .listImages => (p, none)
  | .startContainer id => p.startContainer id
  | .stopContainer id => p.stopContainer id
  | .restartContainer id => p.restartContainer id

/-- The snapshot after a sequence of calls, each an atomic step. -/
def simulatedProvider.run (p : simulatedProvider) : List Call → simulatedProvider
  | [] => p
  | call :: calls => ((p.step call).1).run calls

/-- The errors a sequence of calls returns, in order. -/
def simulatedProvider.errors (p : simulatedProvider) : List Call → List (Option Error)
  | [] => []
  | call :: calls => (p.step call).2 :: ((p.step call).1).errors calls

/-- The service after one call through `DockerService`. -/
def DockerService.step (rt : Runtime) (s : DockerService) : Call → DockerService
  | .dashboard => s
  | .listContainers => s
  | .listImages => s
  | .startContainer id => (s.StartContainer rt id).1
  | .stopContainer id => (s.StopContainer rt id).1
  | .restartContainer id => (s.RestartContainer rt id).1

/-- The service after a sequence of calls through `DockerService`. -/
def DockerService.run (rt : Runtime) (s : DockerService) : List Call → DockerService
  | [] => s
  | call :: calls => (s.step rt call).run rt calls

/-- The identifier a call names: the argument of a command, none for a read. -/
def Call.target : Call → Option GoString
  | .dashboard => none
  | .listContainers => none
  | .listImages => none
  | .startContainer id => some id
  | .stopContainer id => some id
  | .restartContainer id => some id

/-- The shape the three commands of the simulated adapter share: look the
container up, then assign its state and status. -/
def simulatedProvider.transition (state status : GoString) (p : simulatedProvider)
    (id : GoString) : simulatedProvider × Option Error :=
  match findIndex id p.containers with
  | none => (p, some (Error.notFound id))
  | some idx => ({ p with containers := setPhase state status p.containers idx }, none)

/-! ## Case-insensitive comparison, as the specification words it -/

/-- Whether the byte is an ASCII upper-case letter. -/
def isUpperByte (b : Nat) : Bool :=
  decide (65 ≤ b ∧ b ≤ 90)

/-- Case-insensitive equality of two ASCII bytes: the same byte, or the
upper-case and the lower-case form of one letter. -/
def sameLetter (a b : Nat) : Bool :=
  a == b || (isUpperByte a && b == a + 32) || (isUpperByte b && a == b + 32)

/-- Case-insensitive equality of two ASCII strings, byte by byte. -/
def equalFold : GoString → GoString → Bool
  | [], [] => true
  | a :: s, b :: t => sameLetter a b && equalFold s t
  | _, _ => false

/-! ## A runtime for worked examples -/

/-- A runtime for worked examples: the engine lists two containers, one up and
one exited, and no image; every line decodes; the probe succeeds. -/
def exampleRuntime : Runtime where
  unicodeToLower := fun s => s
  unicodeToUpper := fun s => s
  CombinedOutput := fun _ args =>
    if args.head? = some (lit "ps") then (lit "first\nsecond\n", none) else (lit "", none)
  UnmarshalContainer := fun line =>
    .ok { ID := lit "sha256:" ++ line, Names := line, Image := lit "redis:7",
          State := if line = lit "first" then lit "Up 2 hours" else lit "Exited (0) 1 hour ago",
          Status := lit "", Command := lit "redis-server" }
  UnmarshalImage := fun line =>
    .ok { ID := line, Repository := lit "redis", Tag := lit "7", Size := lit "114MB" }
  SscanfFloat := fun _ => none
  mul1024 := fun v => v
  div1024 := fun v => v
  toInt64 := fun _ => 0

/-! ## The phases of the simulated adapter -/

/-- The state and status pairs the simulated adapter ever holds: the three of
the seed data and the three the commands assign. -/
def simulatedPhases : List (GoString × GoString) :=
  [ (lit "running", lit "Up 3 hours"), (lit "running", lit "Up 1 day"),
    (lit "exited", lit "Exited (0) 2 hours ago"), (lit "running", lit "Up just now"),
    (lit "exited", lit "Exited (0) just now"), (lit "running", lit "Up less than a second") ]

/-! ## The listing, as the specification words it -/

/-- The lines of an engine output, as the specification counts them: none for
an output that is blank once trimmed, otherwise the pieces of the trimmed
output between line feeds. -/
def outputLines (out : GoString) : List GoString :=
  if TrimSpace out = [] then [] else Split (TrimSpace out) 10

/-- The container the specification assigns to a decoded record: the short
form of the raw ID, the normalized raw state, the other fields copied. -/
def containerOfRecord (rt : Runtime) (item : psItem) : Container :=
  { ID := shortID item.ID, Name := item.Names, Image := item.Image,
    State := normalizeState rt item.State, Status := item.Status, Command := item.Command }

/-- A runtime for worked examples: the engine lists two containers whose full
identifiers differ in the last digit only; the record of a line has the line
as its ID. -/
def twinRuntime : Runtime where
  unicodeToLower := fun s => s
  unicodeToUpper := fun s => s
  CombinedOutput := fun _ _ =>
    (lit ("0123456789ab0000000000000000000000000000000000000000000000000000\n"
      ++ "0123456789ab0000000000000000000000000000000000000000000000000001\n"), none)
  UnmarshalContainer := fun line =>
    .ok { ID := line, Names := lit "web", Image := lit "nginx:1", State := lit "running",
          Status := lit "Up 2 hours", Command := lit "nginx" }
  UnmarshalImage := fun line =>
    .ok { ID := line, Repository := lit "nginx", Tag := lit "1", Size := lit "142MB" }
  SscanfFloat := fun _ => none
  mul1024 := fun v => v
  div1024 := fun v => v
  toInt64 := fun _ => 0

/-! ## Blank strings, as the specification words them -/

/-- A string that is empty or consists only of white space: the concatenation
of a sequence of white-space runes. -/
def Blank (s : GoString) : Prop :=
  ∃ runes : List GoString, (∀ r ∈ runes, r ∈ spaceRunes) ∧ s = runes.flatten

/-! ## A model of float64 and of scanning with the verb f -/

/-- The `float64` with the given sign bit, exponent field and fraction field. -/
def Float64.pack (neg : Bool) (expField frac : Nat) : Float64 :=
  ⟨(if neg then 2 ^ 63 else 0) + expField * 2 ^ 52 + frac⟩

/-- The sign bit. -/
def Float64.neg (x : Float64) : Bool :=
  decide (x.bits / 2 ^ 63 % 2 = 1)

/-- The exponent field, 11 bits. -/
def Float64.expField (x : Float64) : Nat :=
  x.bits / 2 ^ 52 % 2048

/-- The fraction field, 52 bits. -/
def Float64.frac (x : Float64) : Nat :=
  x.bits % 2 ^ 52

/-- Whether the value is neither an infinity nor a NaN. -/
def Float64.isFinite (x : Float64) : Bool :=
  decide (x.expField < 2047)

/-- The significand of a finite value: its magnitude is
`mantissa * 2 ^ exponent`. -/
def Float64.mantissa (x : Float64) : Nat :=
  if x.expField = 0 then x.frac else 2 ^ 52 + x.frac

/-- The exponent of a finite value, see `mantissa`. -/
def Float64.exponent (x : Float64) : Int :=
  if x.expField = 0 then -1074 else (x.expField : Int) - 1075

/-- The integer nearest to `num / den`, the even one of two equally near. -/
def roundHalfEven (num den : Nat) : Nat :=
  let q := num / den
  let r := num % den
  if 2 * r < den then q
  else if den < 2 * r then q + 1
  else if q % 2 = 0 then q else q + 1

/-- Helper of `log2Floor`: `fuel` bounds the number of halvings. -/
def log2Aux : Nat → Nat → Nat
  | 0, _ => 0
  | fuel + 1, n => if n < 2 then 0 else log2Aux fuel (n / 2) + 1

/-- The exponent of the largest power of two that is at most `n` (0 for 0). -/
def log2Floor (n : Nat) : Nat :=
  log2Aux n n

/-- The fraction `num / den * 2 ^ e`, as a numerator and a denominator. -/
def scale2 (num den : Nat) (e : Int) : Nat × Nat :=
  if 0 ≤ e then (num * 2 ^ e.toNat, den) else (num, den * 2 ^ (-e).toNat)

/-- The `float64` nearest to `num / den` with the given sign (`den` positive),
ties to the even significand; an infinity when the magnitude is too large. -/
def Float64.ofRatio (neg : Bool) (num den : Nat) : Float64 :=
  if num = 0 then Float64.pack neg 0 0
  else
    let l₀ : Int := (log2Floor num : Int) - (log2Floor den : Int)
    let below := scale2 num den (-l₀)
    let l : Int := if below.2 ≤ below.1 then l₀ else l₀ - 1
    let e : Int := max (l - 52) (-1074)
    let scaled := scale2 num den (-e)
    let m := roundHalfEven scaled.1 scaled.2
    let m' := if m = 2 ^ 53 then 2 ^ 52 else m
    let e' := if m = 2 ^ 53 then e + 1 else e
    if m' < 2 ^ 52 then Float64.pack neg 0 m'
    else if 2046 < e' + 1075 then Float64.pack neg 2047 0
    else Float64.pack neg (e' + 1075).toNat (m' - 2 ^ 52)

/-- The product `x * 1024` of IEEE 754: exact, then rounded to nearest. -/
def Float64.mul1024 (x : Float64) : Float64 :=
  if x.isFinite then
    let r := scale2 x.mantissa 1 (x.exponent + 10)
    Float64.ofRatio x.neg r.1 r.2
  else x

/-- The quotient `x / 1024` of IEEE 754: exact, then rounded to nearest. -/
def Float64.div1024 (x : Float64) : Float64 :=
  if x.isFinite then
    let r := scale2 x.mantissa 1 (x.exponent - 10)
    Float64.ofRatio x.neg r.1 r.2
  else x

/-- The conversion `int64(x)`: the fraction is discarded when the result fits
`int64`; otherwise (NaN, infinities, values out of range) Go leaves the result
to the implementation, here `other`. -/
def Float64.toInt64 (other : Float64 → Int) (x : Float64) : Int :=
  if x.isFinite then
    let r := scale2 x.mantissa 1 x.exponent
    let t : Int := (r.1 / r.2 : Nat)
    let v : Int := if x.neg then -t else t
    if -(2 ^ 63) ≤ v ∧ v < 2 ^ 63 then v else other x
  else other x

/-- One step of the scanner of package `fmt`: `accept` consumes the next byte
when it is one of `set`.  The state is the token read so far and the rest of
the input. -/
def accept (set : GoString) : GoString × GoString → Bool × (GoString × GoString)
  | (buf, c :: rest) =>
    if c ∈ set then (true, (buf ++ [c], rest)) else (false, (buf, c :: rest))
  | (buf, []) => (false, (buf, []))

/-- The loop `for s.accept(set) {}` of package `fmt`. -/
def acceptAll (set : GoString) : GoString × GoString → GoString × GoString
  | (buf, rest) =>
    (buf ++ rest.takeWhile (fun c => decide (c ∈ set)), rest.dropWhile (fun c => decide (c ∈ set)))

/-- The second half of `floatToken`: digits, a point with digits, an exponent
with a sign and digits, each optional; the token read. -/
def floatTail (digits exp : GoString) (st : GoString × GoString) : GoString :=
  let d₁ := acceptAll digits st
  let dot := accept (lit ".") d₁
  let d₂ := if dot.1 then acceptAll digits dot.2 else dot.2
  let e := accept exp d₂
  let d₃ := if e.1 then acceptAll (lit "0123456789_") (accept (lit "+-") e.2).2 else e.2
  d₃.1

/-- Go `(*ss).floatToken` of package `fmt`: the longest start of the input that
looks like a floating-point number. -/
def floatToken (s : GoString) : GoString :=
  let n₁ := accept (lit "nN") ([], s)
  let n₂ := if n₁.1 then accept (lit "aA") n₁.2 else (false, n₁.2)
  let n₃ := if n₂.1 then accept (lit "nN") n₂.2 else (false, n₂.2)
  if n₃.1 then n₃.2.1
  else
    let sg := accept (lit "+-") n₃.2
    let i₁ := accept (lit "iI") sg.2
    let i₂ := if i₁.1 then accept (lit "nN") i₁.2 else (false, i₁.2)
    let i₃ := if i₂.1 then accept (lit "fF") i₂.2 else (false, i₂.2)
    if i₃.1 then i₃.2.1
    else
      let z := accept (lit "0") i₃.2
      let x := if z.1 then accept (lit "xX") z.2 else (false, z.2)
      let digits := if x.1 then lit "0123456789aAbBcCdDeEfF_" else lit "0123456789_"
      let exp := if x.1 then lit "pP" else lit "eEpP"
      floatTail digits exp x.2

/-- The digits and the decimal point at the start of a number, as
`strconv.ParseFloat` reads them: the digits as a number, how many of them
follow the point, whether a point and whether a digit were seen, and what is
left. -/
def readMantissa : GoString → Nat → Nat → Bool → Bool → Nat × Nat × Bool × GoString
  | [], digits, scale, _, sawDigits => (digits, scale, sawDigits, [])
  | c :: rest, digits, scale, sawDot, sawDigits =>
    if c = 46 then
      if sawDot then (digits, scale, sawDigits, c :: rest)
      else readMantissa rest digits scale true sawDigits
    else if 48 ≤ c ∧ c ≤ 57 then
      readMantissa rest (digits * 10 + (c - 48)) (if sawDot then scale + 1 else scale) sawDot true
    else (digits, scale, sawDigits, c :: rest)

/-- The digits of a decimal exponent, as `strconv.ParseFloat` reads them: digits
after the exponent has reached 10000 are ignored. -/
def readExponent : GoString → Nat → Nat × GoString
  | [], e => (e, [])
  | c :: rest, e =>
    if 48 ≤ c ∧ c ≤ 57 then readExponent rest (if e < 10000 then e * 10 + (c - 48) else e)
    else (e, c :: rest)

/-- The value of `digits * 10 ^ (exp - scale)` as `strconv.ParseFloat` returns it:
the nearest `float64`, and a range error (`none`) when that is an infinity. -/
def decimalValue (neg : Bool) (digits scale : Nat) (exp : Int) : Option Float64 :=
  let p : Int := exp - scale
  let x := if 0 ≤ p then Float64.ofRatio neg (digits * 10 ^ p.toNat) 1
    else Float64.ofRatio neg digits (10 ^ (-p).toNat)
  if x.isFinite then some x else none

/-- Go `strconv.ParseFloat(token, 64)` for a token in decimal notation (sign,
digits with a point, exponent after `e` or `E`) and for `nan` and `inf`:
the value, `none` for a syntax or range error. -/
def parseFloat (token : GoString) : Option Float64 :=
  if token.map lowerByte = lit "nan" then some (Float64.pack false 2047 (2 ^ 51 + 1))
  else if token.map lowerByte = lit "inf" ∨ token.map lowerByte = lit "+inf" then
    some (Float64.pack false 2047 0)
  else if token.map lowerByte = lit "-inf" then some (Float64.pack true 2047 0)
  else
    let neg := decide (token.head? = some 45)
    let body := if token.head? = some 43 ∨ token.head? = some 45 then token.drop 1 else token
    match readMantissa body 0 0 false false with
    | (_, _, false, _) => none
    | (digits, scale, true, []) => decimalValue neg digits scale 0
    | (digits, scale, true, c :: rest) =>
      if c = 101 ∨ c = 69 then
        let minus := decide (rest.head? = some 45)
        let expDigits := if rest.head? = some 43 ∨ rest.head? = some 45 then rest.drop 1 else rest
        match expDigits with
        | [] => none
        | d :: _ =>
          if 48 ≤ d ∧ d ≤ 57 then
            match readExponent expDigits 0 with
            | (e, []) => decimalValue neg digits scale (if minus then -(e : Int) else e)
            | (_, _ :: _) => none
          else none
      else none

/-- The call `fmt.Sscanf(s, "%f", &value)` where it is modelled: for an input
that does not start with white space and whose token is in decimal notation,
`nan` or `inf`, the value scanned or an error (`some none`).  Inputs with
leading white space and tokens in hexadecimal notation, with a binary exponent
or with digit separators are not modelled (`none`). -/
def scanFloat (s : GoString) : Option (Option Float64) :=
  if s = [] then some none
  else if leadingSpace s ≠ 0 then none
  else
    let token := floatToken s
    if token.any (fun c => decide (c ∈ lit "xXpP_")) then none
    else some (parseFloat token)

/-- The runtime `rt` with IEEE 754 arithmetic for `float64` and with the scanner
for `%f` where it is modelled; `rt` still decides the rest: the scans that are
not modelled and the conversions to `int64` that Go leaves to the
implementation. -/
def Runtime.ieee (rt : Runtime) : Runtime :=
  { rt with
    SscanfFloat := fun s =>
      match scanFloat s with
      | some result => result
      | none => rt.SscanfFloat s
    mul1024 := Float64.mul1024
    div1024 := Float64.div1024
    toInt64 := Float64.toInt64 rt.toInt64 }

/-! ## The unit switch of parseSizeMB -/

/-- The `switch` at the end of `parseSizeMB` on its own: the value in the unit,
converted to whole megabytes. -/
def scaleToMB (rt : Runtime) (unit : GoString) (value : Float64) : Int :=
  if unit = lit "GB" then rt.toInt64 (rt.mul1024 value)
  else if unit = lit "KB" then rt.toInt64 (rt.div1024 value)
  else if unit = lit "B" then rt.toInt64 (rt.div1024 (rt.div1024 value))
  else rt.toInt64 value

/-! # Theorems -/

/-! ## Strings -/

theorem hasPrefix_iff (s pre : GoString) : HasPrefix s pre = true ↔ pre <+: s := by
  unfold HasPrefix
  exact List.isPrefixOf_iff_prefix

theorem take_twelve (l : GoString) :
    (if l.length ≤ 12 then l else l.take 12) = l.take 12 := by
  split
  · rename_i hle
    exact (List.take_of_length_le hle).symm
  · rfl

theorem shortID_eq (id : GoString) :
    shortID id = (if lit "sha256:" <+: id then id.drop 7 else id).take 12 := by
  unfold shortID TrimPrefix
  have hl : (lit "sha256:").length = 7 := by decide
  by_cases h : lit "sha256:" <+: id
  · have h' : HasPrefix id (lit "sha256:") = true := (hasPrefix_iff _ _).2 h
    simp only [h', if_true, h, hl]
    exact take_twelve _
  · have h' : HasPrefix id (lit "sha256:") = false := by
      cases hp : HasPrefix id (lit "sha256:")
      · rfl
      · exact absurd ((hasPrefix_iff _ _).1 hp) h
    simp only [h', h, if_false, Bool.false_eq_true]
    exact take_twelve _

/-- C9: `shortID id` is the first 12 bytes (all of them when there are at most
12) of `id` without one leading `sha256:`, or of `id` itself when it does not
start with it; so `shortID ("sha256:" ++ s)` is the first 12 bytes of `s`, and
the result never has more than 12 bytes. -/
theorem shortID_strips_then_truncates (id : GoString) :
    shortID id = (if lit "sha256:" <+: id then id.drop 7 else id).take 12
      ∧ (∀ s : GoString, shortID (lit "sha256:" ++ s) = s.take 12)
      ∧ (shortID id).length ≤ 12 := by
  refine ⟨shortID_eq id, ?_, ?_⟩
  · intro s
    rw [shortID_eq]
    have hp : lit "sha256:" <+: lit "sha256:" ++ s := List.prefix_append _ _
    rw [if_pos hp]
    have hl : (lit "sha256:").length = 7 := by decide
    rw [← hl, List.drop_left]
  · rw [shortID_eq]
    exact List.length_take_le 12 _

/-- C10 (counterexample): `sha256:abcdefgh` has 15 bytes and `shortID` returns
the 8 bytes `abcdefgh`. -/
theorem shortID_long_prefixed_counterexample :
    12 < (lit "sha256:abcdefgh").length
      ∧ shortID (lit "sha256:abcdefgh") = lit "abcdefgh"
      ∧ (shortID (lit "sha256:abcdefgh")).length = 8 := by
  decide

/-- C10 (amended): for an identifier that has more than 12 bytes once one
leading `sha256:` is removed (when it does not start with `sha256:`: that has
more than 12 bytes), `shortID` returns exactly 12 bytes. -/
theorem shortID_length_of_long (id : GoString)
    (h : 12 < (if lit "sha256:" <+: id then id.drop 7 else id).length) :
    (shortID id).length = 12 := by
  rw [shortID_eq, List.length_take]
  omega

/-- C10 (witness): a digest of 16 bytes after the `sha256:`. -/
theorem shortID_length_of_long_witness :
    12 < (if lit "sha256:" <+: lit "sha256:0123456789abcdef" then
        (lit "sha256:0123456789abcdef").drop 7 else lit "sha256:0123456789abcdef").length
      ∧ (shortID (lit "sha256:0123456789abcdef")).length = 12 :=
  ⟨by decide, shortID_length_of_long (lit "sha256:0123456789abcdef") (by decide)⟩

theorem contains_iff (s sub : GoString) : Contains s sub = true ↔ sub <:+: s := by
  unfold Contains
  rw [List.any_eq_true, List.infix_iff_prefix_suffix]
  constructor
  · rintro ⟨t, ht, hp⟩
    exact ⟨t, List.isPrefixOf_iff_prefix.1 hp, (List.mem_tails _ _).1 ht⟩
  · rintro ⟨t, hp, ht⟩
    exact ⟨t, (List.mem_tails _ _).2 ht, List.isPrefixOf_iff_prefix.2 hp⟩

theorem infix_map_iff (f : Nat → Nat) (s sub : GoString) :
    sub <:+: s.map f ↔ ∃ t, t <:+: s ∧ t.map f = sub := by
  constructor
  · rintro ⟨a, b, h⟩
    obtain ⟨l₁, l₂, hs, h₁, h₂⟩ := List.map_eq_append_iff.1 h.symm
    obtain ⟨l₃, l₄, hs', h₃, h₄⟩ := List.map_eq_append_iff.1 h₁
    exact ⟨l₄, ⟨l₃, l₂, by rw [hs, hs']⟩, h₄⟩
  · rintro ⟨t, ⟨a, b, h⟩, ht⟩
    refine ⟨a.map f, b.map f, ?_⟩
    rw [← h, ← ht]
    simp

theorem lowerByte_eq_iff (a b : Nat) (hb : isUpperByte b = false) :
    lowerByte a = b ↔ sameLetter a b = true := by
  unfold lowerByte sameLetter
  unfold isUpperByte at hb ⊢
  simp only [decide_eq_false_iff_not] at hb
  simp only [Bool.or_eq_true, Bool.and_eq_true, beq_iff_eq, decide_eq_true_eq]
  split <;> omega

theorem map_lower_eq_iff (t sub : GoString) (hsub : sub.all (fun b => !isUpperByte b) = true) :
    t.map lowerByte = sub ↔ equalFold t sub = true := by
  induction t generalizing sub with
  | nil => cases sub <;> simp [equalFold]
  | cons a t ih =>
    cases sub with
    | nil => simp [equalFold]
    | cons b sub =>
      simp only [List.all_cons, Bool.and_eq_true, Bool.not_eq_true'] at hsub
      simp only [List.map_cons, List.cons.injEq, equalFold, Bool.and_eq_true]
      rw [lowerByte_eq_iff a b hsub.1, ih sub hsub.2]

theorem toLower_ascii (rt : Runtime) (s : GoString) (h : isASCII s = true) :
    ToLower rt s = s.map lowerByte := by
  unfold ToLower
  rw [if_pos h]

theorem normalizeState_eq (rt : Runtime) (s : GoString) :
    normalizeState rt s =
      if Contains (ToLower rt s) (lit "up") = true ∨ ToLower rt s = lit "running" then
        lit "running" else lit "exited" := by
  unfold normalizeState
  simp only [Bool.or_eq_true, beq_iff_eq]

theorem running_ne_exited : lit "running" ≠ lit "exited" := by decide

theorem normalizeState_running_iff (rt : Runtime) (s : GoString) :
    normalizeState rt s = lit "running" ↔
      (Contains (ToLower rt s) (lit "up") = true ∨ ToLower rt s = lit "running") := by
  rw [normalizeState_eq]
  split
  · rename_i h
    simp [h]
  · rename_i h
    constructor
    · intro h'
      exact absurd h'.symm running_ne_exited
    · intro h'
      exact absurd h' h

/-- C8 (counterexample): `RUNNING` is not `running`, and no two adjacent bytes of
it spell `up` in any letter case, yet it normalizes to `running`. -/
theorem normalizeState_uppercase_counterexample :
    (∀ rt : Runtime, normalizeState rt (lit "RUNNING") = lit "running")
      ∧ lit "RUNNING" ≠ lit "running"
      ∧ (∀ rt : Runtime, Contains (ToLower rt (lit "RUNNING")) (lit "up") = false)
      ∧ (∀ t : GoString, t <:+: lit "RUNNING" → equalFold t (lit "up") = false) := by
  have hl : ∀ rt : Runtime, ToLower rt (lit "RUNNING") = lit "running" := by
    intro rt
    rw [toLower_ascii rt _ (by decide)]
    decide
  have hc : Contains (lit "running") (lit "up") = false := by decide
  refine ⟨?_, by decide, ?_, ?_⟩
  · intro rt
    rw [normalizeState_running_iff, hl]
    exact Or.inr rfl
  · intro rt
    rw [hl]
    exact hc
  · intro t ht
    cases hf : equalFold t (lit "up")
    · rfl
    · exfalso
      have h1 : t.map lowerByte = lit "up" := (map_lower_eq_iff t _ (by decide)).2 hf
      have h2 : lit "up" <:+: (lit "RUNNING").map lowerByte := (infix_map_iff _ _ _).2 ⟨t, ht, h1⟩
      have h3 : Contains ((lit "RUNNING").map lowerByte) (lit "up") = true := (contains_iff _ _).2 h2
      revert h3
      decide

/-- C8 (amended): `normalizeState s` is `"running"` exactly when the lower-cased
`s` contains `"up"` or the lower-cased `s` equals `"running"`, and `"exited"`
otherwise, so the result is always one of the two values.  For an ASCII `s`
that is: some two adjacent bytes of `s` spell `up` in any letter case, or `s`
spells `running` in any letter case.  `"Up 3 hours"`, `"running"` and `"UP"`
give `"running"`; `"Exited (0) 2 hours ago"` gives `"exited"`. -/
theorem normalizeState_case_insensitive (rt : Runtime) (s : GoString) :
    (normalizeState rt s = lit "running" ↔
        (Contains (ToLower rt s) (lit "up") = true ∨ ToLower rt s = lit "running"))
      ∧ (normalizeState rt s = lit "running" ∨ normalizeState rt s = lit "exited")
      ∧ (isASCII s = true →
          (normalizeState rt s = lit "running" ↔
            ((∃ t, t <:+: s ∧ equalFold t (lit "up") = true)
              ∨ equalFold s (lit "running") = true)))
      ∧ normalizeState rt (lit "Up 3 hours") = lit "running"
      ∧ normalizeState rt (lit "running") = lit "running"
      ∧ normalizeState rt (lit "UP") = lit "running"
      ∧ normalizeState rt (lit "Exited (0) 2 hours ago") = lit "exited" := by
  have ex : ∀ (x : GoString), isASCII x = true →
      normalizeState rt x = if Contains (x.map lowerByte) (lit "up") = true
        ∨ x.map lowerByte = lit "running" then lit "running" else lit "exited" := by
    intro x hx
    rw [normalizeState_eq, toLower_ascii rt x hx]
  refine ⟨normalizeState_running_iff rt s, ?_, ?_, ?_, ?_, ?_, ?_⟩
  · rw [normalizeState_eq]
    split
    · exact Or.inl rfl
    · exact Or.inr rfl
  · intro hs
    rw [normalizeState_running_iff, toLower_ascii rt s hs, contains_iff, infix_map_iff,
      map_lower_eq_iff s _ (by decide)]
    constructor
    · rintro (⟨t, ht, h⟩ | h)
      · exact Or.inl ⟨t, ht, (map_lower_eq_iff t _ (by decide)).1 h⟩
      · exact Or.inr h
    · rintro (⟨t, ht, h⟩ | h)
      · exact Or.inl ⟨t, ht, (map_lower_eq_iff t _ (by decide)).2 h⟩
      · exact Or.inr h
  · rw [ex _ (by decide)]; decide
  · rw [ex _ (by decide)]; decide
  · rw [ex _ (by decide)]; decide
  · rw [ex _ (by decide)]; decide

/-! ## The simulated adapter: lookup and assignment -/

theorem findIndex_eq_none (id : GoString) (cs : List Container) :
    findIndex id cs = none ↔ id ∉ cs.map (fun c => c.ID) := by
  induction cs with
  | nil => simp [findIndex]
  | cons c cs ih =>
    unfold findIndex
    by_cases h : c.ID = id
    · simp [h]
    · have h' : ¬ id = c.ID := fun e => h e.symm
      simp only [h, if_false, Option.map_eq_none', ih, List.map_cons, List.mem_cons, h', false_or]

theorem findIndex_some_spec (id : GoString) (cs : List Container) (i : Nat)
    (h : findIndex id cs = some i) :
    ∃ c, cs[i]? = some c ∧ c.ID = id
      ∧ ∀ j c', j < i → cs[j]? = some c' → c'.ID ≠ id := by
  induction cs generalizing i with
  | nil => simp [findIndex] at h
  | cons c cs ih =>
    unfold findIndex at h
    by_cases hc : c.ID = id
    · rw [if_pos hc] at h
      cases h
      exact ⟨c, List.getElem?_cons_zero, hc, fun j c' hj => absurd hj (Nat.not_lt_zero j)⟩
    · rw [if_neg hc] at h
      cases hf : findIndex id cs with
      | none => rw [hf] at h; cases h
      | some k =>
        rw [hf] at h
        simp only [Option.map_some', Option.some.injEq] at h
        subst h
        obtain ⟨d, hd, hid, hlt⟩ := ih k hf
        refine ⟨d, by simpa using hd, hid, ?_⟩
        intro j c' hj hget
        cases j with
        | zero =>
          simp only [List.getElem?_cons_zero, Option.some.injEq] at hget
          rw [← hget]
          exact hc
        | succ j =>
          simp only [List.getElem?_cons_succ] at hget
          exact hlt j c' (by omega) hget

theorem findIndex_congr (id : GoString) (cs cs' : List Container)
    (h : cs.map (fun c => c.ID) = cs'.map (fun c => c.ID)) :
    findIndex id cs = findIndex id cs' := by
  induction cs generalizing cs' with
  | nil =>
    cases cs' with
    | nil => rfl
    | cons c' cs' => simp at h
  | cons c cs ih =>
    cases cs' with
    | nil => simp at h
    | cons c' cs' =>
      simp only [List.map_cons, List.cons.injEq] at h
      unfold findIndex
      rw [h.1, ih cs' h.2]

theorem setPhase_getElem? (st status : GoString) (cs : List Container) (i j : Nat) :
    (setPhase st status cs i)[j]? =
      if j = i then (cs[j]?).map (fun c => { c with State := st, Status := status })
      else cs[j]? := by
  induction cs generalizing i j with
  | nil => simp [setPhase]
  | cons c cs ih =>
    cases i with
    | zero =>
      cases j with
      | zero => simp [setPhase]
      | succ j => simp [setPhase]
    | succ i =>
      cases j with
      | zero => simp [setPhase]
      | succ j =>
        simp only [setPhase, List.getElem?_cons_succ, ih i j, Nat.add_right_cancel_iff]

theorem setPhase_length (st status : GoString) (cs : List Container) (i : Nat) :
    (setPhase st status cs i).length = cs.length := by
  induction cs generalizing i with
  | nil => rfl
  | cons c cs ih =>
    cases i with
    | zero => rfl
    | succ i => simp [setPhase, ih i]

theorem setPhase_map_ID (st status : GoString) (cs : List Container) (i : Nat) :
    (setPhase st status cs i).map (fun c => c.ID) = cs.map (fun c => c.ID) := by
  induction cs generalizing i with
  | nil => rfl
  | cons c cs ih =>
    cases i with
    | zero => rfl
    | succ i => simp [setPhase, ih i]

theorem setPhase_eq_set (st status : GoString) (cs : List Container) (i : Nat) (c : Container)
    (h : cs[i]? = some c) :
    setPhase st status cs i = cs.set i { c with State := st, Status := status } := by
  apply List.ext_getElem?
  intro j
  rw [setPhase_getElem?, List.getElem?_set]
  by_cases hj : j = i
  · subst hj
    have hlt : j < cs.length := by
      rcases Nat.lt_or_ge j cs.length with hl | hl
      · exact hl
      · rw [List.getElem?_eq_none hl] at h; cases h
    simp [h, hlt]
  · have hj' : ¬ i = j := fun e => hj e.symm
    simp [hj, hj']

theorem setPhase_comm (a b c d : GoString) (cs : List Container) (i j : Nat) (h : i ≠ j) :
    setPhase a b (setPhase c d cs j) i = setPhase c d (setPhase a b cs i) j := by
  apply List.ext_getElem?
  intro k
  simp only [setPhase_getElem?]
  by_cases hi : k = i
  · have hj : ¬ k = j := fun e => h (hi.symm.trans e)
    simp [hi, hj, h]
  · by_cases hj : k = j
    · have hji : ¬ j = i := fun e => h e.symm
      simp [hj, hji]
    · simp [hi, hj]

theorem setPhase_idem (a b : GoString) (cs : List Container) (i : Nat) :
    setPhase a b (setPhase a b cs i) i = setPhase a b cs i := by
  apply List.ext_getElem?
  intro k
  simp only [setPhase_getElem?]
  by_cases hi : k = i
  · simp only [hi, if_true, Option.map_map]
    cases cs[i]? <;> rfl
  · simp [hi]

theorem startContainer_eq (p : simulatedProvider) (id : GoString) :
    p.startContainer id = p.transition (lit "running") (lit "Up just now") id := by
  unfold simulatedProvider.startContainer simulatedProvider.transition
    simulatedProvider.findContainer
  cases findIndex id p.containers <;> rfl

theorem stopContainer_eq (p : simulatedProvider) (id : GoString) :
    p.stopContainer id = p.transition (lit "exited") (lit "Exited (0) just now") id := by
  unfold simulatedProvider.stopContainer simulatedProvider.transition
    simulatedProvider.findContainer
  cases findIndex id p.containers <;> rfl

theorem restartContainer_eq (p : simulatedProvider) (id : GoString) :
    p.restartContainer id = p.transition (lit "running") (lit "Up less than a second") id := by
  unfold simulatedProvider.restartContainer simulatedProvider.transition
    simulatedProvider.findContainer
  cases findIndex id p.containers <;> rfl

theorem transition_absent (st status : GoString) (p : simulatedProvider) (id : GoString)
    (h : id ∉ p.containers.map (fun c => c.ID)) :
    p.transition st status id = (p, some (Error.notFound id)) := by
  unfold simulatedProvider.transition
  rw [(findIndex_eq_none id p.containers).2 h]

/-! ## The simulated adapter: commands -/

theorem findIndex_of_mem (id : GoString) (cs : List Container)
    (h : id ∈ cs.map (fun c => c.ID)) :
    ∃ i c, findIndex id cs = some i ∧ cs[i]? = some c ∧ c.ID = id
      ∧ ∀ j c', j < i → cs[j]? = some c' → c'.ID ≠ id := by
  cases hf : findIndex id cs with
  | none => exact absurd h ((findIndex_eq_none id cs).1 hf)
  | some i =>
    obtain ⟨c, hc, hid, hlt⟩ := findIndex_some_spec id cs i hf
    exact ⟨i, c, rfl, hc, hid, hlt⟩

theorem transition_found (st status : GoString) (p : simulatedProvider) (id : GoString)
    (i : Nat) (c : Container) (hf : findIndex id p.containers = some i)
    (hc : p.containers[i]? = some c) :
    p.transition st status id =
      ({ containers := p.containers.set i { c with State := st, Status := status },
         images := p.images }, none) := by
  unfold simulatedProvider.transition
  rw [hf]
  simp only [setPhase_eq_set st status p.containers i c hc]

/-- C2: for an identifier that is the ID of no container of the snapshot,
`startContainer`, `stopContainer` and `restartContainer` each return the
not-found error and the snapshot, containers and images, as it was. -/
theorem simulated_command_on_absent_id (p : simulatedProvider) (id : GoString)
    (h : id ∉ p.containers.map (fun c => c.ID)) :
    p.startContainer id = (p, some (Error.notFound id))
      ∧ p.stopContainer id = (p, some (Error.notFound id))
      ∧ p.restartContainer id = (p, some (Error.notFound id)) := by
  rw [startContainer_eq, stopContainer_eq, restartContainer_eq]
  exact ⟨transition_absent _ _ p id h, transition_absent _ _ p id h,
    transition_absent _ _ p id h⟩

/-- C2 (witness): the seed data and an identifier it does not hold. -/
theorem simulated_command_on_absent_id_witness :
    lit "0123456789ab" ∉ (newSimulatedProvider 0).containers.map (fun c => c.ID)
      ∧ (newSimulatedProvider 0).startContainer (lit "0123456789ab")
          = (newSimulatedProvider 0, some (Error.notFound (lit "0123456789ab")))
      ∧ (newSimulatedProvider 0).stopContainer (lit "0123456789ab")
          = (newSimulatedProvider 0, some (Error.notFound (lit "0123456789ab")))
      ∧ (newSimulatedProvider 0).restartContainer (lit "0123456789ab")
          = (newSimulatedProvider 0, some (Error.notFound (lit "0123456789ab"))) :=
  ⟨by decide, simulated_command_on_absent_id (newSimulatedProvider 0) (lit "0123456789ab")
    (by decide)⟩

/-- C3: for an identifier that is the ID of a container of the snapshot, with
`i` the first index holding it and `c` the container there, each command
returns no error and the snapshot in which the container at `i` is `c` with
the state and status of the command: `running` and `Up just now` for start,
`exited` and `Exited (0) just now` for stop, `running` and
`Up less than a second` for restart. -/
theorem simulated_command_on_present_id (p : simulatedProvider) (id : GoString)
    (h : id ∈ p.containers.map (fun c => c.ID)) :
    ∃ i c, p.findContainer id = .ok i ∧ p.containers[i]? = some c ∧ c.ID = id
      ∧ (∀ j c', j < i → p.containers[j]? = some c' → c'.ID ≠ id)
      ∧ p.startContainer id =
          ({ containers := p.containers.set i
               { c with State := lit "running", Status := lit "Up just now" },
             images := p.images }, none)
      ∧ p.stopContainer id =
          ({ containers := p.containers.set i
               { c with State := lit "exited", Status := lit "Exited (0) just now" },
             images := p.images }, none)
      ∧ p.restartContainer id =
          ({ containers := p.containers.set i
               { c with State := lit "running", Status := lit "Up less than a second" },
             images := p.images }, none) := by
  obtain ⟨i, c, hf, hc, hid, hlt⟩ := findIndex_of_mem id p.containers h
  refine ⟨i, c, ?_, hc, hid, hlt, ?_, ?_, ?_⟩
  · unfold simulatedProvider.findContainer
    rw [hf]
  · rw [startContainer_eq]
    exact transition_found _ _ p id i c hf hc
  · rw [stopContainer_eq]
    exact transition_found _ _ p id i c hf hc
  · rw [restartContainer_eq]
    exact transition_found _ _ p id i c hf hc

/-- C3 (witness): the seed data and its third container. -/
theorem simulated_command_on_present_id_witness :
    lit "52c0c9150e4f" ∈ (newSimulatedProvider 0).containers.map (fun c => c.ID)
      ∧ ∃ i c, (newSimulatedProvider 0).findContainer (lit "52c0c9150e4f") = .ok i
        ∧ (newSimulatedProvider 0).containers[i]? = some c ∧ c.ID = lit "52c0c9150e4f"
        ∧ (∀ j c', j < i → (newSimulatedProvider 0).containers[j]? = some c' →
            c'.ID ≠ lit "52c0c9150e4f")
        ∧ (newSimulatedProvider 0).startContainer (lit "52c0c9150e4f") =
            ({ containers := (newSimulatedProvider 0).containers.set i
                 { c with State := lit "running", Status := lit "Up just now" },
               images := (newSimulatedProvider 0).images }, none)
        ∧ (newSimulatedProvider 0).stopContainer (lit "52c0c9150e4f") =
            ({ containers := (newSimulatedProvider 0).containers.set i
                 { c with State := lit "exited", Status := lit "Exited (0) just now" },
               images := (newSimulatedProvider 0).images }, none)
        ∧ (newSimulatedProvider 0).restartContainer (lit "52c0c9150e4f") =
            ({ containers := (newSimulatedProvider 0).containers.set i
                 { c with State := lit "running", Status := lit "Up less than a second" },
               images := (newSimulatedProvider 0).images }, none) :=
  ⟨by decide, simulated_command_on_present_id (newSimulatedProvider 0) (lit "52c0c9150e4f")
    (by decide)⟩

theorem transition_idem (st status : GoString) (p : simulatedProvider) (id : GoString) :
    (p.transition st status id).1.transition st status id = p.transition st status id := by
  unfold simulatedProvider.transition
  cases hf : findIndex id p.containers with
  | none => simp only [hf]
  | some i =>
    have hf' : findIndex id (setPhase st status p.containers i) = some i := by
      rw [findIndex_congr id _ p.containers (setPhase_map_ID st status p.containers i), hf]
    simp only [hf', setPhase_idem]

/-- C4: for an identifier of a container of the snapshot, `startContainer`
succeeds and leaves that container in state `running`, and a second start with
the same identifier succeeds and returns the same snapshot as the first. -/
theorem startContainer_idempotent (p : simulatedProvider) (id : GoString)
    (h : id ∈ p.containers.map (fun c => c.ID)) :
    (p.startContainer id).2 = none
      ∧ (∃ i c, p.findContainer id = .ok i
          ∧ (p.startContainer id).1.containers[i]? = some c
          ∧ c.ID = id ∧ c.State = lit "running")
      ∧ (p.startContainer id).1.startContainer id = ((p.startContainer id).1, none) := by
  obtain ⟨i, c, hf, hc, hid, -⟩ := findIndex_of_mem id p.containers h
  have hfc : p.findContainer id = .ok i := by
    unfold simulatedProvider.findContainer
    rw [hf]
  have hstart := transition_found (lit "running") (lit "Up just now") p id i c hf hc
  rw [← startContainer_eq] at hstart
  have hlt : i < p.containers.length := by
    rcases Nat.lt_or_ge i p.containers.length with hl | hl
    · exact hl
    · rw [List.getElem?_eq_none hl] at hc; cases hc
  have h2 : (p.startContainer id).2 = none := by rw [hstart]
  refine ⟨h2, ⟨i, { c with State := lit "running", Status := lit "Up just now" }, hfc, ?_, hid,
    rfl⟩, ?_⟩
  · rw [hstart]
    simp [hlt]
  · have hidem := transition_idem (lit "running") (lit "Up just now") p id
    rw [← startContainer_eq, ← startContainer_eq] at hidem
    rw [hidem]
    exact Prod.ext rfl h2

/-- C4 (witness): the seed data and its third container, which is exited. -/
theorem startContainer_idempotent_witness :
    lit "52c0c9150e4f" ∈ (newSimulatedProvider 0).containers.map (fun c => c.ID)
      ∧ ((newSimulatedProvider 0).containers[2]?).map (fun c => c.State) = some (lit "exited")
      ∧ ((newSimulatedProvider 0).startContainer (lit "52c0c9150e4f")).2 = none
      ∧ (∃ i c, (newSimulatedProvider 0).findContainer (lit "52c0c9150e4f") = .ok i
          ∧ ((newSimulatedProvider 0).startContainer (lit "52c0c9150e4f")).1.containers[i]?
              = some c
          ∧ c.ID = lit "52c0c9150e4f" ∧ c.State = lit "running")
      ∧ ((newSimulatedProvider 0).startContainer (lit "52c0c9150e4f")).1.startContainer
            (lit "52c0c9150e4f")
          = (((newSimulatedProvider 0).startContainer (lit "52c0c9150e4f")).1, none) :=
  ⟨by decide, by decide,
    startContainer_idempotent (newSimulatedProvider 0) (lit "52c0c9150e4f") (by decide)⟩

/-! ## The simulated adapter: what a call leaves unchanged -/

theorem step_of_target_none (p : simulatedProvider) (call : Call) (h : call.target = none) :
    p.step call = (p, none) := by
  cases call <;> first | rfl | (simp [Call.target] at h)

theorem step_of_target_some (p : simulatedProvider) (call : Call) (id : GoString)
    (h : call.target = some id) :
    ∃ st status, p.step call = p.transition st status id
      ∧ ∀ q : simulatedProvider, q.step call = q.transition st status id := by
  cases call with
  | dashboard => simp [Call.target] at h
  | listContainers => simp [Call.target] at h
  | listImages => simp [Call.target] at h
  | startContainer x =>
    simp only [Call.target, Option.some.injEq] at h
    subst h
    exact ⟨_, _, startContainer_eq p x, fun q => startContainer_eq q x⟩
  | stopContainer x =>
    simp only [Call.target, Option.some.injEq] at h
    subst h
    exact ⟨_, _, stopContainer_eq p x, fun q => stopContainer_eq q x⟩
  | restartContainer x =>
    simp only [Call.target, Option.some.injEq] at h
    subst h
    exact ⟨_, _, restartContainer_eq p x, fun q => restartContainer_eq q x⟩

theorem transition_images (st status : GoString) (p : simulatedProvider) (id : GoString) :
    (p.transition st status id).1.images = p.images := by
  unfold simulatedProvider.transition
  cases findIndex id p.containers <;> rfl

theorem transition_map_ID (st status : GoString) (p : simulatedProvider) (id : GoString) :
    (p.transition st status id).1.containers.map (fun c => c.ID)
      = p.containers.map (fun c => c.ID) := by
  unfold simulatedProvider.transition
  cases findIndex id p.containers with
  | none => rfl
  | some i => exact setPhase_map_ID st status p.containers i

theorem transition_getElem? (st status : GoString) (p : simulatedProvider) (id : GoString)
    (j : Nat) :
    (p.transition st status id).1.containers[j]? =
      if findIndex id p.containers = some j then
        (p.containers[j]?).map (fun c => { c with State := st, Status := status })
      else p.containers[j]? := by
  unfold simulatedProvider.transition
  cases hf : findIndex id p.containers with
  | none => simp
  | some i =>
    simp only [setPhase_getElem?, Option.some.injEq]
    by_cases hj : j = i
    · simp [hj]
    · have hj' : ¬ i = j := fun e => hj e.symm
      simp [hj, hj']

theorem step_images (p : simulatedProvider) (call : Call) :
    (p.step call).1.images = p.images := by
  cases ht : call.target with
  | none => rw [step_of_target_none p call ht]
  | some id =>
    obtain ⟨st, status, h, -⟩ := step_of_target_some p call id ht
    rw [h, transition_images]

theorem step_map_ID (p : simulatedProvider) (call : Call) :
    (p.step call).1.containers.map (fun c => c.ID) = p.containers.map (fun c => c.ID) := by
  cases ht : call.target with
  | none => rw [step_of_target_none p call ht]
  | some id =>
    obtain ⟨st, status, h, -⟩ := step_of_target_some p call id ht
    rw [h, transition_map_ID]

theorem step_frame (p : simulatedProvider) (call : Call) (i : Nat)
    (h : ∀ id, call.target = some id → findIndex id p.containers ≠ some i) :
    (p.step call).1.containers[i]? = p.containers[i]? := by
  cases ht : call.target with
  | none => rw [step_of_target_none p call ht]
  | some id =>
    obtain ⟨st, status, hs, -⟩ := step_of_target_some p call id ht
    rw [hs, transition_getElem?, if_neg (h id ht)]

theorem step_fields (p : simulatedProvider) (call : Call) (i : Nat) (c c' : Container)
    (hc : p.containers[i]? = some c) (hc' : (p.step call).1.containers[i]? = some c') :
    c'.ID = c.ID ∧ c'.Name = c.Name ∧ c'.Image = c.Image ∧ c'.Command = c.Command := by
  cases ht : call.target with
  | none =>
    rw [step_of_target_none p call ht, hc] at hc'
    cases hc'
    exact ⟨rfl, rfl, rfl, rfl⟩
  | some id =>
    obtain ⟨st, status, hs, -⟩ := step_of_target_some p call id ht
    rw [hs, transition_getElem?, hc] at hc'
    split at hc'
    · simp only [Option.map_some', Option.some.injEq] at hc'
      rw [← hc']
      exact ⟨rfl, rfl, rfl, rfl⟩
    · cases hc'
      exact ⟨rfl, rfl, rfl, rfl⟩

theorem run_map_ID (p : simulatedProvider) (calls : List Call) :
    (p.run calls).containers.map (fun c => c.ID) = p.containers.map (fun c => c.ID) := by
  induction calls generalizing p with
  | nil => rfl
  | cons call calls ih =>
    unfold simulatedProvider.run
    rw [ih, step_map_ID]

theorem run_images (p : simulatedProvider) (calls : List Call) :
    (p.run calls).images = p.images := by
  induction calls generalizing p with
  | nil => rfl
  | cons call calls ih =>
    unfold simulatedProvider.run
    rw [ih, step_images]

theorem seed_IDs (now : Int) :
    (newSimulatedProvider now).containers.map (fun c => c.ID)
      = [lit "9df8a4a8ce2a", lit "f41c8f4b7a9d", lit "52c0c9150e4f"] := rfl

/-- C5: a call of any of the six simulated operations, failing or not, leaves
the images unchanged, keeps the number of containers, leaves every container
other than the first one whose ID is the argument unchanged, and leaves the
ID, name, image and command of every container unchanged; a read leaves the
snapshot unchanged and returns its lists.  So after any sequence of calls from
the seed data the container IDs are those of the seed, pairwise distinct, and
the images those of the seed. -/
theorem simulated_frame (p : simulatedProvider) (call : Call) :
    (p.step call).1.images = p.images
      ∧ (p.step call).1.containers.length = p.containers.length
      ∧ (∀ i, (∀ id, call.target = some id → findIndex id p.containers ≠ some i) →
          (p.step call).1.containers[i]? = p.containers[i]?)
      ∧ (∀ (i : Nat) (c c' : Container),
          p.containers[i]? = some c → (p.step call).1.containers[i]? = some c' →
          c'.ID = c.ID ∧ c'.Name = c.Name ∧ c'.Image = c.Image ∧ c'.Command = c.Command)
      ∧ (call.target = none → (p.step call).1 = p)
      ∧ p.listContainers = .ok p.containers
      ∧ p.listImages = .ok p.images
      ∧ (∀ (now : Int) (calls : List Call),
          ((newSimulatedProvider now).run calls).containers.map (fun c => c.ID)
              = [lit "9df8a4a8ce2a", lit "f41c8f4b7a9d", lit "52c0c9150e4f"]
            ∧ (((newSimulatedProvider now).run calls).containers.map (fun c => c.ID)).Nodup
            ∧ ((newSimulatedProvider now).run calls).images = (newSimulatedProvider now).images)
    := by
  refine ⟨step_images p call, ?_, step_frame p call, step_fields p call, ?_, rfl, rfl, ?_⟩
  · have h := congrArg List.length (step_map_ID p call)
    simpa using h
  · intro ht
    rw [step_of_target_none p call ht]
  · intro now calls
    rw [run_map_ID, seed_IDs]
    exact ⟨rfl, by decide, run_images _ _⟩

/-! ## The simulated adapter: commands on distinct containers commute -/

theorem findIndex_inj (cs : List Container) (a b : GoString) (i : Nat)
    (ha : findIndex a cs = some i) (hb : findIndex b cs = some i) : a = b := by
  obtain ⟨c, hc, hca, -⟩ := findIndex_some_spec a cs i ha
  obtain ⟨d, hd, hdb, -⟩ := findIndex_some_spec b cs i hb
  rw [hc] at hd
  cases hd
  exact hca.symm.trans hdb

theorem findIndex_transition (st status : GoString) (p : simulatedProvider) (a b : GoString) :
    findIndex b (p.transition st status a).1.containers = findIndex b p.containers :=
  findIndex_congr b _ _ (transition_map_ID st status p a)

theorem findIndex_step (p : simulatedProvider) (call : Call) (b : GoString) :
    findIndex b (p.step call).1.containers = findIndex b p.containers :=
  findIndex_congr b _ _ (step_map_ID p call)

theorem transition_comm (s₁ t₁ s₂ t₂ : GoString) (p : simulatedProvider) (a b : GoString)
    (h : a ≠ b) :
    ((p.transition s₁ t₁ a).1.transition s₂ t₂ b).1
      = ((p.transition s₂ t₂ b).1.transition s₁ t₁ a).1 := by
  have hb := findIndex_transition s₁ t₁ p a b
  have ha := findIndex_transition s₂ t₂ p b a
  cases hfa : findIndex a p.containers with
  | none =>
    cases hfb : findIndex b p.containers with
    | none =>
      simp only [simulatedProvider.transition, hfa, hfb]
    | some j =>
      rw [hfa] at ha
      simp only [simulatedProvider.transition, hfa, hfb] at ha ⊢
      simp only [ha]
  | some i =>
    cases hfb : findIndex b p.containers with
    | none =>
      rw [hfb] at hb
      simp only [simulatedProvider.transition, hfa, hfb] at hb ⊢
      simp only [hb]
    | some j =>
      have hij : i ≠ j := by
        intro e
        subst e
        exact h (findIndex_inj p.containers a b i hfa hfb)
      rw [hfa] at ha
      rw [hfb] at hb
      simp only [simulatedProvider.transition, hfa, hfb] at ha hb ⊢
      simp only [ha, hb]
      rw [setPhase_comm s₂ t₂ s₁ t₁ p.containers j i (fun e => hij e.symm)]

theorem step_comm (p : simulatedProvider) (a b : Call) (h : a.target ≠ b.target) :
    ((p.step a).1.step b).1 = ((p.step b).1.step a).1 := by
  cases hta : a.target with
  | none =>
    rw [step_of_target_none p a hta, step_of_target_none _ a hta]
  | some ida =>
    cases htb : b.target with
    | none =>
      rw [step_of_target_none p b htb, step_of_target_none _ b htb]
    | some idb =>
      obtain ⟨s₁, t₁, -, hsa⟩ := step_of_target_some p a ida hta
      obtain ⟨s₂, t₂, -, hsb⟩ := step_of_target_some p b idb htb
      rw [hsa, hsb, hsb, hsa]
      apply transition_comm
      intro e
      apply h
      rw [hta, htb, e]

theorem run_perm (l₁ l₂ : List Call) (hp : l₁.Perm l₂)
    (hd : (l₁.map Call.target).Nodup) (p : simulatedProvider) :
    p.run l₁ = p.run l₂ := by
  induction hp generalizing p with
  | nil => rfl
  | cons a _ ih =>
    simp only [List.map_cons, List.nodup_cons] at hd
    unfold simulatedProvider.run
    exact ih hd.2 _
  | swap a b l =>
    simp only [List.map_cons, List.nodup_cons, List.mem_cons, not_or] at hd
    simp only [simulatedProvider.run]
    rw [step_comm p b a hd.1.1]
  | trans h₁ _ ih₁ ih₂ =>
    have hd₂ := (List.Perm.nodup_iff (List.Perm.map Call.target h₁)).1 hd
    exact (ih₁ hd p).trans (ih₂ hd₂ p)

theorem run_frame (calls : List Call) (p : simulatedProvider) (i : Nat)
    (h : ∀ c ∈ calls, ∀ id, c.target = some id → findIndex id p.containers ≠ some i) :
    (p.run calls).containers[i]? = p.containers[i]? := by
  induction calls generalizing p with
  | nil => rfl
  | cons call calls ih =>
    unfold simulatedProvider.run
    rw [ih (p.step call).1, step_frame p call i (h call (List.mem_cons_self _ _))]
    intro c hc id hid
    rw [findIndex_step]
    exact h c (List.mem_cons_of_mem _ hc) id hid

theorem errors_none (calls : List Call) (p : simulatedProvider)
    (h : ∀ c ∈ calls, ∃ id, c.target = some id ∧ id ∈ p.containers.map (fun c => c.ID)) :
    ∀ e ∈ p.errors calls, e = none := by
  induction calls generalizing p with
  | nil => intro e he; simp [simulatedProvider.errors] at he
  | cons call calls ih =>
    intro e he
    unfold simulatedProvider.errors at he
    rcases List.mem_cons.1 he with he | he
    · obtain ⟨id, hid, hmem⟩ := h call (List.mem_cons_self _ _)
      obtain ⟨st, status, hs, -⟩ := step_of_target_some p call id hid
      obtain ⟨i, c, hf, hc, -, -⟩ := findIndex_of_mem id p.containers hmem
      rw [he, hs, transition_found st status p id i c hf hc]
    · apply ih (p.step call).1 _ e he
      intro c hc
      obtain ⟨id, hid, hmem⟩ := h c (List.mem_cons_of_mem _ hc)
      exact ⟨id, hid, by rw [step_map_ID]; exact hmem⟩

theorem errors_length (calls : List Call) (p : simulatedProvider) :
    (p.errors calls).length = calls.length := by
  induction calls generalizing p with
  | nil => rfl
  | cons c cs ih => simp only [simulatedProvider.errors, List.length_cons, ih]

theorem run_hit (calls : List Call) (p : simulatedProvider) (call : Call) (id st status : GoString)
    (i : Nat) (hd : (calls.map Call.target).Nodup) (hmem : call ∈ calls)
    (ht : call.target = some id) (hs : p.step call = p.transition st status id)
    (hf : findIndex id p.containers = some i) :
    (p.run calls).containers[i]? =
      (p.containers[i]?).map (fun c => { c with State := st, Status := status }) := by
  have hperm : calls.Perm (call :: calls.erase call) := List.perm_cons_erase hmem
  rw [run_perm _ _ hperm hd]
  have hd' := (List.Perm.nodup_iff (List.Perm.map Call.target hperm)).1 hd
  simp only [List.map_cons, List.nodup_cons] at hd'
  unfold simulatedProvider.run
  rw [run_frame, hs, transition_getElem?, if_pos hf]
  intro c hc x hx
  rw [findIndex_step]
  intro hfx
  have hxi : x = id := findIndex_inj p.containers x id i hfx hf
  apply hd'.1
  rw [ht, ← hxi, ← hx]
  exact List.mem_map_of_mem _ hc

/-- C6: let `calls` be start and stop calls on pairwise distinct identifiers of
containers of the snapshot.  Run as atomic steps in any order, every call
succeeds and the final snapshot is the one of `calls` in the given order: the
images are unchanged, the container a start names is in state `running` with
status `Up just now`, the container a stop names is in state `exited` with
status `Exited (0) just now`, and every other container is unchanged. -/
theorem disjoint_commands_any_order (p : simulatedProvider) (calls : List Call)
    (hcmd : ∀ c ∈ calls, ∃ id, (c = .startContainer id ∨ c = .stopContainer id)
      ∧ id ∈ p.containers.map (fun c => c.ID))
    (hdis : (calls.map Call.target).Nodup) :
    (∀ calls' : List Call, calls'.Perm calls →
        p.run calls' = p.run calls
          ∧ (p.errors calls').length = calls.length
          ∧ ∀ e ∈ p.errors calls', e = none)
      ∧ (p.run calls).images = p.images
      ∧ (p.run calls).containers.length = p.containers.length
      ∧ (∀ (id : GoString) (i : Nat) (c : Container), Call.startContainer id ∈ calls →
          p.findContainer id = .ok i → p.containers[i]? = some c →
          (p.run calls).containers[i]?
            = some { c with State := lit "running", Status := lit "Up just now" })
      ∧ (∀ (id : GoString) (i : Nat) (c : Container), Call.stopContainer id ∈ calls →
          p.findContainer id = .ok i → p.containers[i]? = some c →
          (p.run calls).containers[i]?
            = some { c with State := lit "exited", Status := lit "Exited (0) just now" })
      ∧ (∀ i : Nat, (∀ id, (Call.startContainer id ∈ calls ∨ Call.stopContainer id ∈ calls) →
            p.findContainer id ≠ .ok i) →
          (p.run calls).containers[i]? = p.containers[i]?) := by
  have hfc : ∀ (id : GoString) (i : Nat), p.findContainer id = .ok i →
      findIndex id p.containers = some i := by
    intro id i h
    unfold simulatedProvider.findContainer at h
    cases hf : findIndex id p.containers with
    | none => rw [hf] at h; cases h
    | some j => rw [hf] at h; cases h; rfl
  refine ⟨?_, run_images p calls, ?_, ?_, ?_, ?_⟩
  · intro calls' hperm
    have hd' := (List.Perm.nodup_iff (List.Perm.map Call.target hperm)).2 hdis
    refine ⟨run_perm calls' calls hperm hd' p, ?_, ?_⟩
    · rw [errors_length, hperm.length_eq]
    · apply errors_none
      intro c hc
      obtain ⟨id, hk, hmem⟩ := hcmd c (hperm.subset hc)
      refine ⟨id, ?_, hmem⟩
      rcases hk with hk | hk <;> rw [hk] <;> rfl
  · have h := congrArg List.length (run_map_ID p calls)
    simpa using h
  · intro id i c hmem hf hc
    rw [run_hit calls p _ id _ _ i hdis hmem rfl (startContainer_eq p id) (hfc id i hf), hc]
    rfl
  · intro id i c hmem hf hc
    rw [run_hit calls p _ id _ _ i hdis hmem rfl (stopContainer_eq p id) (hfc id i hf), hc]
    rfl
  · intro i h
    apply run_frame
    intro c hc id hid hf
    obtain ⟨x, hk, -⟩ := hcmd c hc
    have hfc' : p.findContainer id = .ok i := by
      unfold simulatedProvider.findContainer
      rw [hf]
    rcases hk with hk | hk
    · rw [hk] at hid hc
      simp only [Call.target, Option.some.injEq] at hid
      subst hid
      exact h x (Or.inl hc) hfc'
    · rw [hk] at hid hc
      simp only [Call.target, Option.some.injEq] at hid
      subst hid
      exact h x (Or.inr hc) hfc'

/-- C6 (witness): on the seed data, stopping the first container and starting
the third, in either order. -/
theorem disjoint_commands_any_order_witness :
    ([Call.stopContainer (lit "9df8a4a8ce2a"), Call.startContainer (lit "52c0c9150e4f")].map
        Call.target).Nodup
      ∧ (newSimulatedProvider 0).run
            [Call.startContainer (lit "52c0c9150e4f"), Call.stopContainer (lit "9df8a4a8ce2a")]
          = (newSimulatedProvider 0).run
            [Call.stopContainer (lit "9df8a4a8ce2a"), Call.startContainer (lit "52c0c9150e4f")]
      ∧ ((newSimulatedProvider 0).errors
            [Call.startContainer (lit "52c0c9150e4f"),
              Call.stopContainer (lit "9df8a4a8ce2a")]).length = 2
      ∧ ∀ e ∈ (newSimulatedProvider 0).errors
            [Call.startContainer (lit "52c0c9150e4f"), Call.stopContainer (lit "9df8a4a8ce2a")],
          e = none :=
  ⟨by decide,
    (disjoint_commands_any_order (newSimulatedProvider 0)
      [Call.stopContainer (lit "9df8a4a8ce2a"), Call.startContainer (lit "52c0c9150e4f")]
      (by
        intro c hc
        simp only [List.mem_cons, List.mem_singleton, List.not_mem_nil, or_false] at hc
        rcases hc with hc | hc
        · exact ⟨lit "9df8a4a8ce2a", Or.inr hc, by decide⟩
        · exact ⟨lit "52c0c9150e4f", Or.inl hc, by decide⟩)
      (by decide)).1
      [Call.startContainer (lit "52c0c9150e4f"), Call.stopContainer (lit "9df8a4a8ce2a")]
      (List.Perm.swap _ _ [])⟩

/-! ## The service and the dashboard -/

theorem service_step_simulated (rt : Runtime) (p : simulatedProvider) (call : Call) :
    DockerService.step rt { provider := .simulated p } call
      = { provider := .simulated (p.step call).1 } := by
  cases call <;> rfl

theorem service_run_simulated (rt : Runtime) (p : simulatedProvider) (calls : List Call) :
    DockerService.run rt { provider := .simulated p } calls
      = { provider := .simulated (p.run calls) } := by
  induction calls generalizing p with
  | nil => rfl
  | cons call calls ih =>
    unfold DockerService.run simulatedProvider.run
    rw [service_step_simulated, ih]

/-- C7: given an error of the binary lookup, `NewDockerService` returns the
service over the simulated adapter with the seed data, whatever the runtime
would answer to a probe; after any sequence of calls the provider is still the
simulated one and `Dashboard` succeeds with `Simulated = true`. -/
theorem absent_binary_selects_simulated (rt : Runtime) (now : Int) (dockerBin err : GoString)
    (calls : List Call) :
    NewDockerService rt now dockerBin (some err)
        = { provider := .simulated (newSimulatedProvider now) }
      ∧ (∀ rt' : Runtime, NewDockerService rt' now dockerBin (some err)
          = NewDockerService rt now dockerBin (some err))
      ∧ ((NewDockerService rt now dockerBin (some err)).run rt calls).provider
          = .simulated ((newSimulatedProvider now).run calls)
      ∧ ∃ d, ((NewDockerService rt now dockerBin (some err)).run rt calls).Dashboard rt = .ok d
          ∧ d.Simulated = true := by
  have h : ∀ r : Runtime, NewDockerService r now dockerBin (some err)
      = { provider := .simulated (newSimulatedProvider now) } := fun _ => rfl
  refine ⟨h rt, fun rt' => (h rt').trans (h rt).symm, ?_, ?_⟩
  · rw [h rt, service_run_simulated]
  · rw [h rt, service_run_simulated]
    exact ⟨_, rfl, rfl⟩

theorem foldl_countUp (cs : List Container) (a : Int) :
    cs.foldl (fun up c => if c.State = lit "running" then up + 1 else up) a
      = a + ((cs.filter (fun c => decide (c.State = lit "running"))).length : Int) := by
  induction cs generalizing a with
  | nil => simp
  | cons c cs ih =>
    rw [List.foldl_cons, ih]
    by_cases h : c.State = lit "running"
    · simp only [h, if_true, List.filter_cons, decide_True, List.length_cons]
      push_cast
      ring
    · simp only [h, if_false, List.filter_cons, decide_False]
      simp

theorem countUp_eq (cs : List Container) :
    countUp cs = ((cs.filter (fun c => decide (c.State = lit "running"))).length : Int) := by
  unfold countUp
  rw [foldl_countUp, zero_add]

theorem count_bounds (cs : List Container) (d : Dashboard)
    (ht : d.ContainersTotal = cs.length) (hu : d.ContainersUp = countUp cs)
    (hd : d.ContainersDown = (cs.length : Int) - countUp cs) :
    d.ContainersTotal = cs.length
      ∧ d.ContainersUp = ((cs.filter (fun c => decide (c.State = lit "running"))).length : Int)
      ∧ d.ContainersDown = d.ContainersTotal - d.ContainersUp
      ∧ d.ContainersUp + d.ContainersDown = d.ContainersTotal
      ∧ 0 ≤ d.ContainersUp ∧ 0 ≤ d.ContainersDown := by
  have hle : (cs.filter (fun c => decide (c.State = lit "running"))).length ≤ cs.length :=
    List.length_filter_le _ _
  rw [countUp_eq] at hu hd
  refine ⟨ht, hu, ?_, ?_, ?_, ?_⟩ <;> omega

/-- C1: when `Dashboard` succeeds, over the live or the simulated provider, the
listings succeed as well (for the simulated provider they are the snapshot),
`ContainersTotal` is the number of containers, `ContainersUp` the number of
containers whose state is `running`, `ContainersDown` their difference, so the
two add up to the total and neither is negative.  The simulated dashboard
always succeeds. -/
theorem dashboard_counts (rt : Runtime) (s : DockerService) (d : Dashboard)
    (h : s.Dashboard rt = .ok d) :
    (∃ containers images, s.ListContainers rt = .ok containers
        ∧ s.ListImages rt = .ok images
        ∧ (∀ p, s.provider = .simulated p → containers = p.containers ∧ images = p.images)
        ∧ d.ContainersTotal = containers.length
        ∧ d.ContainersUp
            = ((containers.filter (fun c => decide (c.State = lit "running"))).length : Int)
        ∧ d.ContainersDown = d.ContainersTotal - d.ContainersUp
        ∧ d.ContainersUp + d.ContainersDown = d.ContainersTotal
        ∧ 0 ≤ d.ContainersUp ∧ 0 ≤ d.ContainersDown
        ∧ d.ImagesTotal = images.length)
      ∧ ∀ p : simulatedProvider, ∃ d', p.dashboard = .ok d' := by
  refine ⟨?_, fun p => ⟨_, rfl⟩⟩
  obtain ⟨prov⟩ := s
  cases prov with
  | cli p =>
    have h' : p.dashboard rt = .ok d := h
    unfold cliProvider.dashboard at h'
    cases hc : p.listContainers rt with
    | error e => rw [hc] at h'; cases h'
    | ok containers =>
      cases hi : p.listImages rt with
      | error e => rw [hc, hi] at h'; cases h'
      | ok images =>
        rw [hc, hi] at h'
        simp only [Except.ok.injEq] at h'
        subst h'
        obtain ⟨h1, h2, h3, h4, h5, h6⟩ := count_bounds containers
          { ContainersTotal := containers.length, ContainersUp := countUp containers,
            ContainersDown := containers.length - countUp containers,
            ImagesTotal := images.length, Simulated := false } rfl rfl rfl
        refine ⟨containers, images, hc, hi, ?_, h1, h2, h3, h4, h5, h6, rfl⟩
        intro q hq
        cases hq
  | simulated p =>
    have h' : p.dashboard = .ok d := h
    unfold simulatedProvider.dashboard at h'
    simp only [Except.ok.injEq] at h'
    subst h'
    obtain ⟨h1, h2, h3, h4, h5, h6⟩ := count_bounds p.containers
      { ContainersTotal := p.containers.length, ContainersUp := countUp p.containers,
        ContainersDown := p.containers.length - countUp p.containers,
        ImagesTotal := p.images.length, Simulated := true } rfl rfl rfl
    refine ⟨p.containers, p.images, rfl, rfl, ?_, h1, h2, h3, h4, h5, h6, rfl⟩
    intro q hq
    cases hq
    exact ⟨rfl, rfl⟩

/-- C1 (witness): the live dashboard over an engine that lists two containers,
one of them up, and no image. -/
theorem dashboard_counts_witness :
    DockerService.Dashboard exampleRuntime { provider := .cli { dockerBin := lit "docker" } }
        = .ok { ContainersTotal := 2, ContainersUp := 1, ContainersDown := 1, ImagesTotal := 0,
                Simulated := false }
      ∧ (∃ containers images,
          DockerService.ListContainers exampleRuntime
              { provider := .cli { dockerBin := lit "docker" } } = .ok containers
            ∧ DockerService.ListImages exampleRuntime
              { provider := .cli { dockerBin := lit "docker" } } = .ok images
            ∧ (2 : Int) = containers.length
            ∧ (1 : Int)
                = ((containers.filter (fun c => decide (c.State = lit "running"))).length : Int)
            ∧ (0 : Int) = images.length) :=
  ⟨by rfl,
    match (dashboard_counts exampleRuntime { provider := .cli { dockerBin := lit "docker" } }
      { ContainersTotal := 2, ContainersUp := 1, ContainersDown := 1, ImagesTotal := 0,
        Simulated := false } (by rfl)).1 with
    | ⟨containers, images, hc, hi, _, ht, hu, _, _, _, _, him⟩ =>
      ⟨containers, images, hc, hi, ht, hu, him⟩⟩

/-! ## Identifiers of at most 12 bytes -/

/-- C11 (counterexample): the seed image identifier `sha256:1a8d` has 11 bytes
and `shortID` returns the 4 bytes `1a8d`. -/
theorem shortID_short_prefixed_counterexample :
    (lit "sha256:1a8d").length ≤ 12
      ∧ shortID (lit "sha256:1a8d") = lit "1a8d"
      ∧ shortID (lit "sha256:1a8d") ≠ lit "sha256:1a8d" := by
  decide

/-- C11 (amended): an identifier of at most 12 bytes that does not start with
`sha256:` is returned unchanged; one that starts with it is returned without
this prefix. -/
theorem shortID_of_short (id : GoString) (h : id.length ≤ 12) :
    (¬ lit "sha256:" <+: id → shortID id = id)
      ∧ (∀ s : GoString, id = lit "sha256:" ++ s → shortID id = s) := by
  constructor
  · intro hp
    rw [shortID_eq, if_neg hp]
    exact List.take_of_length_le h
  · intro s hs
    subst hs
    rw [shortID_eq, if_pos (List.prefix_append _ _)]
    have hl : (lit "sha256:").length = 7 := by decide
    rw [← hl, List.drop_left]
    apply List.take_of_length_le
    rw [List.length_append] at h
    omega

/-- C11 (witness): a container identifier of the seed data, 12 bytes. -/
theorem shortID_of_short_witness :
    (lit "9df8a4a8ce2a").length ≤ 12
      ∧ (¬ lit "sha256:" <+: lit "9df8a4a8ce2a" → shortID (lit "9df8a4a8ce2a") = lit "9df8a4a8ce2a")
      ∧ (∀ s : GoString, lit "9df8a4a8ce2a" = lit "sha256:" ++ s →
          shortID (lit "9df8a4a8ce2a") = s) :=
  ⟨by decide, shortID_of_short (lit "9df8a4a8ce2a") (by decide)⟩

/-! ## The simulated adapter: state and status agree -/

theorem normalizeState_ascii (rt : Runtime) (x : GoString) (hx : isASCII x = true) :
    normalizeState rt x =
      if Contains (x.map lowerByte) (lit "up") = true ∨ x.map lowerByte = lit "running" then
        lit "running" else lit "exited" := by
  rw [normalizeState_eq, toLower_ascii rt x hx]

theorem simulatedPhases_normalize (rt : Runtime) (ph : GoString × GoString)
    (h : ph ∈ simulatedPhases) :
    (ph.1 = lit "running" ∨ ph.1 = lit "exited") ∧ normalizeState rt ph.2 = ph.1 := by
  simp only [simulatedPhases, List.mem_cons, List.mem_singleton, List.not_mem_nil, or_false] at h
  rcases h with h | h | h | h | h | h <;> subst h
  · exact ⟨Or.inl rfl, by rw [normalizeState_ascii rt _ (by decide)]; decide⟩
  · exact ⟨Or.inl rfl, by rw [normalizeState_ascii rt _ (by decide)]; decide⟩
  · exact ⟨Or.inr rfl, by rw [normalizeState_ascii rt _ (by decide)]; decide⟩
  · exact ⟨Or.inl rfl, by rw [normalizeState_ascii rt _ (by decide)]; decide⟩
  · exact ⟨Or.inr rfl, by rw [normalizeState_ascii rt _ (by decide)]; decide⟩
  · exact ⟨Or.inl rfl, by rw [normalizeState_ascii rt _ (by decide)]; decide⟩

theorem setPhase_mem (st status : GoString) (cs : List Container) (i : Nat) (c : Container)
    (h : c ∈ setPhase st status cs i) :
    c ∈ cs ∨ (c.State = st ∧ c.Status = status) := by
  induction cs generalizing i with
  | nil => simp [setPhase] at h
  | cons d cs ih =>
    cases i with
    | zero =>
      simp only [setPhase, List.mem_cons] at h
      rcases h with h | h
      · right
        rw [h]
        exact ⟨rfl, rfl⟩
      · exact Or.inl (List.mem_cons_of_mem _ h)
    | succ i =>
      simp only [setPhase, List.mem_cons] at h
      rcases h with h | h
      · left
        rw [h]
        exact List.mem_cons_self _ _
      · rcases ih i h with h' | h'
        · exact Or.inl (List.mem_cons_of_mem _ h')
        · exact Or.inr h'

theorem transition_phases (st status : GoString) (hph : (st, status) ∈ simulatedPhases)
    (p : simulatedProvider) (id : GoString)
    (h : ∀ c ∈ p.containers, (c.State, c.Status) ∈ simulatedPhases) :
    ∀ c ∈ (p.transition st status id).1.containers, (c.State, c.Status) ∈ simulatedPhases := by
  unfold simulatedProvider.transition
  cases findIndex id p.containers with
  | none => exact h
  | some i =>
    intro c hc
    rcases setPhase_mem st status p.containers i c hc with h' | ⟨h1, h2⟩
    · exact h c h'
    · rw [h1, h2]
      exact hph

theorem step_phases (p : simulatedProvider) (call : Call)
    (h : ∀ c ∈ p.containers, (c.State, c.Status) ∈ simulatedPhases) :
    ∀ c ∈ (p.step call).1.containers, (c.State, c.Status) ∈ simulatedPhases := by
  cases call with
  | dashboard => exact h
  | listContainers => exact h
  | listImages => exact h
  | startContainer id =>
    show ∀ c ∈ (p.startContainer id).1.containers, _
    rw [startContainer_eq]
    exact transition_phases _ _ (by decide) p id h
  | stopContainer id =>
    show ∀ c ∈ (p.stopContainer id).1.containers, _
    rw [stopContainer_eq]
    exact transition_phases _ _ (by decide) p id h
  | restartContainer id =>
    show ∀ c ∈ (p.restartContainer id).1.containers, _
    rw [restartContainer_eq]
    exact transition_phases _ _ (by decide) p id h

theorem run_phases (calls : List Call) (p : simulatedProvider)
    (h : ∀ c ∈ p.containers, (c.State, c.Status) ∈ simulatedPhases) :
    ∀ c ∈ (p.run calls).containers, (c.State, c.Status) ∈ simulatedPhases := by
  induction calls generalizing p with
  | nil => exact h
  | cons call calls ih => exact ih _ (step_phases p call h)

theorem seed_phases (now : Int) :
    ∀ c ∈ (newSimulatedProvider now).containers, (c.State, c.Status) ∈ simulatedPhases := by
  intro c hc
  simp only [newSimulatedProvider, List.mem_cons, List.mem_singleton, List.not_mem_nil,
    or_false] at hc
  rcases hc with hc | hc | hc <;> subst hc <;> decide

/-- C20: after any sequence of calls on the seed data, whether they fail or
not, the state of every container is `running` or `exited` and is what
`normalizeState` returns for its status text. -/
theorem reachable_state_agrees_with_status (rt : Runtime) (now : Int) (calls : List Call)
    (c : Container) (h : c ∈ ((newSimulatedProvider now).run calls).containers) :
    (c.State = lit "running" ∨ c.State = lit "exited")
      ∧ normalizeState rt c.Status = c.State :=
  simulatedPhases_normalize rt (c.State, c.Status) (run_phases calls _ (seed_phases now) c h)

/-- C20 (witness): the third container of the seed data after a failing start,
its own start and a restart of the first container. -/
theorem reachable_state_agrees_with_status_witness :
    ({ ID := lit "52c0c9150e4f", Name := lit "redis-cache", Image := lit "redis:7",
        State := lit "running", Status := lit "Up just now", Command := lit "redis-server" }
        : Container)
      ∈ ((newSimulatedProvider 0).run
          [Call.startContainer (lit "absent"), Call.startContainer (lit "52c0c9150e4f"),
            Call.restartContainer (lit "9df8a4a8ce2a")]).containers
      ∧ normalizeState exampleRuntime (lit "Up just now") = lit "running" :=
  ⟨by decide,
    (reachable_state_agrees_with_status exampleRuntime 0
      [Call.startContainer (lit "absent"), Call.startContainer (lit "52c0c9150e4f"),
        Call.restartContainer (lit "9df8a4a8ce2a")]
      { ID := lit "52c0c9150e4f", Name := lit "redis-cache", Image := lit "redis:7",
        State := lit "running", Status := lit "Up just now", Command := lit "redis-server" }
      (by decide)).2⟩

/-! ## The live adapter: listing containers -/

theorem split_ne_nil (s : GoString) (sep : Nat) : Split s sep ≠ [] := by
  cases s with
  | nil => simp [Split]
  | cons b rest =>
    unfold Split
    split
    · simp
    · split <;> simp

theorem split_eq_single_nil (s : GoString) (sep : Nat) : Split s sep = [[]] ↔ s = [] := by
  constructor
  · intro h
    cases s with
    | nil => rfl
    | cons b rest =>
      exfalso
      unfold Split at h
      split at h
      · simp only [List.cons.injEq, true_and] at h
        exact split_ne_nil rest sep h
      · split at h <;> simp at h
  · intro h
    subst h
    rfl

theorem decodeContainers_ok (rt : Runtime) (lines : List GoString) (cs : List Container)
    (h : decodeContainers rt lines = .ok cs) :
    List.Forall₂ (fun line c => ∃ item, rt.UnmarshalContainer line = .ok item
      ∧ c = containerOfRecord rt item) lines cs := by
  induction lines generalizing cs with
  | nil =>
    simp only [decodeContainers, Except.ok.injEq] at h
    subst h
    exact List.Forall₂.nil
  | cons line lines ih =>
    unfold decodeContainers at h
    cases hu : rt.UnmarshalContainer line with
    | error e => rw [hu] at h; cases h
    | ok item =>
      rw [hu] at h
      cases hd : decodeContainers rt lines with
      | error e => rw [hd] at h; cases h
      | ok rest =>
        rw [hd] at h
        simp only [Except.ok.injEq] at h
        subst h
        exact List.Forall₂.cons ⟨item, hu, rfl⟩ (ih rest hd)

theorem decodeContainers_error (rt : Runtime) (lines : List GoString) (err : Error)
    (h : decodeContainers rt lines = .error err) :
    ∃ line ∈ lines, ∃ cause, rt.UnmarshalContainer line = .error cause
      ∧ err = Error.parseContainer cause := by
  induction lines with
  | nil => simp [decodeContainers] at h
  | cons line lines ih =>
    unfold decodeContainers at h
    cases hu : rt.UnmarshalContainer line with
    | error e =>
      rw [hu] at h
      simp only [Except.error.injEq] at h
      exact ⟨line, List.mem_cons_self _ _, e, hu, h.symm⟩
    | ok item =>
      rw [hu] at h
      cases hd : decodeContainers rt lines with
      | error e =>
        rw [hd] at h
        simp only [Except.error.injEq] at h
        subst h
        obtain ⟨l, hl, cause, hc, he⟩ := ih hd
        exact ⟨l, List.mem_cons_of_mem _ hl, cause, hc, he⟩
      | ok rest => rw [hd] at h; cases h

theorem decodeContainers_of_bad_line (rt : Runtime) (lines : List GoString)
    (h : ∃ line ∈ lines, ∃ cause, rt.UnmarshalContainer line = .error cause) :
    ∃ cause, decodeContainers rt lines = .error (Error.parseContainer cause) := by
  cases hd : decodeContainers rt lines with
  | error err =>
    obtain ⟨_, _, cause, _, he⟩ := decodeContainers_error rt lines err hd
    exact ⟨cause, by rw [he]⟩
  | ok cs =>
    exfalso
    obtain ⟨line, hl, cause, hc⟩ := h
    have hf := decodeContainers_ok rt lines cs hd
    clear hd
    induction hf with
    | nil => simp at hl
    | cons hx _ ih =>
      rcases List.mem_cons.1 hl with e | e
      · subst e
        obtain ⟨item, hi, -⟩ := hx
        rw [hc] at hi
        cases hi
      · exact ih e

theorem listContainers_of_output (rt : Runtime) (p : cliProvider) (out : GoString)
    (hout : p.output rt [lit "ps", lit "-a", lit "--no-trunc", lit "--format",
      lit "\x7b\x7bjson .\x7d\x7d"] = .ok out) :
    p.listContainers rt = decodeContainers rt (outputLines out) := by
  unfold cliProvider.listContainers outputLines
  rw [hout]
  dsimp only
  by_cases h : TrimSpace out = []
  · rw [if_pos h, h]
    rfl
  · rw [if_neg h]
    have hs : Split (TrimSpace out) 10 ≠ [[]] := fun e => h ((split_eq_single_nil _ _).1 e)
    split
    · rename_i heq
      exact absurd heq hs
    · rfl

/-- C16: when the listing command of the engine succeeds, `listContainers` fails
if and only if a line of the output fails to decode, the error is then a parse
error and no container is returned; otherwise it returns one container per
line, in the order of the lines, each built from the record of its line with
the short form of the raw ID, the normalized raw state and the name, image,
status and command of the record. -/
theorem listContainers_all_or_nothing (rt : Runtime) (p : cliProvider) (out : GoString)
    (hout : p.output rt [lit "ps", lit "-a", lit "--no-trunc", lit "--format",
      lit "\x7b\x7bjson .\x7d\x7d"] = .ok out) :
    ((∃ err, p.listContainers rt = .error err) ↔
        ∃ line ∈ outputLines out, ∃ cause, rt.UnmarshalContainer line = .error cause)
      ∧ (∀ err, p.listContainers rt = .error err → ∃ cause, err = Error.parseContainer cause)
      ∧ ((∀ line ∈ outputLines out, ∃ item, rt.UnmarshalContainer line = .ok item) →
          ∃ cs, p.listContainers rt = .ok cs)
      ∧ (∀ cs, p.listContainers rt = .ok cs →
          cs.length = (outputLines out).length
            ∧ List.Forall₂ (fun line c => ∃ item, rt.UnmarshalContainer line = .ok item
                ∧ c = containerOfRecord rt item) (outputLines out) cs) := by
  rw [listContainers_of_output rt p out hout]
  refine ⟨⟨?_, ?_⟩, ?_, ?_, ?_⟩
  · rintro ⟨err, h⟩
    obtain ⟨line, hl, cause, hc, -⟩ := decodeContainers_error rt _ err h
    exact ⟨line, hl, cause, hc⟩
  · intro h
    obtain ⟨cause, hc⟩ := decodeContainers_of_bad_line rt _ h
    exact ⟨_, hc⟩
  · intro err h
    obtain ⟨_, _, cause, _, he⟩ := decodeContainers_error rt _ err h
    exact ⟨cause, he⟩
  · intro hall
    cases hd : decodeContainers rt (outputLines out) with
    | ok cs => exact ⟨cs, rfl⟩
    | error err =>
      exfalso
      obtain ⟨line, hl, cause, hc, -⟩ := decodeContainers_error rt _ err hd
      obtain ⟨item, hi⟩ := hall line hl
      rw [hc] at hi
      cases hi
  · intro cs h
    have hf := decodeContainers_ok rt _ cs h
    exact ⟨hf.length_eq.symm, hf⟩

/-- C16 (witness): an engine that prints two lines, which both decode. -/
theorem listContainers_all_or_nothing_witness :
    cliProvider.output exampleRuntime { dockerBin := lit "docker" }
        [lit "ps", lit "-a", lit "--no-trunc", lit "--format", lit "\x7b\x7bjson .\x7d\x7d"]
        = .ok (lit "first\nsecond\n")
      ∧ outputLines (lit "first\nsecond\n") = [lit "first", lit "second"]
      ∧ ∀ cs, cliProvider.listContainers exampleRuntime { dockerBin := lit "docker" } = .ok cs →
          cs.length = (outputLines (lit "first\nsecond\n")).length
            ∧ List.Forall₂ (fun line c => ∃ item,
                exampleRuntime.UnmarshalContainer line = .ok item
                  ∧ c = containerOfRecord exampleRuntime item)
                (outputLines (lit "first\nsecond\n")) cs :=
  ⟨by rfl, by decide,
    (listContainers_all_or_nothing exampleRuntime { dockerBin := lit "docker" }
      (lit "first\nsecond\n") (by rfl)).2.2.2⟩

/-! ## The live adapter: identifiers in a listing -/

theorem forall₂_records (rt : Runtime) (lines : List GoString) (cs : List Container)
    (h : List.Forall₂ (fun line c => ∃ item, rt.UnmarshalContainer line = .ok item
      ∧ c = containerOfRecord rt item) lines cs) :
    ∃ items : List psItem,
      List.Forall₂ (fun line item => rt.UnmarshalContainer line = .ok item) lines items
        ∧ cs = items.map (containerOfRecord rt) := by
  induction h with
  | nil => exact ⟨[], List.Forall₂.nil, rfl⟩
  | cons hx _ ih =>
    obtain ⟨item, hi, hc⟩ := hx
    obtain ⟨items, hf, hcs⟩ := ih
    exact ⟨item :: items, List.Forall₂.cons hi hf, by rw [hc, hcs]; rfl⟩

set_option maxRecDepth 100000 in
/-- C19 (counterexample): the engine lists two containers whose full identifiers
differ in the last of their 64 digits; both records decode, and the two
containers returned have the same ID, `0123456789ab`. -/
theorem listContainers_twin_ids_counterexample :
    cliProvider.listContainers twinRuntime { dockerBin := lit "docker" }
        = .ok [ { ID := lit "0123456789ab", Name := lit "web", Image := lit "nginx:1",
                  State := lit "running", Status := lit "Up 2 hours", Command := lit "nginx" },
                { ID := lit "0123456789ab", Name := lit "web", Image := lit "nginx:1",
                  State := lit "running", Status := lit "Up 2 hours", Command := lit "nginx" } ]
      ∧ (outputLines
            (twinRuntime.CombinedOutput (lit "docker")
              [lit "ps", lit "-a", lit "--no-trunc", lit "--format",
                lit "\x7b\x7bjson .\x7d\x7d"]).1).Nodup
      ∧ ¬ ([lit "0123456789ab", lit "0123456789ab"] : List GoString).Nodup := by
  refine ⟨by rfl, by decide, by decide⟩

/-- C19 (amended): when the listing command succeeds and every line decodes, the
IDs of the containers returned are the short forms of the raw IDs of the
records, in order; they are pairwise distinct when the raw IDs are pairwise
distinct in their first 12 bytes, counted after a leading `sha256:`. -/
theorem listContainers_distinct_ids (rt : Runtime) (p : cliProvider) (out : GoString)
    (cs : List Container)
    (hout : p.output rt [lit "ps", lit "-a", lit "--no-trunc", lit "--format",
      lit "\x7b\x7bjson .\x7d\x7d"] = .ok out)
    (hcs : p.listContainers rt = .ok cs) :
    ∃ items : List psItem,
      List.Forall₂ (fun line item => rt.UnmarshalContainer line = .ok item)
          (outputLines out) items
        ∧ cs.map (fun c => c.ID) = items.map (fun item => shortID item.ID)
        ∧ ((items.map (fun item =>
              (if lit "sha256:" <+: item.ID then item.ID.drop 7 else item.ID).take 12)).Nodup →
            (cs.map (fun c => c.ID)).Nodup) := by
  rw [listContainers_of_output rt p out hout] at hcs
  obtain ⟨items, hf, hmap⟩ := forall₂_records rt _ cs (decodeContainers_ok rt _ cs hcs)
  have hids : cs.map (fun c => c.ID) = items.map (fun item => shortID item.ID) := by
    rw [hmap, List.map_map]
    rfl
  refine ⟨items, hf, hids, ?_⟩
  intro hnd
  rw [hids]
  have he : (fun item : psItem => shortID item.ID)
      = fun item => (if lit "sha256:" <+: item.ID then item.ID.drop 7 else item.ID).take 12 := by
    funext item
    exact shortID_eq item.ID
  rw [he]
  exact hnd

/-- C19 (witness): an engine that prints two lines, whose records have the raw
IDs `sha256:first` and `sha256:second`. -/
theorem listContainers_distinct_ids_witness :
    cliProvider.listContainers exampleRuntime { dockerBin := lit "docker" }
        = .ok [containerOfRecord exampleRuntime
                { ID := lit "sha256:first", Names := lit "first", Image := lit "redis:7",
                  State := lit "Up 2 hours", Status := lit "", Command := lit "redis-server" },
               containerOfRecord exampleRuntime
                { ID := lit "sha256:second", Names := lit "second", Image := lit "redis:7",
                  State := lit "Exited (0) 1 hour ago", Status := lit "",
                  Command := lit "redis-server" }]
      ∧ ∃ items : List psItem,
          List.Forall₂ (fun line item => exampleRuntime.UnmarshalContainer line = .ok item)
              (outputLines (lit "first\nsecond\n")) items
            ∧ [lit "first", lit "second"] = items.map (fun item => shortID item.ID) :=
  ⟨by rfl,
    match listContainers_distinct_ids exampleRuntime { dockerBin := lit "docker" }
      (lit "first\nsecond\n")
      [containerOfRecord exampleRuntime
        { ID := lit "sha256:first", Names := lit "first", Image := lit "redis:7",
          State := lit "Up 2 hours", Status := lit "", Command := lit "redis-server" },
       containerOfRecord exampleRuntime
        { ID := lit "sha256:second", Names := lit "second", Image := lit "redis:7",
          State := lit "Exited (0) 1 hour ago", Status := lit "",
          Command := lit "redis-server" }] (by rfl) (by rfl) with
    | ⟨items, hf, hids, _⟩ => ⟨items, hf, (by decide : _ = _).trans hids⟩⟩

/-! ## White space -/

theorem spaceRunes_ne_nil : ∀ r ∈ spaceRunes, r ≠ [] := by decide

theorem spaceRunes_prefix_free : ∀ a ∈ spaceRunes, ∀ b ∈ spaceRunes, a <+: b → a = b := by
  decide

theorem leadingSpace_pos (s : GoString) (k : Nat) (h : leadingSpace s = k + 1) :
    ∃ r ∈ spaceRunes, r.length = k + 1 ∧ r <+: s := by
  unfold leadingSpace at h
  split at h
  · rename_i r hr
    have hp := List.find?_some hr
    exact ⟨r, List.mem_of_find?_eq_some hr, h, List.isPrefixOf_iff_prefix.1 hp⟩
  · cases h

theorem trailingSpace_pos (s : GoString) (k : Nat) (h : trailingSpace s = k + 1) :
    ∃ r ∈ spaceRunes, r.length = k + 1 ∧ r <:+ s := by
  unfold trailingSpace at h
  split at h
  · rename_i r hr
    have hp := List.find?_some hr
    exact ⟨r, List.mem_of_find?_eq_some hr, h, List.isSuffixOf_iff_suffix.1 hp⟩
  · cases h

theorem leadingSpace_of_rune (r rest : GoString) (hr : r ∈ spaceRunes) :
    leadingSpace (r ++ rest) = r.length := by
  unfold leadingSpace
  split
  · rename_i r' hr'
    have hmem := List.mem_of_find?_eq_some hr'
    have hp' := List.find?_some hr'
    have hp : r' <+: r ++ rest := List.isPrefixOf_iff_prefix.1 hp'
    have hp0 : r <+: r ++ rest := List.prefix_append _ _
    rcases Nat.le_total r'.length r.length with hle | hle
    · rw [spaceRunes_prefix_free r' hmem r hr (List.prefix_of_prefix_length_le hp hp0 hle)]
    · rw [← spaceRunes_prefix_free r hr r' hmem (List.prefix_of_prefix_length_le hp0 hp hle)]
  · rename_i hnone
    rw [List.find?_eq_none] at hnone
    exact absurd (List.isPrefixOf_iff_prefix.2 (List.prefix_append r rest)) (hnone r hr)

theorem trimLeftSpace_spec (fuel : Nat) (s : GoString) :
    ∃ runes : List GoString, (∀ r ∈ runes, r ∈ spaceRunes)
      ∧ s = runes.flatten ++ trimLeftSpace fuel s := by
  induction fuel generalizing s with
  | zero => exact ⟨[], by simp, by simp [trimLeftSpace]⟩
  | succ fuel ih =>
    unfold trimLeftSpace
    split
    · exact ⟨[], by simp, by simp⟩
    · rename_i k hk
      obtain ⟨r, hr, hlen, ⟨t, ht⟩⟩ := leadingSpace_pos s k hk
      obtain ⟨runes, hall, hs⟩ := ih (s.drop (k + 1))
      refine ⟨r :: runes, ?_, ?_⟩
      · intro x hx
        rcases List.mem_cons.1 hx with e | e
        · rw [e]; exact hr
        · exact hall x e
      · have hd : s.drop (k + 1) = t := by
          rw [← ht, ← hlen, List.drop_left]
        rw [List.flatten_cons, List.append_assoc, ← hs, hd, ht]

theorem trimRightSpace_spec (fuel : Nat) (s : GoString) :
    ∃ runes : List GoString, (∀ r ∈ runes, r ∈ spaceRunes)
      ∧ s = trimRightSpace fuel s ++ runes.flatten := by
  induction fuel generalizing s with
  | zero => exact ⟨[], by simp, by simp [trimRightSpace]⟩
  | succ fuel ih =>
    unfold trimRightSpace
    split
    · exact ⟨[], by simp, by simp⟩
    · rename_i k hk
      obtain ⟨r, hr, hlen, ⟨t, ht⟩⟩ := trailingSpace_pos s k hk
      obtain ⟨runes, hall, hs⟩ := ih (s.take (s.length - (k + 1)))
      refine ⟨runes ++ [r], ?_, ?_⟩
      · intro x hx
        rcases List.mem_append.1 hx with e | e
        · exact hall x e
        · rw [List.mem_singleton.1 e]; exact hr
      · have hd : s.take (s.length - (k + 1)) = t := by
          rw [← ht, ← hlen, List.length_append, Nat.add_sub_cancel, List.take_left]
        rw [List.flatten_append, ← List.append_assoc, ← hs, hd]
        simpa using ht.symm

theorem trimLeftSpace_flatten (runes : List GoString) (hall : ∀ r ∈ runes, r ∈ spaceRunes)
    (fuel : Nat) (hfuel : runes.length ≤ fuel) :
    trimLeftSpace fuel runes.flatten = [] := by
  induction runes generalizing fuel with
  | nil => cases fuel <;> rfl
  | cons r runes ih =>
    cases fuel with
    | zero => simp at hfuel
    | succ fuel =>
      have hr := hall r (List.mem_cons_self _ _)
      have hne : r.length ≠ 0 := fun e => spaceRunes_ne_nil r hr (List.length_eq_zero.1 e)
      obtain ⟨k, hk⟩ := Nat.exists_eq_succ_of_ne_zero hne
      unfold trimLeftSpace
      rw [List.flatten_cons, leadingSpace_of_rune r _ hr, hk]
      dsimp only
      rw [← Nat.succ_eq_add_one, ← hk, List.drop_left]
      exact ih (fun x hx => hall x (List.mem_cons_of_mem _ hx)) fuel
        (by simp only [List.length_cons] at hfuel; omega)

theorem length_le_flatten (runes : List GoString) (hall : ∀ r ∈ runes, r ∈ spaceRunes) :
    runes.length ≤ runes.flatten.length := by
  induction runes with
  | nil => simp
  | cons r runes ih =>
    have hr := hall r (List.mem_cons_self _ _)
    have hne : r.length ≠ 0 := fun e => spaceRunes_ne_nil r hr (List.length_eq_zero.1 e)
    have := ih (fun x hx => hall x (List.mem_cons_of_mem _ hx))
    simp only [List.length_cons, List.flatten_cons, List.length_append]
    omega

theorem trimRightSpace_nil (fuel : Nat) : trimRightSpace fuel [] = [] := by
  cases fuel <;> rfl

theorem trimSpace_eq_nil_iff (s : GoString) : TrimSpace s = [] ↔ Blank s := by
  unfold TrimSpace Blank
  constructor
  · intro h
    obtain ⟨r₁, h₁, hs⟩ := trimLeftSpace_spec s.length s
    obtain ⟨r₂, h₂, ht⟩ := trimRightSpace_spec s.length (trimLeftSpace s.length s)
    rw [h, List.nil_append] at ht
    refine ⟨r₁ ++ r₂, ?_, ?_⟩
    · intro x hx
      rcases List.mem_append.1 hx with e | e
      · exact h₁ x e
      · exact h₂ x e
    · rw [List.flatten_append, ← ht]
      exact hs
  · rintro ⟨runes, hall, hs⟩
    subst hs
    rw [trimLeftSpace_flatten runes hall _ (length_le_flatten runes hall)]
    exact trimRightSpace_nil _

/-! ## The live adapter: blank output and blank identifiers -/

theorem decodeImages_ok (rt : Runtime) (lines : List GoString) (images : List Image)
    (h : decodeImages rt lines = .ok images) :
    List.Forall₂ (fun line image => ∃ item, rt.UnmarshalImage line = .ok item
      ∧ image = { ID := shortID item.ID,
                  RepoTags := TrimSpace (item.Repository ++ lit ":" ++ item.Tag),
                  SizeMB := parseSizeMB rt item.Size, Created := 0 }) lines images := by
  induction lines generalizing images with
  | nil =>
    simp only [decodeImages, Except.ok.injEq] at h
    subst h
    exact List.Forall₂.nil
  | cons line lines ih =>
    unfold decodeImages at h
    cases hu : rt.UnmarshalImage line with
    | error e => rw [hu] at h; cases h
    | ok item =>
      rw [hu] at h
      cases hd : decodeImages rt lines with
      | error e => rw [hd] at h; cases h
      | ok rest =>
        rw [hd] at h
        simp only [Except.ok.injEq] at h
        subst h
        exact List.Forall₂.cons ⟨item, hu, rfl⟩ (ih rest hd)

theorem decodeImages_error (rt : Runtime) (lines : List GoString) (err : Error)
    (h : decodeImages rt lines = .error err) :
    ∃ line ∈ lines, ∃ cause, rt.UnmarshalImage line = .error cause
      ∧ err = Error.parseImage cause := by
  induction lines with
  | nil => simp [decodeImages] at h
  | cons line lines ih =>
    unfold decodeImages at h
    cases hu : rt.UnmarshalImage line with
    | error e =>
      rw [hu] at h
      simp only [Except.error.injEq] at h
      exact ⟨line, List.mem_cons_self _ _, e, hu, h.symm⟩
    | ok item =>
      rw [hu] at h
      cases hd : decodeImages rt lines with
      | error e =>
        rw [hd] at h
        simp only [Except.error.injEq] at h
        subst h
        obtain ⟨l, hl, cause, hc, he⟩ := ih hd
        exact ⟨l, List.mem_cons_of_mem _ hl, cause, hc, he⟩
      | ok rest => rw [hd] at h; cases h

theorem listImages_of_output (rt : Runtime) (p : cliProvider) (out : GoString)
    (hout : p.output rt [lit "images", lit "--no-trunc", lit "--format",
      lit "\x7b\x7bjson .\x7d\x7d"] = .ok out) :
    p.listImages rt = decodeImages rt (outputLines out) := by
  unfold cliProvider.listImages outputLines
  rw [hout]
  dsimp only
  by_cases h : TrimSpace out = []
  · rw [if_pos h, h]
    rfl
  · rw [if_neg h]
    have hs : Split (TrimSpace out) 10 ≠ [[]] := fun e => h ((split_eq_single_nil _ _).1 e)
    split
    · rename_i heq
      exact absurd heq hs
    · rfl

theorem outputLines_blank (out : GoString) (h : Blank out) : outputLines out = [] := by
  unfold outputLines
  rw [if_pos ((trimSpace_eq_nil_iff out).2 h)]

theorem blank_nil : Blank [] := ⟨[], by simp, rfl⟩

/-- C17: when the listing command succeeds with an output that is empty or only
white space, `listContainers` returns the empty list and no error, and so does
`listImages`; when both do, every total of the dashboard is zero. -/
theorem blank_output_lists_nothing (rt : Runtime) (p : cliProvider) :
    (∀ out, p.output rt [lit "ps", lit "-a", lit "--no-trunc", lit "--format",
          lit "\x7b\x7bjson .\x7d\x7d"] = .ok out → Blank out →
        p.listContainers rt = .ok [])
      ∧ (∀ out, p.output rt [lit "images", lit "--no-trunc", lit "--format",
          lit "\x7b\x7bjson .\x7d\x7d"] = .ok out → Blank out →
        p.listImages rt = .ok [])
      ∧ (p.listContainers rt = .ok [] → p.listImages rt = .ok [] →
        p.dashboard rt = .ok { ContainersTotal := 0, ContainersUp := 0, ContainersDown := 0,
                               ImagesTotal := 0, Simulated := false }) := by
  refine ⟨?_, ?_, ?_⟩
  · intro out hout hb
    rw [listContainers_of_output rt p out hout, outputLines_blank out hb]
    rfl
  · intro out hout hb
    rw [listImages_of_output rt p out hout, outputLines_blank out hb]
    rfl
  · intro hc hi
    unfold cliProvider.dashboard
    rw [hc, hi]
    rfl

/-- C17 (witness): an engine whose image listing prints nothing, and one whose
container listing prints a line feed, a tab and a no-break space. -/
theorem blank_output_lists_nothing_witness :
    cliProvider.listImages exampleRuntime { dockerBin := lit "docker" } = .ok []
      ∧ ∀ rt : Runtime,
          rt.CombinedOutput (lit "docker") [lit "ps", lit "-a", lit "--no-trunc", lit "--format",
              lit "\x7b\x7bjson .\x7d\x7d"] = (lit "\n\t ", none) →
          cliProvider.listContainers rt { dockerBin := lit "docker" } = .ok [] :=
  ⟨(blank_output_lists_nothing exampleRuntime { dockerBin := lit "docker" }).2.1 (lit "")
      (by rfl) blank_nil,
    fun rt h =>
      (blank_output_lists_nothing rt { dockerBin := lit "docker" }).1 (lit "\n\t ")
        (by unfold cliProvider.output; rw [h])
        ⟨[[10], [9], [0xC2, 0xA0]], by decide, by decide⟩⟩

theorem validate_blank (id : GoString) (h : Blank id) :
    ValidateContainerID id = some Error.idRequired := by
  unfold ValidateContainerID
  have hl : lit "" = [] := rfl
  rw [hl, if_pos ((trimSpace_eq_nil_iff id).2 h)]

theorem validate_not_blank (id : GoString) (h : ¬ Blank id) : ValidateContainerID id = none := by
  unfold ValidateContainerID
  have hl : lit "" = [] := rfl
  rw [hl, if_neg (fun e => h ((trimSpace_eq_nil_iff id).1 e))]

theorem raw_congr (rt rt' : Runtime) (p : cliProvider) (args : List GoString)
    (h : rt.CombinedOutput p.dockerBin args = rt'.CombinedOutput p.dockerBin args) :
    p.raw rt args = p.raw rt' args := by
  unfold cliProvider.raw cliProvider.output
  rw [h]

theorem raw_of_success (rt : Runtime) (p : cliProvider) (args : List GoString)
    (data : GoString) (h : rt.CombinedOutput p.dockerBin args = (data, none)) :
    p.raw rt args = none := by
  unfold cliProvider.raw cliProvider.output
  rw [h]

theorem raw_of_failure (rt : Runtime) (p : cliProvider) (args : List GoString)
    (data cause : GoString) (h : rt.CombinedOutput p.dockerBin args = (data, some cause)) :
    p.raw rt args = some (Error.invocation args cause (TrimSpace data)) := by
  unfold cliProvider.raw cliProvider.output
  rw [h]

/-- C18: `ValidateContainerID` returns its error exactly for the identifiers that
are empty or only white space.  For these the three commands of the live
adapter return that error whatever the engine would answer.  For every other
identifier each command returns the outcome of the one invocation `start id`,
`stop id` or `restart id` of the engine binary: nothing when the invocation
succeeds, and when it fails the error that carries these arguments, the cause
and the trimmed output of the engine; so it is what `raw` returns for these
arguments, and it depends on the engine through that invocation only. -/
theorem live_commands_validate_first (id : GoString) :
    (ValidateContainerID id = some Error.idRequired ↔ Blank id)
      ∧ (ValidateContainerID id = none ↔ ¬ Blank id)
      ∧ (Blank id → ∀ (rt : Runtime) (p : cliProvider),
          p.startContainer rt id = some Error.idRequired
            ∧ p.stopContainer rt id = some Error.idRequired
            ∧ p.restartContainer rt id = some Error.idRequired)
      ∧ (¬ Blank id → ∀ (rt : Runtime) (p : cliProvider) (data : GoString),
          (rt.CombinedOutput p.dockerBin [lit "start", id] = (data, none) →
            p.startContainer rt id = none)
          ∧ (∀ cause, rt.CombinedOutput p.dockerBin [lit "start", id] = (data, some cause) →
            p.startContainer rt id
              = some (Error.invocation [lit "start", id] cause (TrimSpace data)))
          ∧ (rt.CombinedOutput p.dockerBin [lit "stop", id] = (data, none) →
            p.stopContainer rt id = none)
          ∧ (∀ cause, rt.CombinedOutput p.dockerBin [lit "stop", id] = (data, some cause) →
            p.stopContainer rt id
              = some (Error.invocation [lit "stop", id] cause (TrimSpace data)))
          ∧ (rt.CombinedOutput p.dockerBin [lit "restart", id] = (data, none) →
            p.restartContainer rt id = none)
          ∧ (∀ cause, rt.CombinedOutput p.dockerBin [lit "restart", id] = (data, some cause) →
            p.restartContainer rt id
              = some (Error.invocation [lit "restart", id] cause (TrimSpace data))))
      ∧ (¬ Blank id → ∀ (rt : Runtime) (p : cliProvider),
          p.startContainer rt id = p.raw rt [lit "start", id]
            ∧ p.stopContainer rt id = p.raw rt [lit "stop", id]
            ∧ p.restartContainer rt id = p.raw rt [lit "restart", id])
      ∧ (∀ (rt rt' : Runtime) (p : cliProvider),
          (rt.CombinedOutput p.dockerBin [lit "start", id]
              = rt'.CombinedOutput p.dockerBin [lit "start", id] →
            p.startContainer rt id = p.startContainer rt' id)
          ∧ (rt.CombinedOutput p.dockerBin [lit "stop", id]
              = rt'.CombinedOutput p.dockerBin [lit "stop", id] →
            p.stopContainer rt id = p.stopContainer rt' id)
          ∧ (rt.CombinedOutput p.dockerBin [lit "restart", id]
              = rt'.CombinedOutput p.dockerBin [lit "restart", id] →
            p.restartContainer rt id = p.restartContainer rt' id)) := by
  by_cases hb : Blank id
  · have hv := validate_blank id hb
    refine ⟨⟨fun _ => hb, fun _ => hv⟩, ⟨fun h => ?_, fun h => absurd hb h⟩, ?_,
      fun h => absurd hb h, fun h => absurd hb h, ?_⟩
    · rw [hv] at h; cases h
    · intro _ rt p
      simp only [cliProvider.startContainer, cliProvider.stopContainer,
        cliProvider.restartContainer, hv, and_self]
    · intro rt rt' p
      simp only [cliProvider.startContainer, cliProvider.stopContainer,
        cliProvider.restartContainer, hv, implies_true, and_self]
  · have hv := validate_not_blank id hb
    refine ⟨⟨fun h => ?_, fun h => absurd h hb⟩, ⟨fun _ => hb, fun _ => hv⟩,
      fun h => absurd h hb, ?_, ?_, ?_⟩
    · rw [hv] at h; cases h
    · intro _ rt p data
      simp only [cliProvider.startContainer, cliProvider.stopContainer,
        cliProvider.restartContainer, hv]
      exact ⟨raw_of_success rt p _ data, fun cause => raw_of_failure rt p _ data cause,
        raw_of_success rt p _ data, fun cause => raw_of_failure rt p _ data cause,
        raw_of_success rt p _ data, fun cause => raw_of_failure rt p _ data cause⟩
    · intro _ rt p
      simp only [cliProvider.startContainer, cliProvider.stopContainer,
        cliProvider.restartContainer, hv, and_self]
    · intro rt rt' p
      simp only [cliProvider.startContainer, cliProvider.stopContainer,
        cliProvider.restartContainer, hv]
      exact ⟨raw_congr rt rt' p _, raw_congr rt rt' p _, raw_congr rt rt' p _⟩

/-- C18 (witness): with an engine that refuses every command, stopping `web`
returns the error of the invocation `stop web`, with the cause and the trimmed
output of the engine; stopping an identifier of a blank and a tab returns the
validation error. -/
theorem live_commands_validate_first_witness :
    cliProvider.stopContainer
        { exampleRuntime with
          CombinedOutput := fun _ _ => (lit "No such container: web\n", some (lit "exit status 1")) }
        { dockerBin := lit "docker" } (lit "web")
      = some (Error.invocation [lit "stop", lit "web"] (lit "exit status 1")
          (lit "No such container: web"))
    ∧ cliProvider.stopContainer
        { exampleRuntime with
          CombinedOutput := fun _ _ => (lit "No such container: web\n", some (lit "exit status 1")) }
        { dockerBin := lit "docker" } (lit " \t")
      = some Error.idRequired :=
  ⟨((live_commands_validate_first (lit "web")).2.2.2.1
      (fun h => absurd ((trimSpace_eq_nil_iff _).2 h) (by decide)) _
      { dockerBin := lit "docker" } (lit "No such container: web\n")).2.2.2.1
        (lit "exit status 1") rfl,
    ((live_commands_validate_first (lit " \t")).2.2.1
      ((trimSpace_eq_nil_iff _).1 (by decide)) _ { dockerBin := lit "docker" }).2.1⟩

/-! ## Sizes -/

theorem ieee_toInt64 (rt : Runtime) : rt.ieee.toInt64 = Float64.toInt64 rt.toInt64 := rfl

theorem ieee_mul1024 (rt : Runtime) : rt.ieee.mul1024 = Float64.mul1024 := rfl

theorem ieee_div1024 (rt : Runtime) : rt.ieee.div1024 = Float64.div1024 := rfl

/-- C12: with IEEE 754 arithmetic and the scanner of package `fmt`, `parseSizeMB`
maps `132MB` to 132, `1.2GB` to 1228, `512KB` to 0 and `bogus` to 0. -/
theorem parseSizeMB_examples (rt : Runtime) :
    parseSizeMB rt.ieee (lit "132MB") = 132
      ∧ parseSizeMB rt.ieee (lit "1.2GB") = 1228
      ∧ parseSizeMB rt.ieee (lit "512KB") = 0
      ∧ parseSizeMB rt.ieee (lit "bogus") = 0 := by
  refine ⟨?_, ?_, ?_, ?_⟩ <;>
  · unfold parseSizeMB
    rw [ieee_toInt64, ieee_mul1024, ieee_div1024]
    rfl

theorem trimSuffix_prefix (s suf : GoString) : TrimSuffix s suf <+: s := by
  unfold TrimSuffix
  split
  · exact List.take_prefix _ _
  · exact List.prefix_refl _

theorem scanSuffix_cases (rt : Runtime) (token : GoString) (value : Float64)
    (hvalue : rt.SscanfFloat token = some value) (suffixes : List GoString) :
    scanSuffix rt token value suffixes = none
      ∨ ∃ unit tok v, scanSuffix rt token value suffixes = some (unit, v)
          ∧ tok <+: token ∧ rt.SscanfFloat tok = some v := by
  induction suffixes with
  | nil => exact Or.inr ⟨_, token, value, rfl, List.prefix_refl _, hvalue⟩
  | cons s rest ih =>
    unfold scanSuffix
    split
    · cases hs : rt.SscanfFloat (TrimSuffix token s) with
      | none => exact Or.inl rfl
      | some v => exact Or.inr ⟨s, TrimSuffix token s, v, rfl, trimSuffix_prefix _ _, hs⟩
    · exact ih

theorem scaleToMB_cases (rt : Runtime) (unit : GoString) (v : Float64) :
    scaleToMB rt unit v = rt.toInt64 v ∨ scaleToMB rt unit v = rt.toInt64 (rt.mul1024 v)
      ∨ scaleToMB rt unit v = rt.toInt64 (rt.div1024 v)
      ∨ scaleToMB rt unit v = rt.toInt64 (rt.div1024 (rt.div1024 v)) := by
  unfold scaleToMB
  split
  · exact Or.inr (Or.inl rfl)
  · split
    · exact Or.inr (Or.inr (Or.inl rfl))
    · split
      · exact Or.inr (Or.inr (Or.inr rfl))
      · exact Or.inl rfl

theorem parseSizeMB_of_no_field (rt : Runtime) (size : GoString)
    (hf : Fields (TrimSpace (ToUpper rt size)) = []) : parseSizeMB rt size = 0 := by
  unfold parseSizeMB
  rw [hf]

theorem parseSizeMB_of_scan_error (rt : Runtime) (size first : GoString) (more : List GoString)
    (hf : Fields (TrimSpace (ToUpper rt size)) = first :: more)
    (hs : rt.SscanfFloat first = none) : parseSizeMB rt size = 0 := by
  unfold parseSizeMB
  rw [hf]
  dsimp only
  rw [hs]

theorem parseSizeMB_of_two_fields (rt : Runtime) (size first second : GoString)
    (rest : List GoString) (value : Float64)
    (hf : Fields (TrimSpace (ToUpper rt size)) = first :: second :: rest)
    (hs : rt.SscanfFloat first = some value) :
    parseSizeMB rt size = scaleToMB rt second value := by
  unfold parseSizeMB
  rw [hf]
  dsimp only
  rw [hs]
  rfl

theorem parseSizeMB_of_one_field (rt : Runtime) (size first : GoString) (value : Float64)
    (hf : Fields (TrimSpace (ToUpper rt size)) = [first])
    (hs : rt.SscanfFloat first = some value) :
    parseSizeMB rt size =
      match (if HasSuffix first (lit "GB") || HasSuffix first (lit "MB")
              || HasSuffix first (lit "KB") || HasSuffix first (lit "B") then
            scanSuffix rt first value [lit "GB", lit "MB", lit "KB", lit "B"]
          else some (lit "MB", value)) with
      | none => 0
      | some (unit, v) => scaleToMB rt unit v := by
  unfold parseSizeMB
  rw [hf]
  dsimp only
  rw [hs]
  rfl

theorem parseSizeMB_cases (rt : Runtime) (size : GoString) :
    parseSizeMB rt size = 0
      ∨ ∃ first more tok v, Fields (TrimSpace (ToUpper rt size)) = first :: more
          ∧ tok <+: first ∧ rt.SscanfFloat tok = some v
          ∧ (parseSizeMB rt size = rt.toInt64 v
            ∨ parseSizeMB rt size = rt.toInt64 (rt.mul1024 v)
            ∨ parseSizeMB rt size = rt.toInt64 (rt.div1024 v)
            ∨ parseSizeMB rt size = rt.toInt64 (rt.div1024 (rt.div1024 v))) := by
  cases hf : Fields (TrimSpace (ToUpper rt size)) with
  | nil => exact Or.inl (parseSizeMB_of_no_field rt size hf)
  | cons first more =>
    cases hs : rt.SscanfFloat first with
    | none => exact Or.inl (parseSizeMB_of_scan_error rt size first more hf hs)
    | some value =>
      cases more with
      | cons second rest =>
        rw [parseSizeMB_of_two_fields rt size first second rest value hf hs]
        exact Or.inr ⟨first, second :: rest, first, value, rfl, List.prefix_refl _, hs,
          scaleToMB_cases rt second value⟩
      | nil =>
        rw [parseSizeMB_of_one_field rt size first value hf hs]
        split
        · exact Or.inl rfl
        · rename_i unit v heq
          right
          refine ⟨first, [], ?_⟩
          split at heq
          · rcases scanSuffix_cases rt first value hs [lit "GB", lit "MB", lit "KB", lit "B"]
              with h | ⟨unit', tok, v', h, hp, hv⟩
            · rw [h] at heq; cases heq
            · rw [h] at heq
              simp only [Option.some.injEq, Prod.mk.injEq] at heq
              obtain ⟨h1, h2⟩ := heq
              subst h1 h2
              exact ⟨tok, v', rfl, hp, hv, scaleToMB_cases rt unit' v'⟩
          · simp only [Option.some.injEq, Prod.mk.injEq] at heq
            obtain ⟨h1, h2⟩ := heq
            subst h1 h2
            exact ⟨first, value, rfl, List.prefix_refl _, hs, scaleToMB_cases rt _ value⟩

theorem flatten_singletons (s : GoString) : (s.map (fun c => [c])).flatten = s := by
  induction s with
  | nil => rfl
  | cons c s ih => simp only [List.map_cons, List.flatten_cons, ih, List.singleton_append]

theorem blank_of_ascii_spaces (s : GoString) (h : ∀ c ∈ s, c ∈ [9, 10, 11, 12, 13, 32]) :
    Blank s := by
  refine ⟨s.map (fun c => [c]), ?_, (flatten_singletons s).symm⟩
  intro r hr
  obtain ⟨c, hc, rfl⟩ := List.mem_map.1 hr
  have := h c hc
  simp only [List.mem_cons, List.mem_singleton, List.not_mem_nil, or_false] at this
  rcases this with e | e | e | e | e | e <;> subst e <;> decide

theorem toUpper_ascii_spaces (rt : Runtime) (s : GoString)
    (h : ∀ c ∈ s, c ∈ [9, 10, 11, 12, 13, 32]) : ToUpper rt s = s := by
  have hascii : isASCII s = true := by
    unfold isASCII
    rw [List.all_eq_true]
    intro c hc
    have := h c hc
    simp only [List.mem_cons, List.mem_singleton, List.not_mem_nil, or_false] at this
    rcases this with e | e | e | e | e | e <;> subst e <;> decide
  unfold ToUpper
  rw [if_pos hascii]
  conv_rhs => rw [← List.map_id s]
  apply List.map_congr_left
  intro c hc
  have := h c hc
  simp only [List.mem_cons, List.mem_singleton, List.not_mem_nil, or_false] at this
  rcases this with e | e | e | e | e | e <;> subst e <;> rfl

theorem parseSizeMB_of_blank (rt : Runtime) (size : GoString) (h : Blank (ToUpper rt size)) :
    parseSizeMB rt size = 0 := by
  apply parseSizeMB_of_no_field
  rw [(trimSpace_eq_nil_iff _).2 h]
  rfl

theorem decodeImages_of_all_decode (rt : Runtime) (lines : List GoString)
    (h : ∀ line ∈ lines, ∃ item, rt.UnmarshalImage line = .ok item) :
    ∃ images, decodeImages rt lines = .ok images := by
  cases hd : decodeImages rt lines with
  | ok images => exact ⟨images, rfl⟩
  | error err =>
    exfalso
    obtain ⟨line, hl, cause, hc, -⟩ := decodeImages_error rt lines err hd
    obtain ⟨item, hi⟩ := h line hl
    rw [hc] at hi
    cases hi

/-- C14: `parseSizeMB` returns 0 for the empty string, for a string of white space
and for a string whose first field does not scan as a number; it is a total
function.  The listing of images does not depend on it to succeed: when the
listing command succeeds and every line decodes, `listImages` succeeds and the
`SizeMB` of each image is `parseSizeMB` of the size of its record, so 0 for
such a size. -/
theorem parseSizeMB_degrades_to_zero (rt : Runtime) (size : GoString) :
    (size = [] → parseSizeMB rt size = 0)
      ∧ ((∀ c ∈ size, c ∈ [9, 10, 11, 12, 13, 32]) → parseSizeMB rt size = 0)
      ∧ (Blank (ToUpper rt size) → parseSizeMB rt size = 0)
      ∧ (∀ first more, Fields (TrimSpace (ToUpper rt size)) = first :: more →
          rt.SscanfFloat first = none → parseSizeMB rt size = 0)
      ∧ (∀ (p : cliProvider) (out : GoString),
          p.output rt [lit "images", lit "--no-trunc", lit "--format",
            lit "\x7b\x7bjson .\x7d\x7d"] = .ok out →
          (∀ line ∈ outputLines out, ∃ item, rt.UnmarshalImage line = .ok item) →
          ∃ images, p.listImages rt = .ok images
            ∧ List.Forall₂ (fun line (image : Image) => ∃ item,
                rt.UnmarshalImage line = .ok item
                  ∧ image.SizeMB = parseSizeMB rt item.Size) (outputLines out) images) := by
  refine ⟨?_, ?_, parseSizeMB_of_blank rt size, ?_, ?_⟩
  · intro h
    subst h
    exact parseSizeMB_of_blank rt [] (by
      rw [toUpper_ascii_spaces rt [] (by simp)]
      exact blank_nil)
  · intro h
    apply parseSizeMB_of_blank
    rw [toUpper_ascii_spaces rt size h]
    exact blank_of_ascii_spaces size h
  · intro first more hf hs
    exact parseSizeMB_of_scan_error rt size first more hf hs
  · intro p out hout hall
    rw [listImages_of_output rt p out hout]
    obtain ⟨images, himages⟩ := decodeImages_of_all_decode rt _ hall
    refine ⟨images, himages, ?_⟩
    have hf := decodeImages_ok rt _ images himages
    refine hf.imp ?_
    rintro line image ⟨item, hi, rfl⟩
    exact ⟨item, hi, rfl⟩

/-- C15 (counterexample): the size string `-5MB` gives -5. -/
theorem parseSizeMB_negative_counterexample :
    (∀ rt : Runtime, parseSizeMB rt.ieee (lit "-5MB") = -5)
      ∧ (∀ rt : Runtime, parseSizeMB rt.ieee (lit "-5 MB") = -5)
      ∧ (-5 : Int) < 0 := by
  refine ⟨fun rt => ?_, fun rt => ?_, by decide⟩ <;>
  · unfold parseSizeMB
    rw [ieee_toInt64, ieee_mul1024, ieee_div1024]
    rfl

/-! ## Sizes: a number with its unit attached or after white space -/

theorem spaceRunes_heads :
    ∀ r ∈ spaceRunes, r.head?.all (fun h => decide (h < 33 ∨ 128 ≤ h)) = true ∧ r ≠ [] := by
  decide

theorem spaceRunes_lasts :
    ∀ r ∈ spaceRunes,
      r.reverse.head?.all (fun h => decide (h < 33 ∨ 128 ≤ h)) = true ∧ r.reverse ≠ [] := by
  decide

theorem leadingSpace_of_printable (c : Nat) (rest : GoString) (h : 33 ≤ c ∧ c < 128) :
    leadingSpace (c :: rest) = 0 := by
  unfold leadingSpace
  have hnone : spaceRunes.find? (fun r => r.isPrefixOf (c :: rest)) = none := by
    rw [List.find?_eq_none]
    intro r hr hp
    obtain ⟨hh, hne⟩ := spaceRunes_heads r hr
    cases r with
    | nil => exact hne rfl
    | cons a t =>
      simp only [List.head?_cons, Option.all_some, decide_eq_true_eq] at hh
      simp only [List.isPrefixOf, Bool.and_eq_true, beq_iff_eq] at hp
      omega
  rw [hnone]

theorem trailingSpace_of_printable (s : GoString) (c : Nat) (h : 33 ≤ c ∧ c < 128) :
    trailingSpace (s ++ [c]) = 0 := by
  unfold trailingSpace
  have hnone : spaceRunes.find? (fun r => r.isSuffixOf (s ++ [c])) = none := by
    rw [List.find?_eq_none]
    intro r hr hp
    obtain ⟨hh, hne⟩ := spaceRunes_lasts r hr
    unfold List.isSuffixOf at hp
    rw [List.reverse_append] at hp
    cases hrev : r.reverse with
    | nil => exact hne hrev
    | cons a t =>
      rw [hrev] at hh hp
      simp only [List.head?_cons, Option.all_some, decide_eq_true_eq] at hh
      simp only [List.reverse_cons, List.reverse_nil, List.nil_append, List.singleton_append,
        List.isPrefixOf, Bool.and_eq_true, beq_iff_eq] at hp
      omega
  rw [hnone]

theorem trimSpace_of_printable_ends (c d : Nat) (mid : GoString)
    (hc : 33 ≤ c ∧ c < 128) (hd : 33 ≤ d ∧ d < 128) :
    TrimSpace (c :: (mid ++ [d])) = c :: (mid ++ [d]) := by
  unfold TrimSpace
  have hl : (c :: (mid ++ [d])).length = (mid ++ [d]).length + 1 := rfl
  rw [hl]
  have h1 : trimLeftSpace ((mid ++ [d]).length + 1) (c :: (mid ++ [d])) = c :: (mid ++ [d]) := by
    unfold trimLeftSpace
    rw [leadingSpace_of_printable c _ hc]
  rw [h1]
  unfold trimRightSpace
  have h2 : trailingSpace (c :: (mid ++ [d])) = 0 := by
    rw [← List.cons_append]
    exact trailingSpace_of_printable _ d hd
  rw [h2]

theorem fieldsAux_printable (w rest cur : GoString) (hw : ∀ c ∈ w, 33 ≤ c ∧ c < 128) :
    fieldsAux (w ++ rest) 0 cur = fieldsAux rest 0 (w.reverse ++ cur) := by
  induction w generalizing cur with
  | nil => rfl
  | cons c w ih =>
    rw [List.cons_append, fieldsAux, leadingSpace_of_printable c _ (hw c (List.mem_cons_self _ _))]
    dsimp only
    rw [ih (c :: cur) (fun x hx => hw x (List.mem_cons_of_mem _ hx))]
    simp

theorem fieldsAux_skip (w rest cur : GoString) :
    fieldsAux (w ++ rest) w.length cur = fieldsAux rest 0 cur := by
  induction w with
  | nil => rfl
  | cons c w ih =>
    rw [List.cons_append, List.length_cons, fieldsAux]
    exact ih

theorem fieldsAux_rune (r rest cur : GoString) (hr : r ∈ spaceRunes) :
    fieldsAux (r ++ rest) 0 cur
      = (if cur = [] then [] else [cur.reverse]) ++ fieldsAux rest 0 [] := by
  cases r with
  | nil => exact absurd rfl (spaceRunes_ne_nil [] hr)
  | cons c r' =>
    have hl := leadingSpace_of_rune (c :: r') rest hr
    rw [List.cons_append] at hl ⊢
    rw [fieldsAux, hl, List.length_cons]
    dsimp only
    rw [fieldsAux_skip]

theorem fieldsAux_runes (runes : List GoString) (rest cur : GoString) (hne : runes ≠ [])
    (hall : ∀ r ∈ runes, r ∈ spaceRunes) :
    fieldsAux (runes.flatten ++ rest) 0 cur
      = (if cur = [] then [] else [cur.reverse]) ++ fieldsAux rest 0 [] := by
  induction runes generalizing cur with
  | nil => exact absurd rfl hne
  | cons r runes ih =>
    rw [List.flatten_cons, List.append_assoc,
      fieldsAux_rune r _ cur (hall r (List.mem_cons_self _ _))]
    cases runes with
    | nil => rfl
    | cons r₂ runes' =>
      rw [ih [] (by simp) (fun x hx => hall x (List.mem_cons_of_mem _ hx))]
      simp

theorem fields_single (w : GoString) (hne : w ≠ []) (hw : ∀ c ∈ w, 33 ≤ c ∧ c < 128) :
    Fields w = [w] := by
  unfold Fields
  have h := fieldsAux_printable w [] [] hw
  rw [List.append_nil] at h
  rw [h, fieldsAux]
  simp [hne]

theorem fields_pair (w sp v : GoString) (hw : w ≠ []) (hv : v ≠ [])
    (hwp : ∀ c ∈ w, 33 ≤ c ∧ c < 128) (hvp : ∀ c ∈ v, 33 ≤ c ∧ c < 128)
    (hne : sp ≠ []) (hsp : Blank sp) :
    Fields (w ++ sp ++ v) = [w, v] := by
  obtain ⟨runes, hall, hflat⟩ := hsp
  have hrunes : runes ≠ [] := by
    intro e
    rw [e] at hflat
    exact hne hflat
  subst hflat
  unfold Fields
  rw [List.append_assoc, fieldsAux_printable w _ [] hwp, fieldsAux_runes runes v _ hrunes hall]
  have h := fieldsAux_printable v [] [] hvp
  rw [List.append_nil] at h
  rw [h, fieldsAux]
  simp [hw, hv]


theorem hasSuffix_iff (s suf : GoString) : HasSuffix s suf = true ↔ suf <:+ s := by
  unfold HasSuffix
  exact List.isSuffixOf_iff_suffix

theorem hasSuffix_append_self (n suf : GoString) : HasSuffix (n ++ suf) suf = true :=
  (hasSuffix_iff _ _).2 (List.suffix_append n suf)

theorem hasSuffix_eq_false (s suf : GoString) (h : ¬ suf <:+ s) : HasSuffix s suf = false := by
  cases hs : HasSuffix s suf
  · rfl
  · exact absurd ((hasSuffix_iff _ _).1 hs) h

theorem not_suffix_of_short (n unit suf : GoString) (hlen : suf.length ≤ unit.length)
    (hne : ¬ suf <:+ unit) : ¬ suf <:+ n ++ unit := fun h =>
  hne (List.suffix_of_suffix_length_le h (List.suffix_append n unit) hlen)

theorem not_suffix_of_digit (n : GoString) (x y : Nat) (hne : n ≠ [])
    (hn : ∀ c ∈ n, (48 ≤ c ∧ c ≤ 57) ∨ c = 46) (hx : 58 ≤ x) :
    ¬ [x, y] <:+ n ++ [y] := by
  intro h
  rcases List.eq_nil_or_concat n with e | ⟨front, b, e⟩
  · exact hne e
  · rw [List.concat_eq_append] at e
    subst e
    rw [List.append_assoc] at h
    have h2 : [x, y] <:+ [b] ++ [y] :=
      List.suffix_of_suffix_length_le h (List.suffix_append _ _) (by simp)
    have h3 := h2.eq_of_length (by simp)
    simp only [List.singleton_append, List.cons.injEq, and_true] at h3
    have := hn b (by simp)
    omega


theorem trimSuffix_append (n suf : GoString) : TrimSuffix (n ++ suf) suf = n := by
  unfold TrimSuffix
  rw [if_pos (hasSuffix_append_self n suf), List.length_append, Nat.add_sub_cancel]
  exact List.take_left' rfl

theorem scanSuffix_attached (rt : Runtime) (n unit : GoString) (value : Float64)
    (hne : n ≠ []) (hn : ∀ c ∈ n, (48 ≤ c ∧ c ≤ 57) ∨ c = 46)
    (hunit : unit ∈ [lit "GB", lit "MB", lit "KB", lit "B"]) :
    scanSuffix rt (n ++ unit) value [lit "GB", lit "MB", lit "KB", lit "B"]
      = (rt.SscanfFloat n).map (fun v => (unit, v)) := by
  have hfound : ∀ rest : List GoString,
      scanSuffix rt (n ++ unit) value (unit :: rest)
        = (rt.SscanfFloat n).map (fun v => (unit, v)) := by
    intro rest
    unfold scanSuffix
    rw [if_pos (hasSuffix_append_self n unit), trimSuffix_append]
    cases rt.SscanfFloat n <;> rfl
  have hskip : ∀ (s : GoString) (rest : List GoString), ¬ s <:+ n ++ unit →
      scanSuffix rt (n ++ unit) value (s :: rest) = scanSuffix rt (n ++ unit) value rest := by
    intro s rest hs
    conv_lhs => unfold scanSuffix
    rw [hasSuffix_eq_false _ _ hs]
    simp
  simp only [List.mem_cons, List.mem_singleton, List.not_mem_nil, or_false] at hunit
  rcases hunit with e | e | e | e <;> subst e
  · exact hfound _
  · rw [hskip _ _ (not_suffix_of_short n _ _ (by decide) (by decide))]
    exact hfound _
  · rw [hskip _ _ (not_suffix_of_short n _ _ (by decide) (by decide)),
      hskip _ _ (not_suffix_of_short n _ _ (by decide) (by decide))]
    exact hfound _
  · have hB : lit "B" = [66] := by decide
    rw [hskip _ _ (by
        rw [hB, show lit "GB" = [71, 66] by decide]
        exact not_suffix_of_digit n 71 66 hne hn (by omega)),
      hskip _ _ (by
        rw [hB, show lit "MB" = [77, 66] by decide]
        exact not_suffix_of_digit n 77 66 hne hn (by omega)),
      hskip _ _ (by
        rw [hB, show lit "KB" = [75, 66] by decide]
        exact not_suffix_of_digit n 75 66 hne hn (by omega))]
    exact hfound _

theorem upperByte_lt (c : Nat) (h : upperByte c < 128) : c < 128 := by
  unfold upperByte at h
  split at h <;> omega

theorem isASCII_iff (s : GoString) : isASCII s = true ↔ ∀ c ∈ s, c < 128 := by
  unfold isASCII RuneSelf
  simp [List.all_eq_true]

theorem toUpper_of_ascii (rt : Runtime) (s : GoString) (h : ∀ c ∈ s, c < 128) :
    ToUpper rt s = s.map upperByte := by
  unfold ToUpper
  rw [if_pos ((isASCII_iff s).2 h)]

theorem map_upper_fixed (s : GoString) (h : ∀ c ∈ s, c < 97) : s.map upperByte = s := by
  conv_rhs => rw [← List.map_id s]
  apply List.map_congr_left
  intro c hc
  have := h c hc
  unfold upperByte
  rw [if_neg (by omega)]
  rfl

theorem unit_bytes (unit : GoString)
    (hunit : unit ∈ [lit "GB", lit "MB", lit "KB", lit "B"]) :
    unit ≠ [] ∧ ∀ c ∈ unit, 33 ≤ c ∧ c < 128 := by
  simp only [List.mem_cons, List.mem_singleton, List.not_mem_nil, or_false] at hunit
  rcases hunit with e | e | e | e <;> subst e <;> decide

theorem spaceRunes_bytes : ∀ r ∈ spaceRunes, ∀ c ∈ r, c < 97 ∨ 128 ≤ c := by
  decide

theorem blank_ascii_bytes (sp : GoString) (hsp : Blank sp) (hascii : isASCII sp = true) :
    ∀ c ∈ sp, c < 97 := by
  obtain ⟨runes, hall, hflat⟩ := hsp
  subst hflat
  intro c hc
  have h128 := (isASCII_iff _).1 hascii c hc
  obtain ⟨r, hr, hcr⟩ := List.mem_flatten.1 hc
  have := spaceRunes_bytes r (hall r hr) c hcr
  omega

theorem toUpper_number_unit (rt : Runtime) (n sp u : GoString)
    (hn : ∀ c ∈ n, (48 ≤ c ∧ c ≤ 57) ∨ c = 46)
    (hsp : Blank sp)
    (hu : u.map upperByte ∈ [lit "GB", lit "MB", lit "KB", lit "B"])
    (hupper : isASCII sp = true
      ∨ rt.unicodeToUpper (n ++ sp ++ u) = n ++ sp ++ u.map upperByte) :
    ToUpper rt (n ++ sp ++ u) = n ++ sp ++ u.map upperByte := by
  have hn' : ∀ c ∈ n, c < 97 := fun c hc => by have := hn c hc; omega
  have hu' : ∀ c ∈ u, c < 128 := fun c hc =>
    upperByte_lt c ((unit_bytes _ hu).2 _ (List.mem_map_of_mem _ hc)).2
  by_cases hascii : isASCII sp = true
  · have hsp' := blank_ascii_bytes sp hsp hascii
    rw [toUpper_of_ascii rt _ (by
      intro c hc
      rcases List.mem_append.1 hc with h | h
      · rcases List.mem_append.1 h with h | h
        · have := hn' c h; omega
        · have := hsp' c h; omega
      · exact hu' c h)]
    rw [List.map_append, List.map_append, map_upper_fixed n hn', map_upper_fixed sp hsp']
  · rcases hupper with h | h
    · exact absurd h hascii
    · unfold ToUpper
      rw [if_neg, h]
      intro hall
      apply hascii
      rw [isASCII_iff] at hall ⊢
      intro c hc
      exact hall c (List.mem_append_left _ (List.mem_append_right _ hc))


theorem accept_append (set buf r : GoString) (g : Nat) (t : GoString) (hg : g ∉ set) :
    accept set (buf, r ++ g :: t)
      = ((accept set (buf, r)).1, (accept set (buf, r)).2.1, (accept set (buf, r)).2.2 ++ g :: t) := by
  cases r with
  | nil =>
    simp only [List.nil_append, accept, if_neg hg]
  | cons c r =>
    simp only [List.cons_append, accept]
    split <;> rfl

theorem takeWhile_append_stop (p : Nat → Bool) (r : GoString) (g : Nat) (t : GoString)
    (hg : p g = false) : (r ++ g :: t).takeWhile p = r.takeWhile p := by
  induction r with
  | nil => simp [List.takeWhile, hg]
  | cons c r ih =>
    rw [List.cons_append, List.takeWhile_cons, List.takeWhile_cons, ih]

theorem dropWhile_append_stop (p : Nat → Bool) (r : GoString) (g : Nat) (t : GoString)
    (hg : p g = false) : (r ++ g :: t).dropWhile p = r.dropWhile p ++ g :: t := by
  induction r with
  | nil => simp [List.dropWhile, hg]
  | cons c r ih =>
    rw [List.cons_append, List.dropWhile_cons, List.dropWhile_cons, ih]
    split <;> rfl

theorem acceptAll_append (set buf r : GoString) (g : Nat) (t : GoString) (hg : g ∉ set) :
    acceptAll set (buf, r ++ g :: t)
      = ((acceptAll set (buf, r)).1, (acceptAll set (buf, r)).2 ++ g :: t) := by
  have hp : (fun c => decide (c ∈ set)) g = false := by simp [hg]
  unfold acceptAll
  dsimp only
  rw [takeWhile_append_stop (fun c => decide (c ∈ set)) r g t hp,
    dropWhile_append_stop (fun c => decide (c ∈ set)) r g t hp]

theorem floatTail_append (digits exp buf r : GoString) (g : Nat) (t : GoString)
    (hd : g ∉ digits) (he : g ∉ exp) (hdot : g ∉ lit ".") (hsign : g ∉ lit "+-")
    (hdec : g ∉ lit "0123456789_") :
    floatTail digits exp (buf, r ++ g :: t) = floatTail digits exp (buf, r) := by
  unfold floatTail
  simp only [acceptAll_append digits buf r g t hd]
  rw [accept_append (lit ".") _ _ g t hdot]
  dsimp only
  cases hflag : (accept (lit ".") (acceptAll digits (buf, r))).1
  · simp only [Bool.false_eq_true, if_false]
    rw [accept_append exp _ _ g t he]
    dsimp only
    cases (accept exp (accept (lit ".") (acceptAll digits (buf, r))).2).1
    · simp only [Bool.false_eq_true, if_false]
    · simp only [if_true]
      rw [accept_append (lit "+-") _ _ g t hsign, acceptAll_append _ _ _ g t hdec]
  · simp only [if_true]
    rw [acceptAll_append digits _ _ g t hd, accept_append exp _ _ g t he]
    dsimp only
    cases (accept exp (acceptAll digits (accept (lit ".") (acceptAll digits (buf, r))).2)).1
    · simp only [Bool.false_eq_true, if_false]
    · simp only [if_true]
      rw [accept_append (lit "+-") _ _ g t hsign, acceptAll_append _ _ _ g t hdec]


theorem accept_cons_of_not_mem (set buf : GoString) (c : Nat) (r : GoString) (h : c ∉ set) :
    accept set (buf, c :: r) = (false, (buf, c :: r)) := by
  simp only [accept, if_neg h]

theorem accept_x_of_head (buf m : GoString)
    (hm : ∀ c, m.head? = some c → c ≠ 120 ∧ c ≠ 88) :
    accept (lit "xX") (buf, m) = (false, (buf, m)) := by
  cases m with
  | nil => rfl
  | cons c r =>
    apply accept_cons_of_not_mem
    have := hm c rfl
    have hx : lit "xX" = [120, 88] := by decide
    rw [hx]
    simp only [List.mem_cons, List.mem_singleton, List.not_mem_nil, or_false]
    omega

theorem floatToken_zero (m : GoString) (hm : ∀ c, m.head? = some c → c ≠ 120 ∧ c ≠ 88) :
    floatToken (48 :: m) = floatTail (lit "0123456789_") (lit "eEpP") ([48], m) := by
  have h : floatToken (48 :: m)
      = floatTail
          (if (accept (lit "xX") ([48], m)).1 then lit "0123456789aAbBcCdDeEfF_"
            else lit "0123456789_")
          (if (accept (lit "xX") ([48], m)).1 then lit "pP" else lit "eEpP")
          (accept (lit "xX") ([48], m)).2 := by
    rfl
  rw [h, accept_x_of_head [48] m hm]
  rfl

theorem floatToken_decimal (c : Nat) (m : GoString)
    (hc : (49 ≤ c ∧ c ≤ 57) ∨ c = 46) :
    floatToken (c :: m) = floatTail (lit "0123456789_") (lit "eEpP") ([], c :: m) := by
  rcases hc with ⟨h1, h2⟩ | h
  · interval_cases c <;> rfl
  · subst h
    rfl

theorem floatToken_attached (n unit : GoString) (hne : n ≠ [])
    (hn : ∀ c ∈ n, (48 ≤ c ∧ c ≤ 57) ∨ c = 46)
    (hunit : unit ∈ [lit "GB", lit "MB", lit "KB", lit "B"]) :
    floatToken (n ++ unit) = floatToken n := by
  obtain ⟨g, t, hgt, hg⟩ : ∃ g t, unit = g :: t ∧ (g = 71 ∨ g = 77 ∨ g = 75 ∨ g = 66) := by
    simp only [List.mem_cons, List.mem_singleton, List.not_mem_nil, or_false] at hunit
    rcases hunit with e | e | e | e <;> subst e
    · exact ⟨71, [66], by decide, by decide⟩
    · exact ⟨77, [66], by decide, by decide⟩
    · exact ⟨75, [66], by decide, by decide⟩
    · exact ⟨66, [], by decide, by decide⟩
  subst hgt
  have hsets : g ∉ lit "0123456789_" ∧ g ∉ lit "eEpP" ∧ g ∉ lit "." ∧ g ∉ lit "+-" := by
    rcases hg with e | e | e | e <;> subst e <;> decide
  obtain ⟨s1, s2, s3, s4⟩ := hsets
  cases n with
  | nil => exact absurd rfl hne
  | cons c n' =>
    have hc := hn c (List.mem_cons_self _ _)
    have hhead : ∀ (m : GoString) (x : Nat), (m = n' ∨ m = n' ++ g :: t) →
        m.head? = some x → x ≠ 120 ∧ x ≠ 88 := by
      intro m x hm hx
      cases n' with
      | nil =>
        rcases hm with e | e
        · subst e; cases hx
        · subst e
          simp only [List.nil_append, List.head?_cons, Option.some.injEq] at hx
          omega
      | cons d n'' =>
        have hd := hn d (by simp)
        rcases hm with e | e <;> subst e <;>
          simp only [List.cons_append, List.head?_cons, Option.some.injEq] at hx <;> omega
    by_cases h0 : c = 48
    · subst h0
      rw [List.cons_append, floatToken_zero _ (fun x hx => hhead _ x (Or.inr rfl) hx),
        floatToken_zero _ (fun x hx => hhead _ x (Or.inl rfl) hx)]
      exact floatTail_append _ _ _ _ g t s1 s2 s3 s4 s1
    · have hc' : (49 ≤ c ∧ c ≤ 57) ∨ c = 46 := by omega
      rw [List.cons_append, floatToken_decimal c _ hc', floatToken_decimal c _ hc',
        ← List.cons_append]
      exact floatTail_append _ _ _ _ g t s1 s2 s3 s4 s1

theorem scanFloat_attached (n unit : GoString) (hne : n ≠ [])
    (hn : ∀ c ∈ n, (48 ≤ c ∧ c ≤ 57) ∨ c = 46)
    (hunit : unit ∈ [lit "GB", lit "MB", lit "KB", lit "B"]) :
    scanFloat (n ++ unit) = scanFloat n := by
  unfold scanFloat
  rw [floatToken_attached n unit hne hn hunit]
  cases n with
  | nil => exact absurd rfl hne
  | cons c n' =>
    have hc := hn c (List.mem_cons_self _ _)
    rw [List.cons_append, leadingSpace_of_printable c _ (by omega),
      leadingSpace_of_printable c _ (by omega)]
    rfl

theorem ieee_scan (rt : Runtime) (s : GoString) :
    rt.ieee.SscanfFloat s =
      match scanFloat s with
      | some result => result
      | none => rt.SscanfFloat s := rfl

theorem accept_concat (set : GoString) (st : GoString × GoString) :
    (accept set st).2.1 ++ (accept set st).2.2 = st.1 ++ st.2 := by
  obtain ⟨buf, r⟩ := st
  cases r with
  | nil => rfl
  | cons c r =>
    simp only [accept]
    split <;> simp

theorem acceptAll_concat (set : GoString) (st : GoString × GoString) :
    (acceptAll set st).1 ++ (acceptAll set st).2 = st.1 ++ st.2 := by
  obtain ⟨buf, r⟩ := st
  simp only [acceptAll, List.append_assoc, List.takeWhile_append_dropWhile]

theorem floatTail_prefix (digits exp : GoString) (st : GoString × GoString) :
    floatTail digits exp st <+: st.1 ++ st.2 := by
  unfold floatTail
  dsimp only
  have h1 := acceptAll_concat digits st
  have h2 := accept_concat (lit ".") (acceptAll digits st)
  rw [← h1, ← h2]
  cases (accept (lit ".") (acceptAll digits st)).1
  · simp only [Bool.false_eq_true, if_false]
    have h3 := accept_concat exp (accept (lit ".") (acceptAll digits st)).2
    rw [← h3]
    cases (accept exp (accept (lit ".") (acceptAll digits st)).2).1
    · simp only [Bool.false_eq_true, if_false]
      exact List.prefix_append _ _
    · simp only [if_true]
      have h4 := accept_concat (lit "+-")
        (accept exp (accept (lit ".") (acceptAll digits st)).2).2
      have h5 := acceptAll_concat (lit "0123456789_") (accept (lit "+-")
        (accept exp (accept (lit ".") (acceptAll digits st)).2).2).2
      rw [← h4, ← h5]
      exact List.prefix_append _ _
  · simp only [if_true]
    have h3 := acceptAll_concat digits (accept (lit ".") (acceptAll digits st)).2
    have h4 := accept_concat exp (acceptAll digits (accept (lit ".") (acceptAll digits st)).2)
    rw [← h3, ← h4]
    cases (accept exp (acceptAll digits (accept (lit ".") (acceptAll digits st)).2)).1
    · simp only [Bool.false_eq_true, if_false]
      exact List.prefix_append _ _
    · simp only [if_true]
      have h5 := accept_concat (lit "+-")
        (accept exp (acceptAll digits (accept (lit ".") (acceptAll digits st)).2)).2
      have h6 := acceptAll_concat (lit "0123456789_") (accept (lit "+-")
        (accept exp (acceptAll digits (accept (lit ".") (acceptAll digits st)).2)).2).2
      rw [← h5, ← h6]
      exact List.prefix_append _ _

theorem floatToken_prefix_of_decimal (n : GoString)
    (hn : ∀ c ∈ n, (48 ≤ c ∧ c ≤ 57) ∨ c = 46) : floatToken n <+: n := by
  cases n with
  | nil => exact (by decide : floatToken [] <+: [])
  | cons c n' =>
    have hc := hn c (List.mem_cons_self _ _)
    by_cases h0 : c = 48
    · subst h0
      rw [floatToken_zero n' (by
        intro x hx
        have := hn x (List.mem_cons_of_mem _ (List.mem_of_mem_head? hx))
        omega)]
      exact floatTail_prefix _ _ ([48], n')
    · rw [floatToken_decimal c n' (by omega)]
      exact floatTail_prefix _ _ ([], c :: n')

theorem scanFloat_decimal (n : GoString) (hne : n ≠ [])
    (hn : ∀ c ∈ n, (48 ≤ c ∧ c ≤ 57) ∨ c = 46) :
    scanFloat n = some (parseFloat (floatToken n)) := by
  unfold scanFloat
  rw [if_neg hne]
  cases n with
  | nil => exact absurd rfl hne
  | cons c n' =>
    have hc := hn c (List.mem_cons_self _ _)
    rw [leadingSpace_of_printable c _ (by omega)]
    simp only [ne_eq, not_true_eq_false, if_false]
    rw [if_neg]
    simp only [List.any_eq_true, decide_eq_true_eq, not_exists, not_and]
    intro x hx
    have hmem := (floatToken_prefix_of_decimal (c :: n') hn).subset hx
    have := hn x hmem
    have hset : lit "xXpP_" = [120, 88, 112, 80, 95] := by decide
    rw [hset]
    simp only [List.mem_cons, List.mem_singleton, List.not_mem_nil, or_false]
    omega

/-- The scanner of the model reads a decimal number alike with and without an
attached unit: the token ends before the unit. -/
theorem ieee_scan_attached (rt : Runtime) (n unit : GoString) (hne : n ≠ [])
    (hn : ∀ c ∈ n, (48 ≤ c ∧ c ≤ 57) ∨ c = 46)
    (hunit : unit ∈ [lit "GB", lit "MB", lit "KB", lit "B"]) :
    rt.ieee.SscanfFloat (n ++ unit) = rt.ieee.SscanfFloat n := by
  rw [ieee_scan, ieee_scan, scanFloat_attached n unit hne hn hunit,
    scanFloat_decimal n hne hn]


theorem trimSpace_between (w mid v : GoString) (hw : w ≠ []) (hv : v ≠ [])
    (hwp : ∀ c ∈ w, 33 ≤ c ∧ c < 128) (hvp : ∀ c ∈ v, 33 ≤ c ∧ c < 128) :
    TrimSpace (w ++ mid ++ v) = w ++ mid ++ v := by
  cases w with
  | nil => exact absurd rfl hw
  | cons c w' =>
    rcases List.eq_nil_or_concat v with e | ⟨v', d, e⟩
    · exact absurd e hv
    · rw [List.concat_eq_append] at e
      subst e
      have h := trimSpace_of_printable_ends c d (w' ++ mid ++ v')
        (hwp c (List.mem_cons_self _ _)) (hvp d (by simp))
      simpa [List.append_assoc] using h

theorem scaleToMB_units (rt : Runtime) (v : Float64) :
    scaleToMB rt (lit "GB") v = rt.toInt64 (rt.mul1024 v)
      ∧ scaleToMB rt (lit "MB") v = rt.toInt64 v
      ∧ scaleToMB rt (lit "KB") v = rt.toInt64 (rt.div1024 v)
      ∧ scaleToMB rt (lit "B") v = rt.toInt64 (rt.div1024 (rt.div1024 v)) := by
  refine ⟨?_, ?_, ?_, ?_⟩
  · unfold scaleToMB
    rw [if_pos rfl]
  · unfold scaleToMB
    rw [if_neg (by decide), if_neg (by decide), if_neg (by decide)]
  · unfold scaleToMB
    rw [if_neg (by decide), if_pos rfl]
  · unfold scaleToMB
    rw [if_neg (by decide), if_neg (by decide), if_pos rfl]

theorem parseSizeMB_attached (rt : Runtime) (n u : GoString) (hne : n ≠ [])
    (hn : ∀ c ∈ n, (48 ≤ c ∧ c ≤ 57) ∨ c = 46)
    (hu : u.map upperByte ∈ [lit "GB", lit "MB", lit "KB", lit "B"])
    (hscan : rt.SscanfFloat (n ++ u.map upperByte) = none ↔ rt.SscanfFloat n = none) :
    parseSizeMB rt (n ++ u) =
      match rt.SscanfFloat n with
      | none => 0
      | some v => scaleToMB rt (u.map upperByte) v := by
  obtain ⟨hune, hup⟩ := unit_bytes _ hu
  have hnp : ∀ c ∈ n, 33 ≤ c ∧ c < 128 := fun c hc => by have := hn c hc; omega
  have hupper : ToUpper rt (n ++ u) = n ++ u.map upperByte := by
    have h := toUpper_number_unit rt n [] u hn blank_nil hu (Or.inl rfl)
    simpa using h
  have htrim : TrimSpace (n ++ u.map upperByte) = n ++ u.map upperByte := by
    have h := trimSpace_between n [] (u.map upperByte) hne hune hnp hup
    simpa using h
  have hfields : Fields (TrimSpace (ToUpper rt (n ++ u))) = [n ++ u.map upperByte] := by
    rw [hupper, htrim]
    apply fields_single
    · intro e
      exact hne (List.append_eq_nil.1 e).1
    · intro c hc
      rcases List.mem_append.1 hc with h | h
      · exact hnp c h
      · exact hup c h
  cases hs : rt.SscanfFloat n with
  | none =>
    exact parseSizeMB_of_scan_error rt _ _ [] hfields (hscan.2 hs)
  | some v =>
    cases hs0 : rt.SscanfFloat (n ++ u.map upperByte) with
    | none => rw [hscan.1 hs0] at hs; cases hs
    | some v0 =>
      rw [parseSizeMB_of_one_field rt _ _ v0 hfields hs0]
      have hB : HasSuffix (n ++ u.map upperByte) (lit "B") = true := by
        rw [hasSuffix_iff]
        refine List.IsSuffix.trans ?_ (List.suffix_append n _)
        have hu' := hu
        simp only [List.mem_cons, List.mem_singleton, List.not_mem_nil, or_false] at hu'
        rcases hu' with e | e | e | e <;> rw [e] <;> decide
      rw [hB]
      simp only [Bool.or_true, if_true]
      rw [scanSuffix_attached rt n _ v0 hne hn hu, hs]
      rfl

theorem parseSizeMB_spaced (rt : Runtime) (n sp u : GoString) (hne : n ≠ [])
    (hn : ∀ c ∈ n, (48 ≤ c ∧ c ≤ 57) ∨ c = 46)
    (hspne : sp ≠ []) (hsp : Blank sp)
    (hu : u.map upperByte ∈ [lit "GB", lit "MB", lit "KB", lit "B"])
    (hupper : isASCII sp = true
      ∨ rt.unicodeToUpper (n ++ sp ++ u) = n ++ sp ++ u.map upperByte) :
    parseSizeMB rt (n ++ sp ++ u) =
      match rt.SscanfFloat n with
      | none => 0
      | some v => scaleToMB rt (u.map upperByte) v := by
  obtain ⟨hune, hup⟩ := unit_bytes _ hu
  have hnp : ∀ c ∈ n, 33 ≤ c ∧ c < 128 := fun c hc => by have := hn c hc; omega
  have hfields : Fields (TrimSpace (ToUpper rt (n ++ sp ++ u))) = [n, u.map upperByte] := by
    rw [toUpper_number_unit rt n sp u hn hsp hu hupper,
      trimSpace_between n sp (u.map upperByte) hne hune hnp hup]
    exact fields_pair n sp _ hne hune hnp hup hspne hsp
  cases hs : rt.SscanfFloat n with
  | none => exact parseSizeMB_of_scan_error rt _ _ _ hfields hs
  | some v => exact parseSizeMB_of_two_fields rt _ _ _ [] v hfields hs

/-- C13 (counterexample): the number 0.99999999999999999, whose integer part is
0, gives 1 with the unit `MB`, attached or after a space: the nearest `float64`
is 1. -/
theorem parseSizeMB_rounding_counterexample :
    (∀ rt : Runtime, parseSizeMB rt.ieee (lit "0.99999999999999999MB") = 1)
      ∧ (∀ rt : Runtime, parseSizeMB rt.ieee (lit "0.99999999999999999 MB") = 1)
      ∧ 99999999999999999 / 10 ^ 17 = 0 := by
  refine ⟨fun rt => ?_, fun rt => ?_, by decide⟩ <;>
  · unfold parseSizeMB
    rw [ieee_toInt64, ieee_mul1024, ieee_div1024]
    rfl

/-- C13 (amended): let `n` be digits with a decimal point, `u` one of the units
`GB`, `MB`, `KB`, `B` in any letter case and `sp` white space, ASCII or left
alone by the upper-casing of the runtime, and let the scanner accept `n`
followed by the unit exactly when it accepts `n`, as the scanner of package
`fmt` modelled here does for every such `n` and `u`.  Then `parseSizeMB` returns
the same for `n` followed by `u` and for `n`, `sp`, `u`: 0 when `n` does not
scan, and otherwise, for the `float64` value `v` that `n` scans to,
`int64(v * 1024)` for `GB`, `int64(v)` for `MB`, `int64(v / 1024)` for `KB`
and `int64(v / 1024 / 1024)` for `B`, computed in `float64`. -/
theorem parseSizeMB_attached_eq_spaced (rt : Runtime) (n sp u : GoString) (hne : n ≠ [])
    (hn : ∀ c ∈ n, (48 ≤ c ∧ c ≤ 57) ∨ c = 46)
    (hspne : sp ≠ []) (hsp : Blank sp)
    (hu : u.map upperByte ∈ [lit "GB", lit "MB", lit "KB", lit "B"])
    (hupper : isASCII sp = true
      ∨ rt.unicodeToUpper (n ++ sp ++ u) = n ++ sp ++ u.map upperByte)
    (hscan : rt.SscanfFloat (n ++ u.map upperByte) = none ↔ rt.SscanfFloat n = none) :
    parseSizeMB rt (n ++ u) = parseSizeMB rt (n ++ sp ++ u)
      ∧ (rt.SscanfFloat n = none → parseSizeMB rt (n ++ u) = 0)
      ∧ (∀ v, rt.SscanfFloat n = some v →
          (u.map upperByte = lit "GB" → parseSizeMB rt (n ++ u) = rt.toInt64 (rt.mul1024 v))
            ∧ (u.map upperByte = lit "MB" → parseSizeMB rt (n ++ u) = rt.toInt64 v)
            ∧ (u.map upperByte = lit "KB" → parseSizeMB rt (n ++ u) = rt.toInt64 (rt.div1024 v))
            ∧ (u.map upperByte = lit "B" →
                parseSizeMB rt (n ++ u) = rt.toInt64 (rt.div1024 (rt.div1024 v))))
      ∧ (∀ base : Runtime,
          base.ieee.SscanfFloat (n ++ u.map upperByte) = base.ieee.SscanfFloat n) := by
  have ha := parseSizeMB_attached rt n u hne hn hu hscan
  have hs := parseSizeMB_spaced rt n sp u hne hn hspne hsp hu hupper
  refine ⟨ha.trans hs.symm, ?_, ?_, fun base => ieee_scan_attached base n _ hne hn hu⟩
  · intro h
    rw [ha, h]
  · intro v h
    rw [ha, h]
    dsimp only
    obtain ⟨h1, h2, h3, h4⟩ := scaleToMB_units rt v
    refine ⟨?_, ?_, ?_, ?_⟩ <;> intro e <;> rw [e] <;> assumption

set_option maxRecDepth 100000 in
/-- C13 (witness): the number 1.2 with the unit `gb`, attached and after two
spaces, with IEEE 754 arithmetic: both give 1228. -/
theorem parseSizeMB_attached_eq_spaced_witness :
    parseSizeMB exampleRuntime.ieee (lit "1.2gb") = parseSizeMB exampleRuntime.ieee (lit "1.2  gb")
      ∧ parseSizeMB exampleRuntime.ieee (lit "1.2gb") = 1228 :=
  have h := parseSizeMB_attached_eq_spaced exampleRuntime.ieee (lit "1.2") (lit "  ") (lit "gb")
    (by decide) (by decide) (by decide) ⟨[[32], [32]], by decide, by decide⟩ (by decide)
    (Or.inl (by decide))
    (by
      have h1 : exampleRuntime.ieee.SscanfFloat (lit "1.2" ++ (lit "gb").map upperByte)
          = some ⟨0x3ff3333333333333⟩ := by rfl
      have h2 : exampleRuntime.ieee.SscanfFloat (lit "1.2") = some ⟨0x3ff3333333333333⟩ := by
        rfl
      rw [h1, h2])
  ⟨h.1, by
    have h3 := (h.2.2.1 ⟨0x3ff3333333333333⟩ (by rfl)).1 (by decide)
    rw [ieee_toInt64, ieee_mul1024] at h3
    exact h3.trans (by rfl)⟩

/-! ## Sizes: the sign of the result -/

theorem pack_neg (n : Bool) (ef fr : Nat) (hef : ef < 2048) (hfr : fr < 2 ^ 52) :
    (Float64.pack n ef fr).neg = n := by
  unfold Float64.pack Float64.neg
  norm_num at hfr ⊢
  cases n
  · simp only [Bool.false_eq_true, if_false, decide_eq_false_iff_not]
    omega
  · simp only [if_true, decide_eq_true_eq]
    omega

theorem pack_expField (n : Bool) (ef fr : Nat) (hef : ef < 2048) (hfr : fr < 2 ^ 52) :
    (Float64.pack n ef fr).expField = ef := by
  unfold Float64.pack Float64.expField
  norm_num at hfr ⊢
  cases n
  · simp only [Bool.false_eq_true, if_false]
    omega
  · simp only [if_true]
    omega

theorem frac_lt (x : Float64) : x.frac < 2 ^ 52 := by
  unfold Float64.frac
  exact Nat.mod_lt _ (by norm_num)

theorem mantissa_lt (x : Float64) : x.mantissa < 2 ^ 53 := by
  unfold Float64.mantissa
  have := frac_lt x
  norm_num at this ⊢
  split <;> omega


theorem scale2_pos (num den : Nat) (e : Int) (hden : 0 < den) : 0 < (scale2 num den e).2 := by
  unfold scale2
  split
  · exact hden
  · exact Nat.mul_pos hden (Nat.pos_pow_of_pos _ (by norm_num))

theorem scale2_val (num den : Nat) (e : Int) (hden : 0 < den) :
    ((scale2 num den e).1 : ℚ) / ((scale2 num den e).2 : ℚ) = (num : ℚ) / den * (2 : ℚ) ^ e := by
  have hd : (den : ℚ) ≠ 0 := by exact_mod_cast hden.ne'
  unfold scale2
  split
  · rename_i h
    obtain ⟨k, rfl⟩ := Int.eq_ofNat_of_zero_le h
    simp only [Int.toNat_ofNat, Nat.cast_mul, Nat.cast_pow, Nat.cast_ofNat, zpow_natCast]
    field_simp
  · rename_i h
    obtain ⟨k, hk⟩ := Int.eq_ofNat_of_zero_le (show 0 ≤ -e by omega)
    have he : e = -(k : Int) := by omega
    subst he
    simp only [neg_neg, Int.toNat_ofNat, Nat.cast_mul, Nat.cast_pow, Nat.cast_ofNat, zpow_neg,
      zpow_natCast]
    field_simp

theorem log2Aux_eq (fuel n : Nat) (h : n ≤ fuel) : log2Aux fuel n = Nat.log 2 n := by
  induction fuel generalizing n with
  | zero =>
    have : n = 0 := by omega
    subst this
    simp [log2Aux]
  | succ fuel ih =>
    unfold log2Aux
    split
    · rename_i hlt
      exact (Nat.log_of_lt hlt).symm
    · rename_i hge
      rw [ih (n / 2) (by omega)]
      exact (Nat.log_of_one_lt_of_le (by norm_num) (by omega)).symm

theorem log2Floor_eq (n : Nat) : log2Floor n = Nat.log 2 n :=
  log2Aux_eq n n (le_refl n)

theorem ratio_log_bounds (num den : Nat) (hnum : 0 < num) (hden : 0 < den) :
    (2 : ℚ) ^ ((log2Floor num : Int) - (log2Floor den : Int) - 1) < (num : ℚ) / den
      ∧ (num : ℚ) / den < (2 : ℚ) ^ ((log2Floor num : Int) - (log2Floor den : Int) + 1) := by
  rw [log2Floor_eq, log2Floor_eq]
  have hd : (0 : ℚ) < den := by exact_mod_cast hden
  have h1 : ((2 : ℚ) ^ (Nat.log 2 num : Int)) ≤ num := by
    rw [zpow_natCast]
    exact_mod_cast Nat.pow_log_le_self 2 hnum.ne'
  have h2 : (num : ℚ) < (2 : ℚ) ^ ((Nat.log 2 num : Int) + 1) := by
    have := Nat.lt_pow_succ_log_self (by norm_num : 1 < 2) num
    have h : (num : ℚ) < (2 : ℚ) ^ (Nat.log 2 num + 1) := by exact_mod_cast this
    rwa [← zpow_natCast, Nat.cast_add, Nat.cast_one] at h
  have h3 : ((2 : ℚ) ^ (Nat.log 2 den : Int)) ≤ den := by
    rw [zpow_natCast]
    exact_mod_cast Nat.pow_log_le_self 2 hden.ne'
  have h4 : (den : ℚ) < (2 : ℚ) ^ ((Nat.log 2 den : Int) + 1) := by
    have := Nat.lt_pow_succ_log_self (by norm_num : 1 < 2) den
    have h : (den : ℚ) < (2 : ℚ) ^ (Nat.log 2 den + 1) := by exact_mod_cast this
    rwa [← zpow_natCast, Nat.cast_add, Nat.cast_one] at h
  constructor
  · rw [lt_div_iff₀ hd]
    calc (2 : ℚ) ^ ((Nat.log 2 num : Int) - (Nat.log 2 den : Int) - 1) * den
        < (2 : ℚ) ^ ((Nat.log 2 num : Int) - (Nat.log 2 den : Int) - 1)
            * (2 : ℚ) ^ ((Nat.log 2 den : Int) + 1) :=
          mul_lt_mul_of_pos_left h4 (by positivity)
      _ = (2 : ℚ) ^ (Nat.log 2 num : Int) := by
          rw [← zpow_add₀ (by norm_num : (2 : ℚ) ≠ 0)]
          congr 1
          ring
      _ ≤ num := h1
  · rw [div_lt_iff₀ hd]
    calc (num : ℚ) < (2 : ℚ) ^ ((Nat.log 2 num : Int) + 1) := h2
      _ = (2 : ℚ) ^ ((Nat.log 2 num : Int) - (Nat.log 2 den : Int) + 1)
            * (2 : ℚ) ^ (Nat.log 2 den : Int) := by
          rw [← zpow_add₀ (by norm_num : (2 : ℚ) ≠ 0)]
          congr 1
          ring
      _ ≤ (2 : ℚ) ^ ((Nat.log 2 num : Int) - (Nat.log 2 den : Int) + 1) * den :=
          mul_le_mul_of_nonneg_left h3 (by positivity)

theorem ratio_exponent_bounds (num den : Nat) (hnum : 0 < num) (hden : 0 < den) (l₀ l : Int)
    (hl₀ : l₀ = (log2Floor num : Int) - (log2Floor den : Int))
    (hl : l = if (scale2 num den (-l₀)).2 ≤ (scale2 num den (-l₀)).1 then l₀ else l₀ - 1) :
    (2 : ℚ) ^ l ≤ (num : ℚ) / den ∧ (num : ℚ) / den < (2 : ℚ) ^ (l + 1) := by
  obtain ⟨hlo, hhi⟩ := ratio_log_bounds num den hnum hden
  rw [← hl₀] at hlo hhi
  have hv := scale2_val num den (-l₀) hden
  have hp : (0 : ℚ) < ((scale2 num den (-l₀)).2 : ℚ) := by
    exact_mod_cast scale2_pos num den (-l₀) hden
  have h2 : (0 : ℚ) < (2 : ℚ) ^ l₀ := by positivity
  have hq : (num : ℚ) / den = (num : ℚ) / den * (2 : ℚ) ^ (-l₀) * (2 : ℚ) ^ l₀ := by
    rw [mul_assoc, ← zpow_add₀ (by norm_num : (2 : ℚ) ≠ 0)]
    simp
  by_cases hc : (scale2 num den (-l₀)).2 ≤ (scale2 num den (-l₀)).1
  · rw [if_pos hc] at hl
    rw [hl]
    refine ⟨?_, hhi⟩
    have hc' : ((scale2 num den (-l₀)).2 : ℚ) ≤ ((scale2 num den (-l₀)).1 : ℚ) := by
      exact_mod_cast hc
    have : (1 : ℚ) ≤ (num : ℚ) / den * (2 : ℚ) ^ (-l₀) := by
      rw [← hv, le_div_iff₀ hp, one_mul]
      exact hc'
    rw [hq]
    calc (2 : ℚ) ^ l₀ = 1 * (2 : ℚ) ^ l₀ := (one_mul _).symm
      _ ≤ _ := mul_le_mul_of_nonneg_right this h2.le
  · rw [if_neg hc] at hl
    rw [hl]
    refine ⟨hlo.le, ?_⟩
    have hc' : ((scale2 num den (-l₀)).1 : ℚ) < ((scale2 num den (-l₀)).2 : ℚ) := by
      exact_mod_cast Nat.lt_of_not_le hc
    have : (num : ℚ) / den * (2 : ℚ) ^ (-l₀) < 1 := by
      rw [← hv, div_lt_iff₀ hp, one_mul]
      exact hc'
    rw [sub_add_cancel, hq]
    calc _ < 1 * (2 : ℚ) ^ l₀ := mul_lt_mul_of_pos_right this h2
      _ = (2 : ℚ) ^ l₀ := one_mul _

theorem roundHalfEven_le (num den : Nat) : roundHalfEven num den ≤ num / den + 1 := by
  unfold roundHalfEven
  dsimp only
  split
  · omega
  · split
    · omega
    · split <;> omega

theorem ofRatio_pack (n : Bool) (num den : Nat) (hden : 0 < den) (B : Int)
    (hB : (num : ℚ) / den < (2 : ℚ) ^ B) :
    ∃ ef fr, Float64.ofRatio n num den = Float64.pack n ef fr ∧ fr < 2 ^ 52 ∧ ef < 2048
      ∧ (ef : Int) ≤ max (B + 1023) 2 := by
  unfold Float64.ofRatio
  by_cases h0 : num = 0
  · rw [if_pos h0]
    exact ⟨0, 0, rfl, by norm_num, by norm_num, by simp⟩
  rw [if_neg h0]
  lift_lets
  intro l₀ below l e scaled m m' e'
  have hnum : 0 < num := Nat.pos_of_ne_zero h0
  obtain ⟨hlow, hup⟩ := ratio_exponent_bounds num den hnum hden l₀ l rfl rfl
  have hlB : l < B := (zpow_lt_zpow_iff_right₀ (by norm_num : (1 : ℚ) < 2)).1 (lt_of_le_of_lt hlow hB)
  have he : e = max (l - 52) (-1074) := rfl
  have he1 : l - 52 ≤ e := by rw [he]; exact le_max_left _ _
  have he2 : -1074 ≤ e := by rw [he]; exact le_max_right _ _
  have he3 : e + 1076 ≤ max (B + 1023) 2 := by
    rw [he]
    rcases le_total (l - 52) (-1074) with h | h
    · rw [max_eq_right h]
      exact le_trans (by norm_num) (le_max_right _ _)
    · rw [max_eq_left h]
      exact le_trans (by omega) (le_max_left _ _)
  have hsp : 0 < scaled.2 := scale2_pos num den (-e) hden
  have hsv : (scaled.1 : ℚ) / (scaled.2 : ℚ) = (num : ℚ) / den * (2 : ℚ) ^ (-e) :=
    scale2_val num den (-e) hden
  have hs : scaled.1 < scaled.2 * 2 ^ 53 := by
    have hspq : (0 : ℚ) < (scaled.2 : ℚ) := by exact_mod_cast hsp
    have h1 : (scaled.1 : ℚ) / (scaled.2 : ℚ) < (2 : ℚ) ^ (53 : Int) := by
      rw [hsv]
      calc (num : ℚ) / den * (2 : ℚ) ^ (-e) < (2 : ℚ) ^ (l + 1) * (2 : ℚ) ^ (-e) :=
            mul_lt_mul_of_pos_right hup (by positivity)
        _ = (2 : ℚ) ^ (l + 1 + -e) := (zpow_add₀ (by norm_num : (2 : ℚ) ≠ 0) _ _).symm
        _ ≤ (2 : ℚ) ^ (53 : Int) := zpow_le_zpow_right₀ (by norm_num) (by omega)
    rw [div_lt_iff₀ hspq] at h1
    have h2 : (scaled.1 : ℚ) < (scaled.2 : ℚ) * (2 : ℚ) ^ (53 : Nat) := by
      rw [mul_comm]
      exact_mod_cast h1
    exact_mod_cast h2
  have hm : m ≤ 2 ^ 53 := by
    have h1 : scaled.1 / scaled.2 < 2 ^ 53 := Nat.div_lt_of_lt_mul hs
    have h2 := roundHalfEven_le scaled.1 scaled.2
    show roundHalfEven scaled.1 scaled.2 ≤ 2 ^ 53
    omega
  have hm' : m' < 2 ^ 53 := by
    show (if m = 2 ^ 53 then 2 ^ 52 else m) < 2 ^ 53
    split
    · norm_num
    · rename_i hne
      exact lt_of_le_of_ne hm hne
  have he' : e ≤ e' ∧ e' ≤ e + 1 := by
    show e ≤ (if m = 2 ^ 53 then e + 1 else e) ∧ (if m = 2 ^ 53 then e + 1 else e) ≤ e + 1
    split <;> constructor <;> omega
  by_cases hc1 : m' < 2 ^ 52
  · rw [if_pos hc1]
    exact ⟨0, m', rfl, hc1, by norm_num, le_trans (by norm_num) (le_max_right _ _)⟩
  · rw [if_neg hc1]
    by_cases hc2 : 2046 < e' + 1075
    · rw [if_pos hc2]
      refine ⟨2047, 0, rfl, by norm_num, by norm_num, le_trans ?_ he3⟩
      push_cast
      omega
    · rw [if_neg hc2]
      refine ⟨(e' + 1075).toNat, m' - 2 ^ 52, rfl, ?_, ?_, le_trans ?_ he3⟩
      · norm_num at hm' ⊢
        omega
      · omega
      · omega

theorem exponent_le (x : Float64) : x.exponent ≤ max (x.expField : Int) 1 - 1075 := by
  unfold Float64.exponent
  split
  · rename_i h
    rw [h]
    norm_num
  · rename_i h
    have : (1 : Int) ≤ (x.expField : Int) := by omega
    rw [max_eq_left this]

theorem scaled_pack (x : Float64) (k : Int) :
    ∃ ef fr, Float64.ofRatio x.neg (scale2 x.mantissa 1 (x.exponent + k)).1
        (scale2 x.mantissa 1 (x.exponent + k)).2 = Float64.pack x.neg ef fr
      ∧ fr < 2 ^ 52 ∧ ef < 2048 ∧ (ef : Int) ≤ max (x.exponent + k + 1076) 2 := by
  have hpos := scale2_pos x.mantissa 1 (x.exponent + k) Nat.one_pos
  have hval := scale2_val x.mantissa 1 (x.exponent + k) Nat.one_pos
  have hB : ((scale2 x.mantissa 1 (x.exponent + k)).1 : ℚ)
      / ((scale2 x.mantissa 1 (x.exponent + k)).2 : ℚ) < (2 : ℚ) ^ (x.exponent + k + 53) := by
    rw [hval, Nat.cast_one, div_one]
    have hm : (x.mantissa : ℚ) < (2 : ℚ) ^ (53 : Int) := by
      have := mantissa_lt x
      have h : (x.mantissa : ℚ) < (2 : ℚ) ^ (53 : Nat) := by exact_mod_cast this
      exact_mod_cast h
    calc (x.mantissa : ℚ) * (2 : ℚ) ^ (x.exponent + k)
        < (2 : ℚ) ^ (53 : Int) * (2 : ℚ) ^ (x.exponent + k) :=
          mul_lt_mul_of_pos_right hm (by positivity)
      _ = (2 : ℚ) ^ (x.exponent + k + 53) := by
          rw [← zpow_add₀ (by norm_num : (2 : ℚ) ≠ 0)]
          congr 1
          ring
  obtain ⟨ef, fr, h1, h2, h3, h4⟩ := ofRatio_pack x.neg _ _ hpos _ hB
  refine ⟨ef, fr, h1, h2, h3, ?_⟩
  have : x.exponent + k + 53 + 1023 = x.exponent + k + 1076 := by ring
  rwa [this] at h4

theorem mul1024_neg (x : Float64) : (Float64.mul1024 x).neg = x.neg := by
  unfold Float64.mul1024
  split
  · obtain ⟨ef, fr, h1, h2, h3, -⟩ := scaled_pack x 10
    dsimp only
    rw [h1]
    exact pack_neg _ _ _ h3 h2
  · rfl

theorem div1024_neg (x : Float64) : (Float64.div1024 x).neg = x.neg := by
  unfold Float64.div1024
  split
  · obtain ⟨ef, fr, h1, h2, h3, -⟩ := scaled_pack x (-10)
    rw [← sub_eq_add_neg] at h1
    dsimp only
    rw [h1]
    exact pack_neg _ _ _ h3 h2
  · rfl

theorem mul1024_expField (x : Float64) (h : x.expField < 1075) :
    (Float64.mul1024 x).expField < 1086 := by
  unfold Float64.mul1024
  split
  · obtain ⟨ef, fr, h1, h2, h3, h4⟩ := scaled_pack x 10
    dsimp only
    rw [h1, pack_expField _ _ _ h3 h2]
    have he := exponent_le x
    have : max (x.exponent + 10 + 1076) 2 ≤ 1085 := by
      apply max_le
      · have : max (x.expField : Int) 1 ≤ 1074 := max_le (by omega) (by norm_num)
        omega
      · norm_num
    omega
  · omega

theorem div1024_expField (x : Float64) (b : Nat) (hb : 13 ≤ b) (h : x.expField < b) :
    (Float64.div1024 x).expField < b := by
  unfold Float64.div1024
  split
  · obtain ⟨ef, fr, h1, h2, h3, h4⟩ := scaled_pack x (-10)
    rw [← sub_eq_add_neg] at h1
    dsimp only
    rw [h1, pack_expField _ _ _ h3 h2]
    have he := exponent_le x
    have : max (x.exponent + -10 + 1076) 2 ≤ (b : Int) - 1 := by
      apply max_le
      · have : max (x.expField : Int) 1 ≤ (b : Int) - 1 := max_le (by omega) (by omega)
        omega
      · omega
    omega
  · exact h

theorem toInt64_trunc (other : Float64 → Int) (x : Float64) (h : x.expField < 1086) :
    Float64.toInt64 other x
      = if x.neg then
          -(((scale2 x.mantissa 1 x.exponent).1 / (scale2 x.mantissa 1 x.exponent).2 : Nat) : Int)
        else (((scale2 x.mantissa 1 x.exponent).1 / (scale2 x.mantissa 1 x.exponent).2 : Nat) : Int) := by
  have hfin : x.isFinite = true := by
    unfold Float64.isFinite
    exact decide_eq_true (by omega)
  have ht : (scale2 x.mantissa 1 x.exponent).1 / (scale2 x.mantissa 1 x.exponent).2 < 2 ^ 63 := by
    have hm := mantissa_lt x
    have he := exponent_le x
    have he' : x.exponent ≤ 10 := by
      have : max (x.expField : Int) 1 ≤ 1085 := max_le (by omega) (by norm_num)
      omega
    unfold scale2
    split
    · rename_i h0
      rw [Nat.div_one]
      have hk : x.exponent.toNat ≤ 10 := by omega
      calc x.mantissa * 2 ^ x.exponent.toNat < 2 ^ 53 * 2 ^ x.exponent.toNat :=
            Nat.mul_lt_mul_of_pos_right hm (Nat.pos_pow_of_pos _ (by norm_num))
        _ ≤ 2 ^ 53 * 2 ^ 10 :=
            Nat.mul_le_mul_left _ (Nat.pow_le_pow_right (by norm_num) hk)
        _ = 2 ^ 63 := by norm_num
    · exact lt_of_le_of_lt (Nat.div_le_self _ _) (lt_trans hm (by norm_num))
  unfold Float64.toInt64
  rw [if_pos hfin]
  dsimp only
  rw [if_pos]
  constructor
  · split
    · have : (0 : Int) ≤ (((scale2 x.mantissa 1 x.exponent).1 / (scale2 x.mantissa 1 x.exponent).2 : Nat) : Int) :=
        Int.ofNat_zero_le _
      have h2 : ((((scale2 x.mantissa 1 x.exponent).1 / (scale2 x.mantissa 1 x.exponent).2 : Nat) : Int)) < 2 ^ 63 := by
        exact_mod_cast ht
      omega
    · have : (0 : Int) ≤ (((scale2 x.mantissa 1 x.exponent).1 / (scale2 x.mantissa 1 x.exponent).2 : Nat) : Int) :=
        Int.ofNat_zero_le _
      omega
  · split
    · have : (0 : Int) ≤ (((scale2 x.mantissa 1 x.exponent).1 / (scale2 x.mantissa 1 x.exponent).2 : Nat) : Int) :=
        Int.ofNat_zero_le _
      omega
    · exact_mod_cast ht

theorem toInt64_of_nonneg (other : Float64 → Int) (x : Float64) (hneg : x.neg = false)
    (h : x.expField < 1086) : 0 ≤ Float64.toInt64 other x := by
  rw [toInt64_trunc other x h, hneg]
  simp only [Bool.false_eq_true, if_false]
  exact Int.ofNat_zero_le _

theorem toInt64_of_small (other : Float64 → Int) (x : Float64) (h : x.expField < 1023) :
    Float64.toInt64 other x = 0 := by
  rw [toInt64_trunc other x (by omega)]
  have ht : (scale2 x.mantissa 1 x.exponent).1 / (scale2 x.mantissa 1 x.exponent).2 = 0 := by
    have hm := mantissa_lt x
    have he := exponent_le x
    have he' : x.exponent ≤ -53 := by
      have : max (x.expField : Int) 1 ≤ 1022 := max_le (by omega) (by norm_num)
      omega
    unfold scale2
    rw [if_neg (by omega)]
    dsimp only
    rw [one_mul]
    apply Nat.div_eq_of_lt
    have hk : 53 ≤ (-x.exponent).toNat := by omega
    exact lt_of_lt_of_le hm (Nat.pow_le_pow_right (by norm_num) hk)
  rw [ht]
  split <;> rfl

theorem toInt64_of_neg (other : Float64 → Int) (x : Float64) (hneg : x.neg = true)
    (h1 : 1023 ≤ x.expField) (h : x.expField < 1086) : Float64.toInt64 other x < 0 := by
  rw [toInt64_trunc other x h, hneg]
  simp only [if_true]
  have ht : 0 < (scale2 x.mantissa 1 x.exponent).1 / (scale2 x.mantissa 1 x.exponent).2 := by
    have hm : 2 ^ 52 ≤ x.mantissa := by
      unfold Float64.mantissa
      rw [if_neg (by omega)]
      exact Nat.le_add_right _ _
    have he : x.exponent = (x.expField : Int) - 1075 := by
      unfold Float64.exponent
      rw [if_neg (by omega)]
    unfold scale2
    split
    · rw [Nat.div_one]
      exact Nat.mul_pos (lt_of_lt_of_le (by norm_num) hm) (Nat.pos_pow_of_pos _ (by norm_num))
    · dsimp only
      rw [one_mul]
      apply Nat.div_pos
      · have hk : (-x.exponent).toNat ≤ 52 := by omega
        exact le_trans (Nat.pow_le_pow_right (by norm_num) hk) hm
      · exact Nat.pos_pow_of_pos _ (by norm_num)
  omega

theorem readMantissa_digits_lt (s : GoString) (d sc : Nat) (sd sg : Bool) :
    (readMantissa s d sc sd sg).1 < (d + 1) * 10 ^ s.length := by
  induction s generalizing d sc sd sg with
  | nil =>
    simp [readMantissa]
  | cons c rest ih =>
    have hpos : 0 < 10 ^ rest.length := Nat.pos_pow_of_pos _ (by norm_num)
    have hstep : (d + 1) * 10 ^ rest.length ≤ (d + 1) * 10 ^ (c :: rest).length := by
      rw [List.length_cons, pow_succ]
      nlinarith
    have hd : d < (d + 1) * 10 ^ (c :: rest).length := by
      rw [List.length_cons, pow_succ]
      nlinarith
    unfold readMantissa
    split
    · split
      · exact hd
      · exact lt_of_lt_of_le (ih d sc true sg) hstep
    · split
      · rename_i hdig
        refine lt_of_lt_of_le (ih _ _ sd true) ?_
        rw [List.length_cons, pow_succ]
        have : d * 10 + (c - 48) + 1 ≤ (d + 1) * 10 := by omega
        calc (d * 10 + (c - 48) + 1) * 10 ^ rest.length
            ≤ ((d + 1) * 10) * 10 ^ rest.length := Nat.mul_le_mul_right _ this
          _ = (d + 1) * (10 ^ rest.length * 10) := by ring
      · exact hd

theorem readMantissa_rest (s : GoString) (hs : ∀ c ∈ s, (48 ≤ c ∧ c ≤ 57) ∨ c = 46)
    (d sc : Nat) (sd sg : Bool) :
    (readMantissa s d sc sd sg).2.2.2 = []
      ∨ ∃ r, (readMantissa s d sc sd sg).2.2.2 = 46 :: r := by
  induction s generalizing d sc sd sg with
  | nil => exact Or.inl (by simp [readMantissa])
  | cons c rest ih =>
    have hrest : ∀ c ∈ rest, (48 ≤ c ∧ c ≤ 57) ∨ c = 46 :=
      fun x hx => hs x (List.mem_cons_of_mem _ hx)
    have hc := hs c (List.mem_cons_self _ _)
    unfold readMantissa
    split
    · rename_i h46
      split
      · exact Or.inr ⟨rest, by rw [h46]⟩
      · exact ih hrest _ _ _ _
    · split
      · exact ih hrest _ _ _ _
      · rename_i h1 h2
        omega

theorem decimalValue_bounds (digits scale : Nat) (v : Float64) (hd : digits < 10 ^ 15)
    (h : decimalValue false digits scale 0 = some v) : v.neg = false ∧ v.expField < 1075 := by
  have key : ∀ num den : Nat, 0 < den → num ≤ digits * den →
      (Float64.ofRatio false num den).neg = false
        ∧ (Float64.ofRatio false num den).expField < 1075 := by
    intro num den hden hle
    have hB : (num : ℚ) / den < (2 : ℚ) ^ (50 : Int) := by
      have hdq : (0 : ℚ) < den := by exact_mod_cast hden
      rw [div_lt_iff₀ hdq]
      have h1 : (num : ℚ) ≤ (digits : ℚ) * den := by exact_mod_cast hle
      have h2 : (digits : ℚ) < (2 : ℚ) ^ (50 : Int) := by
        have : digits < 2 ^ 50 := lt_trans hd (by norm_num)
        have h : (digits : ℚ) < (2 : ℚ) ^ (50 : Nat) := by exact_mod_cast this
        exact_mod_cast h
      calc (num : ℚ) ≤ (digits : ℚ) * den := h1
        _ < (2 : ℚ) ^ (50 : Int) * den := mul_lt_mul_of_pos_right h2 hdq
    obtain ⟨ef, fr, h1, h2, h3, h4⟩ := ofRatio_pack false num den hden 50 hB
    rw [h1, pack_neg _ _ _ h3 h2, pack_expField _ _ _ h3 h2]
    refine ⟨rfl, ?_⟩
    have : max ((50 : Int) + 1023) 2 = 1073 := by norm_num
    rw [this] at h4
    omega
  unfold decimalValue at h
  dsimp only at h
  split at h
  · rename_i hp
    split at h
    · cases h
      refine key _ 1 Nat.one_pos ?_
      have : ((0 : Int) - (scale : Int)).toNat = 0 := by omega
      rw [this]
      simp
    · cases h
  · rename_i hp
    split at h
    · cases h
      exact key _ _ (Nat.pos_pow_of_pos _ (by norm_num))
        (Nat.le_mul_of_pos_right _ (Nat.pos_pow_of_pos _ (by norm_num)))
    · cases h

theorem lowerByte_of_decimal (c : Nat) (hc : (48 ≤ c ∧ c ≤ 57) ∨ c = 46) : lowerByte c = c := by
  unfold lowerByte
  rw [if_neg (by omega)]

theorem map_lower_decimal (t : GoString) (ht : ∀ c ∈ t, (48 ≤ c ∧ c ≤ 57) ∨ c = 46) :
    t.map lowerByte = t := by
  conv_rhs => rw [← List.map_id t]
  exact List.map_congr_left (fun c hc => lowerByte_of_decimal c (ht c hc))

theorem parseFloat_decimal_bounds (t : GoString) (ht : ∀ c ∈ t, (48 ≤ c ∧ c ≤ 57) ∨ c = 46)
    (hlen : t.length ≤ 15) (v : Float64) (h : parseFloat t = some v) :
    v.neg = false ∧ v.expField < 1075 := by
  have hne : ∀ w : GoString, (∃ c, w.head? = some c ∧ ¬ ((48 ≤ c ∧ c ≤ 57) ∨ c = 46)) → t ≠ w := by
    rintro w ⟨c, hw, hc⟩ e
    subst e
    exact hc (ht c (List.mem_of_mem_head? hw))
  have h1 : t ≠ lit "nan" := hne _ ⟨110, rfl, by omega⟩
  have h2 : t ≠ lit "inf" := hne _ ⟨105, rfl, by omega⟩
  have h3 : t ≠ lit "+inf" := hne _ ⟨43, rfl, by omega⟩
  have h4 : t ≠ lit "-inf" := hne _ ⟨45, rfl, by omega⟩
  have h43 : t.head? ≠ some 43 := fun e => by
    have := ht 43 (List.mem_of_mem_head? e)
    omega
  have h45 : t.head? ≠ some 45 := fun e => by
    have := ht 45 (List.mem_of_mem_head? e)
    omega
  unfold parseFloat at h
  rw [map_lower_decimal t ht, if_neg h1, if_neg (by tauto), if_neg h4] at h
  have hneg : decide (t.head? = some 45) = false := decide_eq_false h45
  have hbody : (if t.head? = some 43 ∨ t.head? = some 45 then t.drop 1 else t) = t :=
    if_neg (by tauto)
  dsimp only at h
  rw [hneg, hbody] at h
  have hdig := readMantissa_digits_lt t 0 0 false false
  have hrest := readMantissa_rest t ht 0 0 false false
  have hd15 : (readMantissa t 0 0 false false).1 < 10 ^ 15 := by
    refine lt_of_lt_of_le hdig ?_
    rw [Nat.zero_add, Nat.one_mul]
    exact Nat.pow_le_pow_right (by norm_num) hlen
  revert h hd15 hrest
  generalize readMantissa t 0 0 false false = res
  obtain ⟨D, SC, SD, rest⟩ := res
  intro h hrest hd15
  dsimp only at hd15 hrest
  cases SD with
  | false => cases h
  | true =>
    cases rest with
    | nil => exact decimalValue_bounds D SC v hd15 h
    | cons c r =>
      rcases hrest with e | ⟨r', e⟩
      · cases e
      · simp only [List.cons.injEq] at e
        obtain ⟨rfl, -⟩ := e
        dsimp only at h
        rw [if_neg (by omega)] at h
        cases h

theorem scaleToMB_ieee_nonneg (rt : Runtime) (unit : GoString) (v : Float64)
    (hn : v.neg = false) (he : v.expField < 1075) : 0 ≤ scaleToMB rt.ieee unit v := by
  have h1 : 0 ≤ Float64.toInt64 rt.toInt64 v := toInt64_of_nonneg _ v hn (by omega)
  have h2 : 0 ≤ Float64.toInt64 rt.toInt64 (Float64.mul1024 v) :=
    toInt64_of_nonneg _ _ (by rw [mul1024_neg, hn]) (mul1024_expField v he)
  have h3 : 0 ≤ Float64.toInt64 rt.toInt64 (Float64.div1024 v) :=
    toInt64_of_nonneg _ _ (by rw [div1024_neg, hn])
      (div1024_expField v 1086 (by norm_num) (by omega))
  have h4 : 0 ≤ Float64.toInt64 rt.toInt64 (Float64.div1024 (Float64.div1024 v)) :=
    toInt64_of_nonneg _ _ (by rw [div1024_neg, div1024_neg, hn])
      (div1024_expField _ 1086 (by norm_num)
        (div1024_expField v 1086 (by norm_num) (by omega)))
  rcases scaleToMB_cases rt.ieee unit v with e | e | e | e
  · rw [e]; exact h1
  · rw [e]; exact h2
  · rw [e]; exact h3
  · rw [e]; exact h4

theorem parseSizeMB_ieee_nonneg (rt : Runtime) (size : GoString)
    (h : ∀ first more tok v, Fields (TrimSpace (ToUpper rt.ieee size)) = first :: more →
      tok <+: first → rt.ieee.SscanfFloat tok = some v → v.neg = false ∧ v.expField < 1075) :
    0 ≤ parseSizeMB rt.ieee size := by
  rcases parseSizeMB_cases rt.ieee size with h0 | ⟨first, more, tok, v, hf, hp, hv, hr⟩
  · rw [h0]
  · obtain ⟨hn, he⟩ := h first more tok v hf hp hv
    have hs := scaleToMB_units rt.ieee v
    have hGB := scaleToMB_ieee_nonneg rt (lit "GB") v hn he
    have hMB := scaleToMB_ieee_nonneg rt (lit "MB") v hn he
    have hKB := scaleToMB_ieee_nonneg rt (lit "KB") v hn he
    have hB := scaleToMB_ieee_nonneg rt (lit "B") v hn he
    rw [hs.1] at hGB
    rw [hs.2.1] at hMB
    rw [hs.2.2.1] at hKB
    rw [hs.2.2.2] at hB
    rcases hr with e | e | e | e <;> rw [e] <;> assumption

theorem ieee_scan_decimal_bounds (rt : Runtime) (n : GoString) (hne : n ≠ [])
    (hn : ∀ c ∈ n, (48 ≤ c ∧ c ≤ 57) ∨ c = 46) (hlen : n.length ≤ 15) (v : Float64)
    (h : rt.ieee.SscanfFloat n = some v) : v.neg = false ∧ v.expField < 1075 := by
  rw [ieee_scan, scanFloat_decimal n hne hn] at h
  dsimp only at h
  have hp := floatToken_prefix_of_decimal n hn
  exact parseFloat_decimal_bounds (floatToken n) (fun c hc => hn c (hp.subset hc))
    (le_trans hp.length_le hlen) v h

theorem parseSizeMB_decimal_attached_nonneg (rt : Runtime) (n u : GoString) (hne : n ≠ [])
    (hn : ∀ c ∈ n, (48 ≤ c ∧ c ≤ 57) ∨ c = 46) (hlen : n.length ≤ 15)
    (hu : u.map upperByte ∈ [lit "GB", lit "MB", lit "KB", lit "B"]) :
    0 ≤ parseSizeMB rt.ieee (n ++ u) := by
  rw [parseSizeMB_attached rt.ieee n u hne hn hu
    (by rw [ieee_scan_attached rt n (u.map upperByte) hne hn hu])]
  cases hv : rt.ieee.SscanfFloat n with
  | none => exact le_refl _
  | some v =>
    obtain ⟨h1, h2⟩ := ieee_scan_decimal_bounds rt n hne hn hlen v hv
    exact scaleToMB_ieee_nonneg rt _ v h1 h2

theorem parseSizeMB_decimal_spaced_nonneg (rt : Runtime) (n sp u : GoString) (hne : n ≠ [])
    (hn : ∀ c ∈ n, (48 ≤ c ∧ c ≤ 57) ∨ c = 46) (hlen : n.length ≤ 15)
    (hspne : sp ≠ []) (hsp : Blank sp) (hascii : isASCII sp = true)
    (hu : u.map upperByte ∈ [lit "GB", lit "MB", lit "KB", lit "B"]) :
    0 ≤ parseSizeMB rt.ieee (n ++ sp ++ u) := by
  rw [parseSizeMB_spaced rt.ieee n sp u hne hn hspne hsp hu (Or.inl hascii)]
  cases hv : rt.ieee.SscanfFloat n with
  | none => exact le_refl _
  | some v =>
    obtain ⟨h1, h2⟩ := ieee_scan_decimal_bounds rt n hne hn hlen v hv
    exact scaleToMB_ieee_nonneg rt _ v h1 h2

theorem forall₂_right_mem {α β : Type} (R : α → β → Prop) (l₁ : List α) (l₂ : List β)
    (h : List.Forall₂ R l₁ l₂) : ∀ b ∈ l₂, ∃ a ∈ l₁, R a b := by
  induction h with
  | nil => intro b hb; cases hb
  | cons hab _ ih =>
    intro b hb
    rcases List.mem_cons.1 hb with e | hb'
    · subst e
      exact ⟨_, List.mem_cons_self _ _, hab⟩
    · obtain ⟨a, ha, hr⟩ := ih b hb'
      exact ⟨a, List.mem_cons_of_mem _ ha, hr⟩

theorem listImages_sizes (rt : Runtime) (p : cliProvider) (images : List Image)
    (h : p.listImages rt = .ok images) :
    ∀ image ∈ images, ∃ line item, rt.UnmarshalImage line = .ok item
      ∧ image.SizeMB = parseSizeMB rt item.Size := by
  cases hout : p.output rt [lit "images", lit "--no-trunc", lit "--format",
      lit "\x7b\x7bjson .\x7d\x7d"] with
  | error e =>
    unfold cliProvider.listImages at h
    rw [hout] at h
    cases h
  | ok out =>
    rw [listImages_of_output rt p out hout] at h
    intro image hi
    obtain ⟨line, -, item, hitem, himg⟩ :=
      forall₂_right_mem _ _ _ (decodeImages_ok rt _ images h) image hi
    exact ⟨line, item, hitem, by rw [himg]⟩

set_option maxRecDepth 100000 in
theorem parseSizeMB_ieee_examples (rt : Runtime) :
    parseSizeMB rt.ieee (lit "1.5GB") = 1536 ∧ parseSizeMB rt.ieee (lit "2048 kb") = 2
      ∧ parseSizeMB rt.ieee (lit "3145728B") = 3 ∧ parseSizeMB rt.ieee (lit "0.9MB") = 0
      ∧ parseSizeMB rt.ieee (lit "-0.9MB") = 0 ∧ parseSizeMB rt.ieee (lit "-1.5GB") = -1536 := by
  unfold parseSizeMB
  rw [ieee_toInt64, ieee_mul1024, ieee_div1024]
  refine ⟨?_, ?_, ?_, ?_, ?_, ?_⟩ <;> rfl

/-- C15 (amended): `parseSizeMB` returns 0, or the conversion to `int64` of a
value scanned from the first field or from a leading part of it, as it is or
scaled by 1024 up or down.  With IEEE 754 arithmetic the scaling keeps the sign
bit and a value below 2 ^ 52 (exponent field below 1075) stays below 2 ^ 63
(exponent field below 1086); the conversion of a value below 2 ^ 63 is
non-negative when the sign bit is clear, 0 when the magnitude is below 1
(exponent field below 1023) and negative otherwise.  So `parseSizeMB` is
non-negative whenever the values it can scan are non-negative and below
2 ^ 52, in particular for every unsigned decimal number of at most 15 bytes with
a unit attached or after ASCII white space.  Every image of a listing has the
`SizeMB` that `parseSizeMB` returns for the size of its record.  Examples:
`1.5GB` gives 1536, `2048 kb` gives 2, `3145728B` gives 3, `0.9MB` and `-0.9MB`
give 0, `-1.5GB` gives -1536. -/
theorem parseSizeMB_nonneg_of_scanned (rt : Runtime) (size : GoString) :
    (parseSizeMB rt size = 0
      ∨ ∃ first more tok v, Fields (TrimSpace (ToUpper rt size)) = first :: more
          ∧ tok <+: first ∧ rt.SscanfFloat tok = some v
          ∧ (parseSizeMB rt size = rt.toInt64 v
            ∨ parseSizeMB rt size = rt.toInt64 (rt.mul1024 v)
            ∨ parseSizeMB rt size = rt.toInt64 (rt.div1024 v)
            ∨ parseSizeMB rt size = rt.toInt64 (rt.div1024 (rt.div1024 v))))
      ∧ (∀ x : Float64, (Float64.mul1024 x).neg = x.neg ∧ (Float64.div1024 x).neg = x.neg
          ∧ (x.expField < 1075 → (Float64.mul1024 x).expField < 1086)
          ∧ (x.expField < 1086 → (Float64.div1024 x).expField < 1086))
      ∧ (∀ (other : Float64 → Int) (x : Float64), x.expField < 1086 →
          (x.neg = false → 0 ≤ Float64.toInt64 other x)
            ∧ (x.expField < 1023 → Float64.toInt64 other x = 0)
            ∧ (x.neg = true → 1023 ≤ x.expField → Float64.toInt64 other x < 0))
      ∧ ((∀ first more tok v, Fields (TrimSpace (ToUpper rt.ieee size)) = first :: more →
            tok <+: first → rt.ieee.SscanfFloat tok = some v →
            v.neg = false ∧ v.expField < 1075) →
          0 ≤ parseSizeMB rt.ieee size)
      ∧ (∀ n u : GoString, n ≠ [] → (∀ c ∈ n, (48 ≤ c ∧ c ≤ 57) ∨ c = 46) → n.length ≤ 15 →
          u.map upperByte ∈ [lit "GB", lit "MB", lit "KB", lit "B"] →
          0 ≤ parseSizeMB rt.ieee (n ++ u)
            ∧ ∀ sp, sp ≠ [] → Blank sp → isASCII sp = true →
                0 ≤ parseSizeMB rt.ieee (n ++ sp ++ u))
      ∧ (∀ (p : cliProvider) (images : List Image), p.listImages rt = .ok images →
          ∀ image ∈ images, ∃ line item, rt.UnmarshalImage line = .ok item
            ∧ image.SizeMB = parseSizeMB rt item.Size)
      ∧ (parseSizeMB rt.ieee (lit "1.5GB") = 1536 ∧ parseSizeMB rt.ieee (lit "2048 kb") = 2
          ∧ parseSizeMB rt.ieee (lit "3145728B") = 3 ∧ parseSizeMB rt.ieee (lit "0.9MB") = 0
          ∧ parseSizeMB rt.ieee (lit "-0.9MB") = 0 ∧ parseSizeMB rt.ieee (lit "-1.5GB") = -1536) :=
  ⟨parseSizeMB_cases rt size,
    fun x => ⟨mul1024_neg x, div1024_neg x, mul1024_expField x,
      div1024_expField x 1086 (by norm_num)⟩,
    fun other x h => ⟨fun hn => toInt64_of_nonneg other x hn h,
      fun hs => toInt64_of_small other x hs,
      fun hn h1 => toInt64_of_neg other x hn h1 h⟩,
    parseSizeMB_ieee_nonneg rt size,
    fun n u hne hn hlen hu => ⟨parseSizeMB_decimal_attached_nonneg rt n u hne hn hlen hu,
      fun sp hspne hsp hascii =>
        parseSizeMB_decimal_spaced_nonneg rt n sp u hne hn hlen hspne hsp hascii hu⟩,
    listImages_sizes rt, parseSizeMB_ieee_examples rt⟩

set_option maxRecDepth 100000 in
/-- C15 (witness): the size string `132MB`, whose leading parts scan to nothing,
1, 13 and 132, and the size string `1.5 gb`. -/
theorem parseSizeMB_nonneg_of_scanned_witness :
    0 ≤ parseSizeMB exampleRuntime.ieee (lit "132MB")
      ∧ 0 ≤ parseSizeMB exampleRuntime.ieee (lit "1.5" ++ lit " " ++ lit "gb") :=
  ⟨(parseSizeMB_nonneg_of_scanned exampleRuntime (lit "132MB")).2.2.2.1 (by
      intro first more tok v hf hp hv
      have hF : Fields (TrimSpace (ToUpper exampleRuntime.ieee (lit "132MB")))
          = [lit "132MB"] := by rfl
      rw [hF] at hf
      simp only [List.cons.injEq] at hf
      obtain ⟨h1, -⟩ := hf
      subst h1
      have hmem : tok ∈ (lit "132MB").inits := (List.mem_inits _ _).2 hp
      have hi : (lit "132MB").inits
          = [[], lit "1", lit "13", lit "132", lit "132M", lit "132MB"] := by decide
      rw [hi] at hmem
      simp only [List.mem_cons, List.mem_singleton, List.not_mem_nil, or_false] at hmem
      have s0 : exampleRuntime.ieee.SscanfFloat [] = none := by rfl
      have s1 : exampleRuntime.ieee.SscanfFloat (lit "1") = some ⟨0x3ff0000000000000⟩ := by rfl
      have s2 : exampleRuntime.ieee.SscanfFloat (lit "13") = some ⟨0x402a000000000000⟩ := by rfl
      have s3 : exampleRuntime.ieee.SscanfFloat (lit "132") = some ⟨0x4060800000000000⟩ := by rfl
      have s4 : exampleRuntime.ieee.SscanfFloat (lit "132M") = some ⟨0x4060800000000000⟩ := by
        rfl
      have s5 : exampleRuntime.ieee.SscanfFloat (lit "132MB") = some ⟨0x4060800000000000⟩ := by
        rfl
      rcases hmem with e | e | e | e | e | e <;> subst e
      · rw [s0] at hv; cases hv
      · rw [s1] at hv; cases hv; decide
      · rw [s2] at hv; cases hv; decide
      · rw [s3] at hv; cases hv; decide
      · rw [s4] at hv; cases hv; decide
      · rw [s5] at hv; cases hv; decide),
    ((parseSizeMB_nonneg_of_scanned exampleRuntime []).2.2.2.2.1 (lit "1.5") (lit "gb")
      (by decide) (by decide) (by decide) (by decide)).2 (lit " ") (by decide)
      ⟨[[32]], by decide, by decide⟩ (by decide)⟩

end GoDockerUI
